import Mathlib

/-!
# Replication coordinator of pika (`src/src/pika_rm.cc`, `src/include/pika_rm.h`)

A shallow embedding of the sliding ack window, the binlog reader pool, the
purge computations of the master partition and the term-guarded state machine
of the slave partition, followed by the properties proved about them.

Machine integers are natural numbers (or integers) with the wrap-around of the
C++ type written out where it can occur.
-/

namespace Pika

/-! ## Data model -/

/-- Modelled from the spec: `BinlogOffset` is declared in a header that is not
part of the listed sources; it is the pair of a 32-bit file index and a 64-bit
byte offset, compared componentwise. -/
structure BinlogOffset where
  filenum : Nat
  offset : Nat
deriving DecidableEq, Repr

/-- Modelled from the spec: the order of `BinlogOffset` is lexicographic, file
index first. -/
def BinlogOffset.lt (a b : BinlogOffset) : Prop :=
  a.filenum < b.filenum ∨ (a.filenum = b.filenum ∧ a.offset < b.offset)

instance (a b : BinlogOffset) : Decidable (BinlogOffset.lt a b) := by
  unfold BinlogOffset.lt; exact inferInstance

/-- Non-strict lexicographic order on offsets. -/
def BinlogOffset.le (a b : BinlogOffset) : Prop :=
  a = b ∨ BinlogOffset.lt a b

instance (a b : BinlogOffset) : Decidable (BinlogOffset.le a b) := by
  unfold BinlogOffset.le; exact inferInstance

/-- `struct SyncWinItem` of `pika_rm.h`. -/
structure SyncWinItem where
  offset_ : BinlogOffset
  acked_ : Bool
deriving DecidableEq, Repr

/-- `SyncWinItem::operator==`: only the two offset components are compared. -/
def SyncWinItem.opEq (a other : SyncWinItem) : Bool :=
  if a.offset_.filenum = other.offset_.filenum ∧ a.offset_.offset = other.offset_.offset then
    true
  else
    false

/-- `explicit SyncWinItem(const BinlogOffset&)`: a fresh item is not acked. -/
def SyncWinItem.ofOffset (o : BinlogOffset) : SyncWinItem := ⟨o, false⟩

/-- `class SyncWindow`: the deque `win_`, head first. -/
structure SyncWindow where
  win_ : List SyncWinItem
deriving DecidableEq, Repr

/-! ## SyncWindow -/

/-- `SyncWindow::Push`: `win_.push_back(item)`. -/
def SyncWindow.Push (w : SyncWindow) (item : SyncWinItem) : SyncWindow :=
  ⟨w.win_ ++ [item]⟩

/-- The search loop of `SyncWindow::Update` over the items from index `i` on:
`start_pos` is overwritten at every item equal to `start_item`, and the loop
stops at the first item equal to `end_item`. -/
def findLoop (start_item end_item : SyncWinItem) :
    List SyncWinItem → Nat → Nat → Nat → Nat × Nat
  | [], _, start_pos, end_pos => (start_pos, end_pos)
  | x :: rest, i, start_pos, end_pos =>
    let start_pos1 := if x.opEq start_item then i else start_pos
    if x.opEq end_item then (start_pos1, i)
    else findLoop start_item end_item rest (i + 1) start_pos1 end_pos

/-- The statement `win_[i].acked_ = true`. -/
def setAcked (x : SyncWinItem) : SyncWinItem := { x with acked_ := true }

/-- The body `win_[i].acked_ = true; ++i` of the marking loop, run `n` times
from index `i`. -/
def markFrom (win : List SyncWinItem) (i : Nat) : Nat → List SyncWinItem
  | 0 => win
  | n + 1 => markFrom (List.modify setAcked i win) (i + 1) n

/-- The marking loop `for (i = start_pos; i <= end_pos; ++i) win_[i].acked_ = true`:
its body runs `end_pos + 1 - start_pos` times. -/
def markLoop (win : List SyncWinItem) (start_pos end_pos : Nat) : List SyncWinItem :=
  markFrom win start_pos (end_pos + 1 - start_pos)

/-- The loop popping the head while it is acked, recording each popped offset. -/
def popLoop : List SyncWinItem → BinlogOffset → List SyncWinItem × BinlogOffset
  | [], acked_offset => ([], acked_offset)
  | x :: rest, acked_offset =>
    if x.acked_ then popLoop rest x.offset_ else (x :: rest, acked_offset)

/-- `SyncWindow::Update`: the returned flag, the window afterwards and the
value left in `*acked_offset`. -/
def SyncWindow.Update (w : SyncWindow) (start_item end_item : SyncWinItem)
    (acked_offset : BinlogOffset) : Bool × SyncWindow × BinlogOffset :=
  let size := w.win_.length
  let pos := findLoop start_item end_item w.win_ 0 size size
  if pos.1 = size ∨ pos.2 = size then (false, w, acked_offset)
  else
    let popped := popLoop (markLoop w.win_ pos.1 pos.2) acked_offset
    (true, ⟨popped.1⟩, popped.2)

/-- The window with the items at indices `i..j` marked acked (the words of the
specification, to compare with the marking loop). -/
def markedRange (win : List SyncWinItem) (i j : Nat) : List SyncWinItem :=
  List.mapIdx (fun k x => if i ≤ k ∧ k ≤ j then setAcked x else x) win

/-- The maximal all-acked prefix of a window. -/
def ackedPrefix (win : List SyncWinItem) : List SyncWinItem :=
  win.takeWhile (fun x => x.acked_)

/-- The acked offset after removing the maximal all-acked prefix: the offset of
its last item, or the previous value when the prefix is empty. -/
def ackedAfter (win : List SyncWinItem) (acked_offset : BinlogOffset) : BinlogOffset :=
  ((ackedPrefix win).getLast?.map (fun x => x.offset_)).getD acked_offset

/-- The range the specification describes for `Update`: from the first index
holding `start` to the first index at or after it holding `end`. -/
def specAckRange (win : List SyncWinItem) (start_item end_item : SyncWinItem) :
    Option (Nat × Nat) :=
  match win.findIdx? (fun x => x.opEq start_item) with
  | none => none
  | some i =>
    match (win.drop i).findIdx? (fun x => x.opEq end_item) with
    | none => none
    | some d => some (i, i + d)

/-- Conversion of an unsigned value to the C++ type `int`: the low 32 bits read
in two's complement. -/
def toInt32 (n : Nat) : Int :=
  if n % 2 ^ 32 < 2 ^ 31 then ((n % 2 ^ 32 : Nat) : Int) else ((n % 2 ^ 32 : Nat) : Int) - 2 ^ 32

/-- `SyncWindow::Remainings`. The configured `sync_window_size()` is an `int`
declared outside the listed sources and is taken as a parameter; the
subtraction is done in `std::size_t` (64 bits, wrapping), and the result is
converted to `int` on return. -/
def SyncWindow.Remainings (sync_window_size : Int) (w : SyncWindow) : Int :=
  let remaining_size : Nat := ((sync_window_size - (w.win_.length : Int)) % (2 ^ 64 : Int)).toNat
  if remaining_size > 0 then toInt32 remaining_size else 0

/-- Modelled from the spec: `RmNode` is declared outside the listed sources; it
is `(ip, port, PartitionInfo, session_id)` together with the two keepalive
timestamps that the sources read and write through its accessors. The default
values are those of the default constructor `RmNode()`. -/
structure RmNode where
  ip_ : String := ""
  port_ : Int := 0
  table_name_ : String := ""
  partition_id_ : Nat := 0
  session_id_ : Int := 0
  last_send_time_ : Nat := 0
  last_recv_time_ : Nat := 0
deriving DecidableEq, Repr

/-! ## SyncMasterPartition -/

/-- Modelled from the spec: the enumeration `SlaveState` is declared outside the
listed sources; its members are `NotSync`, `DbSync`, `BinlogSync`. -/
inductive SlaveState where
  | kSlaveNotSync
  | kSlaveDbSync
  | kSlaveBinlogSync
deriving DecidableEq, Repr

/-- Modelled from the spec: the enumeration `BinlogSyncState` is declared
outside the listed sources. -/
inductive BinlogSyncState where
  | kNotSync
  | kReadFromCache
  | kReadFromFile
deriving DecidableEq, Repr

/-- `class SlaveNode : public RmNode`. The reader handle is the identity of the
`PikaBinlogReader` object it points to, if any. -/
structure SlaveNode extends RmNode where
  slave_state : SlaveState := SlaveState.kSlaveNotSync
  b_state : BinlogSyncState := BinlogSyncState.kNotSync
  sync_win : SyncWindow := ⟨[]⟩
  sent_offset : BinlogOffset := ⟨0, 0⟩
  acked_offset : BinlogOffset := ⟨0, 0⟩
  master_term_ : Nat := 0
  binlog_reader : Option Nat := none
deriving DecidableEq, Repr

/-- The status codes of `slash::Status` used by the replication manager; the
message text is not modelled. -/
inductive Status where
  | OK
  | NotFound
  | Corruption
  | Incomplete
  | IOError
  | EndFile
deriving DecidableEq, Repr

/-- `Status::ok()`. -/
def Status.ok (s : Status) : Bool := s = Status.OK

/-- The loop over `slaves_` in `GetSafetyPurgeBinlog`: the flag `success` and
`purge_max` when the loop ends. -/
def safetyPurgeLoop : List SlaveNode → Nat → Bool × Nat
  | [], purge_max => (true, purge_max)
  | slave :: rest, purge_max =>
    if slave.slave_state = SlaveState.kSlaveBinlogSync ∧ slave.acked_offset.filenum > 0 then
      safetyPurgeLoop rest (min (slave.acked_offset.filenum - 1) purge_max)
    else (false, purge_max)

/-- `SyncMasterPartition::GetSafetyPurgeBinlog`. `tip` is the offset delivered by
`partition->GetBinlogOffset`, or `none` when the partition is missing or the
call fails; `kBinlogPrefix` is a constant declared outside the listed sources.
The result is the status and the content of `*safety_purge` afterwards. -/
def GetSafetyPurgeBinlog (kBinlogPrefix : String) (tip : Option BinlogOffset)
    (slaves_ : List SlaveNode) (safety_purge : String) : Status × String :=
  match tip with
  | none => (Status.NotFound, safety_purge)
  | some boffset =>
    let purge_max := boffset.filenum
    let r : Bool × Nat :=
      if purge_max ≥ 10 then safetyPurgeLoop slaves_ (purge_max - 10) else (false, purge_max)
    (Status.OK, if r.1 then kBinlogPrefix ++ toString (toInt32 r.2) else "none")

/-- The loop over `slaves_` in `BinlogCloudPurge`. -/
def cloudPurgeLoop (index : Nat) : List SlaveNode → Bool
  | [] => true
  | slave :: rest =>
    if slave.slave_state = SlaveState.kSlaveDbSync then false
    else if slave.slave_state = SlaveState.kSlaveBinlogSync then
      if index ≥ slave.acked_offset.filenum then false else cloudPurgeLoop index rest
    else cloudPurgeLoop index rest

/-- `SyncMasterPartition::BinlogCloudPurge`. `boffset.filenum - 10` is computed
in `uint32_t` and wraps below zero. -/
def BinlogCloudPurge (tip : Option BinlogOffset) (slaves_ : List SlaveNode) (index : Nat) :
    Bool :=
  match tip with
  | none => false
  | some boffset =>
    if index > (boffset.filenum + 2 ^ 32 - 10) % 2 ^ 32 then false
    else cloudPurgeLoop index slaves_

/-- The index the specification gives for the safety purge: the minimum of
`tip.file - 10` and of `acked.file - 1` over all slaves. -/
def specPurgeIndex (tip : BinlogOffset) (slaves_ : List SlaveNode) : Nat :=
  (slaves_.map (fun s => s.acked_offset.filenum - 1)).foldr min (tip.filenum - 10)

/-! ## SyncSlavePartition -/

/-- Modelled from the spec: the enumeration `ReplState` is declared outside the
listed sources. -/
inductive ReplState where
  | kNoConnect
  | kTryConnect
  | kTryDBSync
  | kWaitDBSync
  | kWaitReply
  | kConnected
  | kError
  | kDBNoConnect
deriving DecidableEq, Repr

/-- The data members of `class SyncSlavePartition` (the lock apart). -/
structure SyncSlavePartition where
  m_info_ : RmNode := {}
  m_term_ : Nat := 0
  repl_state_ : ReplState := ReplState.kNoConnect
  local_ip_ : String := ""
  resharding_ : Bool := false
deriving DecidableEq, Repr

/-- What the slave partition sees of the outside: the file system met by
`SetMasterUnsafe` (which paths exist, which directories `slash::CreatePath`
cannot create, which files cannot be opened for writing, on which files a write
fails after the open, and what each file holds) and the server flag set through
`SetLoopPartitionStateMachine`. -/
structure Env where
  existing : List String := []
  uncreatable : List String := []
  unopenable : List String := []
  unwritable : List String := []
  content : List (String × String) := []
  loop_partition_state_machine : Bool := false
deriving DecidableEq, Repr

/-- The content of a file, if it was written. -/
def Env.read (env : Env) (path : String) : Option String :=
  env.content.lookup path

/-- The scan behind `std::string::rfind(c)`: the last index holding `c`. -/
def rfindFrom (c : Char) : List Char → Nat → Option Nat → Option Nat
  | [], _, found => found
  | x :: rest, i, found => rfindFrom c rest (i + 1) (if x = c then some i else found)

/-- `info_file_path.rfind('/')`, with `none` for `std::string::npos`. -/
def rfind (path : String) (c : Char) : Option Nat :=
  rfindFrom c path.data 0 none

/-- `SyncSlavePartition::SetMasterUnsafe`; `now` is the value of
`slash::NowMicros()`, the `reason` argument only feeds the log. The term is a
`uint32_t`, so `++m_term_` wraps at `2^32`. The open truncates the file; the
stream is not tested after `fix << ++m_term_; fix.close()`, so when the write
fails the file stays empty and OK is returned all the same. -/
def SyncSlavePartition.SetMasterUnsafe (p : SyncSlavePartition) (env : Env) (now : Nat)
    (newMaster : RmNode) (info_file_path : String) : Status × SyncSlavePartition × Env :=
  if newMaster.ip_ = "" then
    (Status.OK, { p with m_info_ := newMaster }, env)
  else
    match rfind info_file_path '/' with
    | none => (Status.Corruption, p, env)
    | some last_slash_index =>
      let info_file_dir := String.mk (info_file_path.data.take last_slash_index)
      if info_file_dir ∉ env.existing ∧ info_file_dir ∈ env.uncreatable then
        (Status.Corruption, p, env)
      else
        let env1 : Env :=
          if info_file_dir ∈ env.existing then env
          else { env with existing := info_file_dir :: env.existing }
        if info_file_path ∈ env1.unopenable then
          (Status.Corruption, p, env1)
        else
          let term := (p.m_term_ + 1) % 2 ^ 32
          (Status.OK,
            { p with m_info_ := { newMaster with last_recv_time_ := now }, m_term_ := term },
            { env1 with
              existing := info_file_path :: env1.existing
              content :=
                (info_file_path,
                  if info_file_path ∈ env1.unwritable then "" else toString term) ::
                env1.content.filter (fun e => e.1 ≠ info_file_path) })

/-- `SyncSlavePartition::ResetMasterUnsafe`: the current master with session id 0
is set again. -/
def SyncSlavePartition.ResetMasterUnsafe (p : SyncSlavePartition) (env : Env) (now : Nat)
    (info_file_path : String) : Status × SyncSlavePartition × Env :=
  p.SetMasterUnsafe env now { p.m_info_ with session_id_ := 0 } info_file_path

/-- `SyncSlavePartition::SetReplStateUnsafe`. -/
def SyncSlavePartition.SetReplStateUnsafe (p : SyncSlavePartition) (env : Env) (now : Nat)
    (repl_state : ReplState) : SyncSlavePartition × Env :=
  if repl_state = ReplState.kNoConnect then
    let r := p.SetMasterUnsafe env now {} ""
    ({ r.2.1 with repl_state_ := ReplState.kNoConnect }, r.2.2)
  else
    ({ p with repl_state_ := repl_state }, env)

/-- `SyncSlavePartition::matchStates`. -/
def SyncSlavePartition.matchStates (p : SyncSlavePartition) :
    List ReplState → Bool
  | [] => false
  | allowed_state :: rest =>
    if allowed_state = p.repl_state_ then true else p.matchStates rest

/-- `SyncSlavePartition::NEEDS_CHECK_SYNC_TIMEOUT_STATES`. -/
def NEEDS_CHECK_SYNC_TIMEOUT_STATES : List ReplState :=
  [ReplState.kWaitDBSync, ReplState.kWaitReply, ReplState.kConnected]

/-- `SyncSlavePartition::NeedsCheckSyncTimeout`. -/
def NeedsCheckSyncTimeout (current : ReplState) : Bool :=
  NEEDS_CHECK_SYNC_TIMEOUT_STATES.any (fun s => s = current)

/-- `SyncSlavePartition::CASReplState` (the overload taking the allowed states
and an action). The action runs on the partition and its environment while the
lock is held; `now` is the value of `slash::NowMicros()` read after it. -/
def SyncSlavePartition.CASReplState (p : SyncSlavePartition) (env : Env) (now : Nat)
    (allowed_states : List ReplState) (exp_master_term : Nat)
    (action : SyncSlavePartition → Env → Status × SyncSlavePartition × Env)
    (new_state : ReplState) : Status × SyncSlavePartition × Env :=
  if ¬ p.matchStates allowed_states then
    (Status.Incomplete, p, env)
  else if exp_master_term ≠ p.m_term_ then
    (Status.Incomplete, p, env)
  else
    let r := action p env
    if r.1.ok then
      let q := r.2.1.SetReplStateUnsafe r.2.2 now new_state
      if NeedsCheckSyncTimeout q.1.repl_state_ then
        (r.1, { q.1 with m_info_ := { q.1.m_info_ with last_recv_time_ := now } }, q.2)
      else
        (r.1, q.1, q.2)
    else
      r

/-- One call of `SetMasterUnsafe`. -/
structure SetMasterCall where
  now : Nat
  newMaster : RmNode
  info_file_path : String
deriving DecidableEq, Repr

/-- The call applied to a partition and its environment. -/
def SetMasterCall.apply (c : SetMasterCall) (st : SyncSlavePartition × Env) :
    Status × SyncSlavePartition × Env :=
  st.1.SetMasterUnsafe st.2 c.now c.newMaster c.info_file_path

/-- Modelled from the spec: the equality of `RmNode` used for the keys of
`occupied_` is declared outside the listed sources; the pool is keyed by
`(ip, port, table, partition)`. -/
def RmNode.sameKey (a b : RmNode) : Bool :=
  decide (a.ip_ = b.ip_ ∧ a.port_ = b.port_ ∧ a.table_name_ = b.table_name_ ∧
    a.partition_id_ = b.partition_id_)

/-- `class BinlogReaderManager`. A reader is the identity of a
`PikaBinlogReader` object; `constructed` counts the objects made so far by
`std::make_shared`, so that a freshly constructed reader is a new object. The
map `occupied_` is kept as its list of entries. -/
structure BinlogReaderManager where
  occupied_ : List (RmNode × Nat) := []
  vacant_ : List Nat := []
  constructed : Nat := 0
deriving DecidableEq, Repr

/-- `BinlogReaderManager::FetchBinlogReader`: the status, the reader stored in
`*reader` (if any) and the manager afterwards. -/
def BinlogReaderManager.FetchBinlogReader (m : BinlogReaderManager) (rm_node : RmNode) :
    Status × Option Nat × BinlogReaderManager :=
  if (m.occupied_.find? (fun e => e.1.sameKey rm_node)).isSome then
    (Status.Corruption, none, m)
  else
    match m.vacant_ with
    | [] =>
      (Status.OK, some m.constructed,
        { m with occupied_ := (rm_node, m.constructed) :: m.occupied_
                 constructed := m.constructed + 1 })
    | reader :: rest =>
      (Status.OK, some reader,
        { m with occupied_ := (rm_node, reader) :: m.occupied_, vacant_ := rest })

/-- `BinlogReaderManager::ReleaseBinlogReader`. -/
def BinlogReaderManager.ReleaseBinlogReader (m : BinlogReaderManager) (rm_node : RmNode) :
    Status × BinlogReaderManager :=
  match m.occupied_.find? (fun e => e.1.sameKey rm_node) with
  | none => (Status.NotFound, m)
  | some e =>
    (Status.OK,
      { m with occupied_ := m.occupied_.filter (fun x => ¬ x.1.sameKey rm_node)
               vacant_ := m.vacant_ ++ [e.2] })

/-- The pool states reachable from the empty manager by fetches and releases. -/
inductive BinlogReaderManager.Reachable : BinlogReaderManager → Prop where
  | empty : BinlogReaderManager.Reachable {}
  | fetch (m : BinlogReaderManager) (rm_node : RmNode) :
      BinlogReaderManager.Reachable m →
      BinlogReaderManager.Reachable (m.FetchBinlogReader rm_node).2.2
  | release (m : BinlogReaderManager) (rm_node : RmNode) :
      BinlogReaderManager.Reachable m →
      BinlogReaderManager.Reachable (m.ReleaseBinlogReader rm_node).2

/-- The readers held by the pool, checked out or vacant. -/
def BinlogReaderManager.readers (m : BinlogReaderManager) : List Nat :=
  m.occupied_.map Prod.snd ++ m.vacant_

/-- Every reader is held once, and is an object that was constructed. -/
def BinlogReaderManager.Inv (m : BinlogReaderManager) : Prop :=
  m.readers.Nodup ∧ ∀ r ∈ m.readers, r < m.constructed

/-- A pool reached by fetching for two nodes, releasing the first and fetching for
a third. -/
def samplePool : BinlogReaderManager :=
  ((((({} : BinlogReaderManager).FetchBinlogReader
    { ip_ := "10.0.0.1", port_ := 1 }).2.2.FetchBinlogReader
    { ip_ := "10.0.0.2", port_ := 2 }).2.2.ReleaseBinlogReader
    { ip_ := "10.0.0.1", port_ := 1 }).2.FetchBinlogReader
    { ip_ := "10.0.0.3", port_ := 3 }).2.2

/-! ## Runs of pushes and single acks -/

/-- `Push` of one fresh item for each offset, in the order of the list. -/
def pushAll (w : SyncWindow) (os : List BinlogOffset) : SyncWindow :=
  os.foldl (fun acc o => acc.Push (SyncWinItem.ofOffset o)) w

/-- The calls `Update(o, o)` for the offsets of the list, in that order, each on
the window and acked offset left by the previous one; the results of the calls. -/
def ackEach : SyncWindow → BinlogOffset → List BinlogOffset →
    List (Bool × SyncWindow × BinlogOffset)
  | _, _, [] => []
  | w, a, o :: rest =>
    (w.Update (SyncWinItem.ofOffset o) (SyncWinItem.ofOffset o) a) ::
      ackEach (w.Update (SyncWinItem.ofOffset o) (SyncWinItem.ofOffset o) a).2.1
        (w.Update (SyncWinItem.ofOffset o) (SyncWinItem.ofOffset o) a).2.2 rest

/-- The longest prefix of the pushed offsets `os` made of offsets acked so far
(`done` lists the acked offsets). -/
def ackedPrefixOf (os done : List BinlogOffset) : List BinlogOffset :=
  os.takeWhile (fun o => decide (o ∈ done))

/-- The window expected once the offsets of `done` are acked: the pushed offsets
behind the fully acked prefix, each flagged acked when it is in `done`. -/
def windowAfter (os done : List BinlogOffset) : List SyncWinItem :=
  (os.dropWhile (fun o => decide (o ∈ done))).map (fun o => ⟨o, decide (o ∈ done)⟩)

/-! ## SyncSlavePartition: activation, timeout and reset -/

/-- `kSendKeepAliveTimeout` of `pika_rm.h`, in microseconds. -/
def kSendKeepAliveTimeout : Nat := 2 * 1000000

/-- `kRecvKeepAliveTimeout` of `pika_rm.h`, in microseconds. -/
def kRecvKeepAliveTimeout : Nat := 20 * 1000000

/-- The test `LastRecvTime() + kRecvKeepAliveTimeout < now`, the sum taken in
`uint64_t`. -/
def recvTimedOut (last_recv_time now : Nat) : Bool :=
  (last_recv_time + kRecvKeepAliveTimeout) % 2 ^ 64 < now

/-- The constructor `SyncSlavePartition::SyncSlavePartition`; `micros` is the
value of `slash::NowMicros()`. -/
def SyncSlavePartition.construct (micros : Nat) : SyncSlavePartition :=
  { m_info_ := { last_recv_time_ := micros }, m_term_ := 0,
    repl_state_ := ReplState.kNoConnect, local_ip_ := "", resharding_ := false }

/-- `SyncSlavePartition::SetReplState`: `SetReplStateUnsafe` under the write lock. -/
def SyncSlavePartition.SetReplState (p : SyncSlavePartition) (env : Env) (micros : Nat)
    (repl_state : ReplState) : SyncSlavePartition × Env :=
  p.SetReplStateUnsafe env micros repl_state

/-- `SyncSlavePartition::CASReplState`, the overload taking one expected state:
the action is the closure returning `Status::OK()`. -/
def SyncSlavePartition.CASReplStateOne (p : SyncSlavePartition) (env : Env) (micros : Nat)
    (exp_state : ReplState) (exp_master_term : Nat) (new_state : ReplState) :
    Status × SyncSlavePartition × Env :=
  p.CASReplState env micros [exp_state] exp_master_term
    (fun q e => (Status.OK, q, e)) new_state

/-- The closure passed to `CASReplState` by `CheckSyncTimeout`. -/
def checkSyncTimeoutAction (micros now : Nat) (info_file_path : String)
    (q : SyncSlavePartition) (e : Env) : Status × SyncSlavePartition × Env :=
  if recvTimedOut q.m_info_.last_recv_time_ now then
    let s := q.ResetMasterUnsafe e micros info_file_path
    if s.1.ok then (s.1, s.2.1, { s.2.2 with loop_partition_state_machine := true })
    else s
  else (Status.Incomplete, q, e)

/-- `SyncSlavePartition::CheckSyncTimeout`. `info_file_path` is what
`GetInfoFilePath` delivers (`none` when the table partition is not found);
`micros` is the value of `slash::NowMicros()` during the call. The status of the
inner `CASReplState` is discarded. -/
def SyncSlavePartition.CheckSyncTimeout (p : SyncSlavePartition) (env : Env) (micros : Nat)
    (info_file_path : Option String) (now : Nat) : Status × SyncSlavePartition × Env :=
  if ¬ NeedsCheckSyncTimeout p.repl_state_ then (Status.OK, p, env)
  else if (p.m_info_.last_recv_time_ + kRecvKeepAliveTimeout) % 2 ^ 64 ≥ now then
    (Status.OK, p, env)
  else
    match info_file_path with
    | none => (Status.Corruption, p, env)
    | some path =>
      let r := p.CASReplState env micros NEEDS_CHECK_SYNC_TIMEOUT_STATES p.m_term_
        (checkSyncTimeoutAction micros now path) ReplState.kTryConnect
      (Status.OK, r.2.1, r.2.2)

/-- `SyncSlavePartition::ResetReplication`. -/
def SyncSlavePartition.ResetReplication (p : SyncSlavePartition) (env : Env) (micros : Nat)
    (info_file_path : Option String) (master_term : Nat) :
    Status × SyncSlavePartition × Env :=
  match info_file_path with
  | none => (Status.Corruption, p, env)
  | some path =>
    p.CASReplState env micros [ReplState.kConnected, ReplState.kWaitDBSync] master_term
      (fun q e => q.ResetMasterUnsafe e micros path) ReplState.kTryConnect

/-- `SyncSlavePartition::Activate`. -/
def SyncSlavePartition.Activate (p : SyncSlavePartition) (env : Env) (micros : Nat)
    (master : RmNode) (repl_state : ReplState) (info_file_path : String) :
    Status × SyncSlavePartition × Env :=
  if master.ip_ = "" ∨ master.port_ ≤ 0 ∨ master.port_ ≥ 65536 then
    (Status.Corruption, p, env)
  else if master.ip_ = p.m_info_.ip_ ∧ master.port_ = p.m_info_.port_ then
    (Status.Corruption, p, env)
  else
    let ret := p.SetMasterUnsafe env micros master info_file_path
    if ¬ ret.1.ok then ret
    else
      let q := ret.2.1.SetReplStateUnsafe ret.2.2 micros repl_state
      (Status.OK, q.1, q.2)

/-- `SyncSlavePartition::Deactivate`. -/
def SyncSlavePartition.Deactivate (p : SyncSlavePartition) (env : Env) (micros : Nat) :
    SyncSlavePartition × Env :=
  p.SetReplStateUnsafe env micros ReplState.kNoConnect

/-- The term file at `path` can be written in `env`: the path has a '/', its
directory exists or can be created, the file can be opened, and the write to it
goes through. -/
def Env.writable (env : Env) (path : String) : Bool :=
  match rfind path '/' with
  | none => false
  | some i =>
    decide ((String.mk (path.data.take i) ∈ env.existing ∨
      String.mk (path.data.take i) ∉ env.uncreatable) ∧ path ∉ env.unopenable ∧
      path ∉ env.unwritable)

/-- The partitions reachable from a freshly constructed one by the public
operations, each met with any environment and any clock value. -/
inductive SyncSlavePartition.Reachable : SyncSlavePartition → Prop where
  | construct (micros : Nat) :
      SyncSlavePartition.Reachable (SyncSlavePartition.construct micros)
  | activate (p : SyncSlavePartition) (env : Env) (micros : Nat) (master : RmNode)
      (repl_state : ReplState) (info_file_path : String) :
      SyncSlavePartition.Reachable p →
      SyncSlavePartition.Reachable (p.Activate env micros master repl_state info_file_path).2.1
  | deactivate (p : SyncSlavePartition) (env : Env) (micros : Nat) :
      SyncSlavePartition.Reachable p →
      SyncSlavePartition.Reachable (p.Deactivate env micros).1
  | setReplState (p : SyncSlavePartition) (env : Env) (micros : Nat)
      (repl_state : ReplState) :
      SyncSlavePartition.Reachable p →
      SyncSlavePartition.Reachable (p.SetReplState env micros repl_state).1
  | casReplState (p : SyncSlavePartition) (env : Env) (micros : Nat)
      (exp_state : ReplState) (exp_master_term : Nat) (new_state : ReplState) :
      SyncSlavePartition.Reachable p →
      SyncSlavePartition.Reachable
        (p.CASReplStateOne env micros exp_state exp_master_term new_state).2.1
  | checkSyncTimeout (p : SyncSlavePartition) (env : Env) (micros : Nat)
      (info_file_path : Option String) (now : Nat) :
      SyncSlavePartition.Reachable p →
      SyncSlavePartition.Reachable (p.CheckSyncTimeout env micros info_file_path now).2.1
  | resetReplication (p : SyncSlavePartition) (env : Env) (micros : Nat)
      (info_file_path : Option String) (master_term : Nat) :
      SyncSlavePartition.Reachable p →
      SyncSlavePartition.Reachable
        (p.ResetReplication env micros info_file_path master_term).2.1

/-- A slave partition connected to master `10.0.0.1:9221` with term 7, whose
last receive time is 1000. -/
def sampleConnected : SyncSlavePartition :=
  { m_info_ := { ip_ := "10.0.0.1", port_ := 9221, session_id_ := 5, last_recv_time_ := 1000 },
    m_term_ := 7, repl_state_ := ReplState.kConnected }

/-- A file system in which the directory `/db` exists and everything can be
written. -/
def sampleEnv : Env := { existing := ["/db"] }

/-- The sequence `Deactivate(); Activate(master, repl_state, path); Deactivate()`
on one partition: the status of `Activate` and the partition and environment at
the end. -/
def deactivateActivateDeactivate (p : SyncSlavePartition) (env : Env) (t0 t1 t2 : Nat)
    (master : RmNode) (repl_state : ReplState) (info_file_path : String) :
    Status × SyncSlavePartition × Env :=
  ((((p.Deactivate env t0).1.Activate (p.Deactivate env t0).2 t1 master repl_state
      info_file_path).1),
    ((((p.Deactivate env t0).1.Activate (p.Deactivate env t0).2 t1 master repl_state
      info_file_path).2.1).Deactivate
      (((p.Deactivate env t0).1.Activate (p.Deactivate env t0).2 t1 master repl_state
        info_file_path).2.2) t2))

/-- A partition that has just been activated towards `10.0.0.1:9221` and then
deactivated. -/
def sampleDeactivated : SyncSlavePartition :=
  (((SyncSlavePartition.construct 0).Activate sampleEnv 10
    { ip_ := "10.0.0.1", port_ := 9221 } ReplState.kTryConnect "/db/term").2.1.Deactivate
    sampleEnv 20).1

/-- A slave partition waiting for the reply of master `10.0.0.1:9221`, term 7. -/
def sampleWaitReply : SyncSlavePartition :=
  { m_info_ := { ip_ := "10.0.0.1", port_ := 9221, session_id_ := 5, last_recv_time_ := 1000 },
    m_term_ := 7, repl_state_ := ReplState.kWaitReply }

/-- The state `kNoConnect` comes with an empty stored master ip. -/
def SyncSlavePartition.NoConnectEmpty (p : SyncSlavePartition) : Prop :=
  p.repl_state_ = ReplState.kNoConnect → p.m_info_.ip_ = ""

/-! ## SyncMasterPartition: the slave list -/

/-- The data members of `class SyncMasterPartition` (the locks apart), with the
`partition_info_` of the base class `SyncPartition`. -/
structure SyncMasterPartition where
  table_name_ : String := ""
  partition_id_ : Nat := 0
  slaves_ : List SlaveNode := []
  session_id_ : Int := 0
deriving DecidableEq, Repr

/-- The constructor `SyncMasterPartition::SyncMasterPartition`. -/
def SyncMasterPartition.construct (table_name : String) (partition_id : Nat) :
    SyncMasterPartition :=
  { table_name_ := table_name, partition_id_ := partition_id, slaves_ := [], session_id_ := 0 }

/-- The test `ip == slave->Ip() && port == slave->Port()`. -/
def SlaveNode.isAt (slave : SlaveNode) (ip : String) (port : Int) : Bool :=
  decide (ip = slave.ip_ ∧ port = slave.port_)

/-- The endpoint of a slave node. -/
def SlaveNode.endpoint (slave : SlaveNode) : String × Int := (slave.ip_, slave.port_)

/-- The constructor `SlaveNode::SlaveNode`: state `kSlaveNotSync`, binlog state
`kNotSync`, default offsets, empty window, no reader. -/
def SlaveNode.construct (ip : String) (port : Int) (table_name : String) (partition_id : Nat)
    (session_id : Int) (master_term : Nat) : SlaveNode :=
  { ip_ := ip, port_ := port, table_name_ := table_name, partition_id_ := partition_id,
    session_id_ := session_id, last_send_time_ := 0, last_recv_time_ := 0,
    slave_state := SlaveState.kSlaveNotSync, b_state := BinlogSyncState.kNotSync,
    sync_win := ⟨[]⟩, sent_offset := ⟨0, 0⟩, acked_offset := ⟨0, 0⟩,
    master_term_ := master_term, binlog_reader := none }

/-- The loop of `AddSlaveNode` over `slaves_`: `none` when no slave is at the
endpoint, otherwise the status returned from inside the loop and the list as
the loop leaves it. -/
def addSlaveLoop (ip : String) (port : Int) (partition_id : Nat) (session_id : Int) :
    List SlaveNode → Option (Status × List SlaveNode)
  | [] => none
  | slave :: rest =>
    if slave.isAt ip port then
      if partition_id = slave.partition_id_ then
        some (Status.OK, { slave with session_id_ := session_id } :: rest)
      else some (Status.Corruption, slave :: rest)
    else
      (addSlaveLoop ip port partition_id session_id rest).map (fun r => (r.1, slave :: r.2))

/-- `SyncMasterPartition::AddSlaveNode`; `send_time` and `recv_time` are the two
values read from `slash::NowMicros()`. -/
def SyncMasterPartition.AddSlaveNode (m : SyncMasterPartition) (send_time recv_time : Nat)
    (ip : String) (port : Int) (partition_id : Nat) (session_id : Int) (master_term : Nat) :
    Status × SyncMasterPartition :=
  match addSlaveLoop ip port partition_id session_id m.slaves_ with
  | some r => (r.1, { m with slaves_ := r.2 })
  | none =>
    (Status.OK,
      { m with slaves_ := m.slaves_ ++
        [{ SlaveNode.construct ip port m.table_name_ partition_id session_id master_term with
            last_send_time_ := send_time, last_recv_time_ := recv_time }] })

/-- `SyncMasterPartition::RemoveSlaveNode`: the first slave at the endpoint is
erased from the vector. -/
def SyncMasterPartition.RemoveSlaveNode (m : SyncMasterPartition) (ip : String) (port : Int) :
    Status × SyncMasterPartition :=
  if m.slaves_.any (fun slave => slave.isAt ip port) then
    (Status.OK, { m with slaves_ := m.slaves_.eraseP (fun slave => slave.isAt ip port) })
  else (Status.NotFound, m)

/-- Modelled from the spec: `WriteTask` is declared outside the listed sources;
it is the target node, the master term and a binlog chip (offset and payload). -/
structure WriteTask where
  rm_node_ : RmNode
  master_term_ : Nat
  offset_ : BinlogOffset
  binlog_ : String
deriving DecidableEq, Repr

/-- The keepalive task built by `CheckSyncTimeout` for a slave: an empty chip at
offset `(0, 0)`. -/
def pingTask (slave : SlaveNode) : WriteTask :=
  { rm_node_ := { ip_ := slave.ip_, port_ := slave.port_, table_name_ := slave.table_name_,
                  partition_id_ := slave.partition_id_, session_id_ := slave.session_id_ },
    master_term_ := slave.master_term_, offset_ := ⟨0, 0⟩, binlog_ := "" }

/-- The outcome of the first loop of `SyncMasterPartition::CheckSyncTimeout`. -/
structure TimeoutScan where
  failed : Bool
  slaves : List SlaveNode
  to_del : List (String × Int)
  sent : List WriteTask
deriving DecidableEq, Repr

/-- The first loop of `SyncMasterPartition::CheckSyncTimeout`: slaves timed out on
receive are noted in `to_del`; the others get a keepalive when their last send is
older than `kSendKeepAliveTimeout`, and the loop is left at the first send that
fails. `send` is the outcome of `SendSlaveBinlogChipsRequest`; the sums are taken
in `uint64_t`. -/
def checkTimeoutLoop (now : Nat) (send : WriteTask → Status) : List SlaveNode → TimeoutScan
  | [] => { failed := false, slaves := [], to_del := [], sent := [] }
  | slave :: rest =>
    if (slave.last_recv_time_ + kRecvKeepAliveTimeout) % 2 ^ 64 < now then
      { checkTimeoutLoop now send rest with
        slaves := slave :: (checkTimeoutLoop now send rest).slaves
        to_del := (slave.ip_, slave.port_) :: (checkTimeoutLoop now send rest).to_del }
    else if (slave.last_send_time_ + kSendKeepAliveTimeout) % 2 ^ 64 < now then
      if (send (pingTask slave)).ok then
        { checkTimeoutLoop now send rest with
          slaves := { slave with last_send_time_ := now } ::
            (checkTimeoutLoop now send rest).slaves
          sent := pingTask slave :: (checkTimeoutLoop now send rest).sent }
      else
        { failed := true, slaves := { slave with last_send_time_ := now } :: rest,
          to_del := [], sent := [pingTask slave] }
    else
      { checkTimeoutLoop now send rest with
        slaves := slave :: (checkTimeoutLoop now send rest).slaves }

/-- The second loop of `SyncMasterPartition::CheckSyncTimeout`: for each noted
endpoint the first slave at it is erased. -/
def eraseTimedOut (slaves : List SlaveNode) (to_del : List (String × Int)) : List SlaveNode :=
  to_del.foldl (fun l node => l.eraseP (fun slave => slave.isAt node.1 node.2)) slaves

/-- `SyncMasterPartition::CheckSyncTimeout`: the status, the partition afterwards
and the keepalive tasks handed to the sender. -/
def SyncMasterPartition.CheckSyncTimeout (m : SyncMasterPartition) (send : WriteTask → Status)
    (now : Nat) : Status × SyncMasterPartition × List WriteTask :=
  if (checkTimeoutLoop now send m.slaves_).failed then
    (Status.Corruption, { m with slaves_ := (checkTimeoutLoop now send m.slaves_).slaves },
      (checkTimeoutLoop now send m.slaves_).sent)
  else
    (Status.OK,
      { m with slaves_ := (eraseTimedOut (checkTimeoutLoop now send m.slaves_).slaves
          (checkTimeoutLoop now send m.slaves_).to_del) },
      (checkTimeoutLoop now send m.slaves_).sent)

/-- The master partitions reachable from a freshly constructed one by
`AddSlaveNode`, `RemoveSlaveNode` and `CheckSyncTimeout`. -/
inductive SyncMasterPartition.Reachable : SyncMasterPartition → Prop where
  | construct (table_name : String) (partition_id : Nat) :
      SyncMasterPartition.Reachable (SyncMasterPartition.construct table_name partition_id)
  | addSlaveNode (m : SyncMasterPartition) (send_time recv_time : Nat) (ip : String)
      (port : Int) (partition_id : Nat) (session_id : Int) (master_term : Nat) :
      SyncMasterPartition.Reachable m →
      SyncMasterPartition.Reachable
        (m.AddSlaveNode send_time recv_time ip port partition_id session_id master_term).2
  | removeSlaveNode (m : SyncMasterPartition) (ip : String) (port : Int) :
      SyncMasterPartition.Reachable m →
      SyncMasterPartition.Reachable (m.RemoveSlaveNode ip port).2
  | checkSyncTimeout (m : SyncMasterPartition) (send : WriteTask → Status) (now : Nat) :
      SyncMasterPartition.Reachable m →
      SyncMasterPartition.Reachable (m.CheckSyncTimeout send now).2.1

/-- The sequence `AddSlaveNode(x, s1); RemoveSlaveNode(x); AddSlaveNode(x, s2)`:
the status of the last call and the partition at the end. -/
def addRemoveAdd (m : SyncMasterPartition) (ip : String) (port : Int)
    (ts1 tr1 pid1 : Nat) (s1 : Int) (term1 : Nat)
    (ts2 tr2 pid2 : Nat) (s2 : Int) (term2 : Nat) : Status × SyncMasterPartition :=
  (((m.AddSlaveNode ts1 tr1 ip port pid1 s1 term1).2.RemoveSlaveNode ip port).2).AddSlaveNode
    ts2 tr2 ip port pid2 s2 term2

/-- A master partition of table `db0`, partition 2, to which two slaves were
added: `10.0.0.5:9221` with session 11 and `10.0.0.6:9221` with session 12. -/
def sampleMaster : SyncMasterPartition :=
  (((SyncMasterPartition.construct "db0" 2).AddSlaveNode 100 101 "10.0.0.5" 9221 2 11
    7).2.AddSlaveNode 200 201 "10.0.0.6" 9221 2 12 7).2

/-! ## SyncMasterPartition: binlog streaming to slaves -/

/-- `SyncMasterPartition::GetSlaveNode`: the first slave at the endpoint. -/
def GetSlaveNode (slaves_ : List SlaveNode) (ip : String) (port : Int) : Option SlaveNode :=
  slaves_.find? (fun slave => slave.isAt ip port)

/-- Writing through the pointer delivered by `GetSlaveNode`: the first slave at
the endpoint is replaced by its image under `f`. -/
def modifySlave (ip : String) (port : Int) (f : SlaveNode → SlaveNode) :
    List SlaveNode → List SlaveNode
  | [] => []
  | slave :: rest =>
    if slave.isAt ip port then f slave :: rest
    else slave :: modifySlave ip port f rest

/-- `SyncMasterPartition::UpdateSlaveBinlogAckInfo`. -/
def SyncMasterPartition.UpdateSlaveBinlogAckInfo (m : SyncMasterPartition) (ip : String)
    (port : Int) (start_offset end_offset : BinlogOffset) : Status × SyncMasterPartition :=
  match GetSlaveNode m.slaves_ ip port with
  | none => (Status.NotFound, m)
  | some slave =>
    if slave.slave_state ≠ SlaveState.kSlaveBinlogSync then (Status.Corruption, m)
    else if ¬ (slave.sync_win.Update (SyncWinItem.ofOffset start_offset)
        (SyncWinItem.ofOffset end_offset) slave.acked_offset).1 then
      (Status.Corruption, m)
    else
      (Status.OK,
        { m with slaves_ := modifySlave ip port (fun sl =>
            { sl with
              sync_win := (sl.sync_win.Update (SyncWinItem.ofOffset start_offset)
                (SyncWinItem.ofOffset end_offset) sl.acked_offset).2.1
              acked_offset := (sl.sync_win.Update (SyncWinItem.ofOffset start_offset)
                (SyncWinItem.ofOffset end_offset) sl.acked_offset).2.2 }) m.slaves_ })

/-- What one call of `PikaBinlogReader::Get` delivers: a record with its payload
and offset, or one of the statuses tested by `ReadBinlogFileToWq`. The reader is
outside the listed sources. -/
inductive GetResult where
  | record (msg : String) (filenum : Nat) (offset : Nat)
  | endFile
  | corruption
  | ioError
deriving DecidableEq, Repr

/-- What the master partition works on besides its own members: the global
reader pool, what each reader object will deliver on its next `Get` calls (an
exhausted list stands for `EndOfFile`), and the write queues of the replica
manager, one per `ip:port` key. -/
structure MasterWorld where
  part : SyncMasterPartition := {}
  pool : BinlogReaderManager := {}
  streams : List (Nat × List GetResult) := []
  write_queues_ : List (String × List WriteTask) := []
deriving DecidableEq, Repr

/-- What reader `r` will deliver. -/
def streamOf (streams : List (Nat × List GetResult)) (r : Nat) : List GetResult :=
  (streams.lookup r).getD []

/-- The streams with that of reader `r` replaced. -/
def setStream (streams : List (Nat × List GetResult)) (r : Nat) (st : List GetResult) :
    List (Nat × List GetResult) :=
  (r, st) :: streams.filter (fun e => e.1 ≠ r)

/-- `PikaReplicaManager::ProduceWriteQueue` for the queue with key `index`
(`ip + ":" + std::to_string(port)`): the tasks are pushed in order. -/
def produceAt (index : String) (tasks : List WriteTask) :
    List (String × List WriteTask) → List (String × List WriteTask)
  | [] => if tasks = [] then [] else [(index, tasks)]
  | q :: rest =>
    if q.1 = index then (q.1, q.2 ++ tasks) :: rest
    else q :: produceAt index tasks rest

/-- `PikaReplicaManager::ProduceWriteQueue`. -/
def ProduceWriteQueue (write_queues_ : List (String × List WriteTask)) (ip : String)
    (port : Int) (tasks : List WriteTask) : List (String × List WriteTask) :=
  produceAt (ip ++ ":" ++ toString port) tasks write_queues_

/-- The task built by `ReadBinlogFileToWq` for a record. -/
def chipTask (slave : SlaveNode) (msg : String) (sent_offset : BinlogOffset) : WriteTask :=
  { rm_node_ := { ip_ := slave.ip_, port_ := slave.port_, table_name_ := slave.table_name_,
                  partition_id_ := slave.partition_id_, session_id_ := slave.session_id_ },
    master_term_ := slave.master_term_, offset_ := sent_offset, binlog_ := msg }

/-- The outcome of the read loop of `ReadBinlogFileToWq`. -/
structure ReadOutcome where
  status : Status
  slave : SlaveNode
  stream : List GetResult
  tasks : List WriteTask
deriving DecidableEq, Repr

/-- The loop `for (int i = 0; i < cnt; ++i)` of `ReadBinlogFileToWq`, with `cnt`
iterations left: `EndOfFile` leaves the loop, `Corruption` and `IOError` return
from the function, a record is pushed to the window and becomes the sent offset.
`micros` is the value of `slash::NowMicros()`. -/
def readLoop (micros : Nat) : Nat → SlaveNode → List GetResult → List WriteTask → ReadOutcome
  | 0, slave, stream, tasks => ⟨Status.OK, slave, stream, tasks⟩
  | _ + 1, slave, [], tasks => ⟨Status.OK, slave, [], tasks⟩
  | _ + 1, slave, GetResult.endFile :: rest, tasks => ⟨Status.OK, slave, rest, tasks⟩
  | _ + 1, slave, GetResult.corruption :: rest, tasks => ⟨Status.Corruption, slave, rest, tasks⟩
  | _ + 1, slave, GetResult.ioError :: rest, tasks => ⟨Status.IOError, slave, rest, tasks⟩
  | n + 1, slave, GetResult.record msg filenum offset :: rest, tasks =>
    readLoop micros n
      { slave with
        sync_win := slave.sync_win.Push ⟨⟨filenum, offset⟩, false⟩
        sent_offset := ⟨filenum, offset⟩
        last_send_time_ := micros }
      rest (tasks ++ [chipTask slave msg ⟨filenum, offset⟩])

/-- `SyncMasterPartition::ReadBinlogFileToWq` on one slave, given what its reader
will deliver: the status returned, the slave and the reader afterwards, and the
tasks handed to `ProduceWriteQueue` (none when the function returns an error).
`sync_window_size` is the configured window size. -/
def ReadBinlogFileToWq (sync_window_size : Int) (micros : Nat) (slave : SlaveNode)
    (stream : List GetResult) : ReadOutcome :=
  if (readLoop micros (SyncWindow.Remainings sync_window_size slave.sync_win).toNat slave
      stream []).status.ok then
    readLoop micros (SyncWindow.Remainings sync_window_size slave.sync_win).toNat slave stream []
  else
    { readLoop micros (SyncWindow.Remainings sync_window_size slave.sync_win).toNat slave
        stream [] with tasks := [] }

/-- The call `ReadBinlogFileToWq(slave_ptr)` inside the world: the status it
returns, and the slave, the streams and the write queues afterwards. A slave
without a reader is left alone. -/
def readSlave (sync_window_size : Int) (micros : Nat) (slave : SlaveNode)
    (streams : List (Nat × List GetResult)) (queues : List (String × List WriteTask)) :
    Status × SlaveNode × List (Nat × List GetResult) × List (String × List WriteTask) :=
  match slave.binlog_reader with
  | none => (Status.OK, slave, streams, queues)
  | some r =>
    ((ReadBinlogFileToWq sync_window_size micros slave (streamOf streams r)).status,
      (ReadBinlogFileToWq sync_window_size micros slave (streamOf streams r)).slave,
      setStream streams r
        (ReadBinlogFileToWq sync_window_size micros slave (streamOf streams r)).stream,
      ProduceWriteQueue queues slave.ip_ slave.port_
        (ReadBinlogFileToWq sync_window_size micros slave (streamOf streams r)).tasks)

/-- `SyncMasterPartition::SyncBinlogToWq`: the value of `ReadBinlogFileToWq` is
not looked at. -/
def MasterWorld.SyncBinlogToWq (w : MasterWorld) (sync_window_size : Int) (micros : Nat)
    (ip : String) (port : Int) : Status × MasterWorld :=
  match GetSlaveNode w.part.slaves_ ip port with
  | none => (Status.NotFound, w)
  | some slave =>
    if slave.b_state = BinlogSyncState.kReadFromFile then
      (Status.OK,
        { w with
          part :=
            { w.part with
              slaves_ := (modifySlave ip port
                (fun _ => (readSlave sync_window_size micros slave w.streams w.write_queues_).2.1)
                w.part.slaves_) }
          streams := (readSlave sync_window_size micros slave w.streams w.write_queues_).2.2.1
          write_queues_ :=
            (readSlave sync_window_size micros slave w.streams w.write_queues_).2.2.2 })
    else (Status.OK, w)

/-- The loop of `SyncMasterPartition::WakeUpSlaveBinlogSync` over `slaves_`:
a slave with `sent_offset == acked_offset` that reads from file is read for. -/
def wakeLoop (sync_window_size : Int) (micros : Nat) :
    List SlaveNode → List (Nat × List GetResult) → List (String × List WriteTask) →
    List SlaveNode × List (Nat × List GetResult) × List (String × List WriteTask)
  | [], streams, queues => ([], streams, queues)
  | slave :: rest, streams, queues =>
    if slave.sent_offset = slave.acked_offset ∧
        slave.b_state = BinlogSyncState.kReadFromFile then
      ((readSlave sync_window_size micros slave streams queues).2.1 ::
          (wakeLoop sync_window_size micros rest
            (readSlave sync_window_size micros slave streams queues).2.2.1
            (readSlave sync_window_size micros slave streams queues).2.2.2).1,
        (wakeLoop sync_window_size micros rest
            (readSlave sync_window_size micros slave streams queues).2.2.1
            (readSlave sync_window_size micros slave streams queues).2.2.2).2)
    else
      (slave :: (wakeLoop sync_window_size micros rest streams queues).1,
        (wakeLoop sync_window_size micros rest streams queues).2)

/-- `SyncMasterPartition::WakeUpSlaveBinlogSync`. -/
def MasterWorld.WakeUpSlaveBinlogSync (w : MasterWorld) (sync_window_size : Int)
    (micros : Nat) : Status × MasterWorld :=
  (Status.OK,
    { w with
      part :=
        { w.part with
          slaves_ := (wakeLoop sync_window_size micros w.part.slaves_ w.streams
            w.write_queues_).1 }
      streams := (wakeLoop sync_window_size micros w.part.slaves_ w.streams
        w.write_queues_).2.1
      write_queues_ := (wakeLoop sync_window_size micros w.part.slaves_ w.streams
        w.write_queues_).2.2 })

/-- The key `RmNode(Ip(), Port(), NodePartitionInfo())` under which a slave
checks a reader out of the pool. -/
def SlaveNode.readerKey (slave : SlaveNode) : RmNode :=
  { ip_ := slave.ip_, port_ := slave.port_, table_name_ := slave.table_name_,
    partition_id_ := slave.partition_id_ }

/-- The streams after a successful `Seek` on the reader `reader`. -/
def seekStream (streams : List (Nat × List GetResult)) (reader : Option Nat)
    (st : List GetResult) : List (Nat × List GetResult) :=
  match reader with
  | none => streams
  | some r => setStream streams r st

/-- `SyncMasterPartition::ActivateSlaveBinlogSync` (with
`CheckReadBinlogFromCache()` being `false`). `seek offset` stands for
`binlog_reader->Seek(binlog, offset.filenum, offset.offset)`: `none` when it
reports a failure, otherwise what the reader will deliver from there. The slave
state and both offsets are assigned before `InitBinlogFileReader` is tried. -/
def MasterWorld.ActivateSlaveBinlogSync (w : MasterWorld) (sync_window_size : Int)
    (micros : Nat) (ip : String) (port : Int) (seek : BinlogOffset → Option (List GetResult))
    (offset : BinlogOffset) : Status × MasterWorld :=
  match GetSlaveNode w.part.slaves_ ip port with
  | none => (Status.NotFound, w)
  | some slave =>
    if ¬ (w.pool.FetchBinlogReader slave.readerKey).1.ok then
      (Status.Corruption,
        { w with
          part :=
            { w.part with
              slaves_ := (modifySlave ip port (fun _ =>
                { slave with
                  slave_state := SlaveState.kSlaveBinlogSync
                  sent_offset := offset
                  acked_offset := offset }) w.part.slaves_) } })
    else
      match seek offset with
      | none =>
        (Status.Corruption,
          { w with
            part :=
              { w.part with
                slaves_ := (modifySlave ip port (fun _ =>
                  { slave with
                    slave_state := SlaveState.kSlaveBinlogSync
                    sent_offset := offset
                    acked_offset := offset
                    binlog_reader := (w.pool.FetchBinlogReader slave.readerKey).2.1 })
                  w.part.slaves_) }
            pool := ((w.pool.FetchBinlogReader slave.readerKey).2.2.ReleaseBinlogReader
              slave.readerKey).2 })
      | some st =>
        MasterWorld.SyncBinlogToWq
          { w with
            part :=
              { w.part with
                slaves_ := (modifySlave ip port (fun _ =>
                  { slave with
                    slave_state := SlaveState.kSlaveBinlogSync
                    sent_offset := offset
                    acked_offset := offset
                    binlog_reader := (w.pool.FetchBinlogReader slave.readerKey).2.1
                    b_state := BinlogSyncState.kReadFromFile })
                  w.part.slaves_) }
            pool := (w.pool.FetchBinlogReader slave.readerKey).2.2
            streams := seekStream w.streams (w.pool.FetchBinlogReader slave.readerKey).2.1 st }
          sync_window_size micros ip port

/-- `SyncMasterPartition::AddSlaveNode` inside the world. -/
def MasterWorld.AddSlaveNode (w : MasterWorld) (send_time recv_time : Nat) (ip : String)
    (port : Int) (partition_id : Nat) (session_id : Int) (master_term : Nat) :
    Status × MasterWorld :=
  ((w.part.AddSlaveNode send_time recv_time ip port partition_id session_id master_term).1,
    { w with
      part := (w.part.AddSlaveNode send_time recv_time ip port partition_id session_id
        master_term).2 })

/-- `SyncMasterPartition::UpdateSlaveBinlogAckInfo` inside the world. -/
def MasterWorld.UpdateSlaveBinlogAckInfo (w : MasterWorld) (ip : String) (port : Int)
    (start_offset end_offset : BinlogOffset) : Status × MasterWorld :=
  ((w.part.UpdateSlaveBinlogAckInfo ip port start_offset end_offset).1,
    { w with part := (w.part.UpdateSlaveBinlogAckInfo ip port start_offset end_offset).2 })

/-! ## PikaReplicaManager: the write queues -/

/-- `kBinlogSendPacketNum` of `pika_rm.h`. -/
def kBinlogSendPacketNum : Nat := 40

/-- `kBinlogSendBatchNum` of `pika_rm.h`. -/
def kBinlogSendBatchNum : Nat := 100

/-- The inner loop `for (size_t i = 0; i < batch_index; ++i)` of
`ConsumeWriteQueue`, with the iterations left, the value of `int batch_size`,
the queue and `counter`: it gives `to_send`, the queue and `counter` afterwards.
The statement `batch_size += task.binlog_chip_.binlog_.size()` adds in `size_t`
and stores the low 32 bits into the `int`. `max_rbuf` is the value of the macro
`PIKA_MAX_CONN_RBUF_HB`, defined outside the listed sources. -/
def takeBatch (max_rbuf : Int) :
    Nat → Int → List WriteTask → Nat → List WriteTask × List WriteTask × Nat
  | 0, _, queue, counter => ([], queue, counter)
  | _ + 1, _, [], counter => ([], [], counter)
  | n + 1, batch_size, task :: rest, counter =>
    if toInt32 ((batch_size + (task.binlog_.utf8ByteSize : Int)) % 2 ^ 64).toNat > max_rbuf then
      ([], task :: rest, counter)
    else
      (task :: (takeBatch max_rbuf n
          (toInt32 ((batch_size + (task.binlog_.utf8ByteSize : Int)) % 2 ^ 64).toNat)
          rest (counter + 1)).1,
        (takeBatch max_rbuf n
          (toInt32 ((batch_size + (task.binlog_.utf8ByteSize : Int)) % 2 ^ 64).toNat)
          rest (counter + 1)).2)

/-- The loop `for (int i = 0; i < kBinlogSendPacketNum; ++i)` of
`ConsumeWriteQueue` on one queue, with the passes left: the batches pushed to
`to_send_map[iter.first]`, the queue and `counter` afterwards. -/
def drainQueue (max_rbuf : Int) :
    Nat → List WriteTask → Nat → List (List WriteTask) × List WriteTask × Nat
  | 0, queue, counter => ([], queue, counter)
  | n + 1, queue, counter =>
    if queue = [] then ([], queue, counter)
    else
      let batch := takeBatch max_rbuf
        (if queue.length > kBinlogSendBatchNum then kBinlogSendBatchNum else queue.length)
        0 queue counter
      let later := drainQueue max_rbuf n batch.2.1 batch.2.2
      (if batch.1 = [] then later.1 else batch.1 :: later.1, later.2)

/-- The loop of `ConsumeWriteQueue` over `write_queues_` (kept as the list of the
entries of the map, in the order of the iteration): the entries of `to_send_map`,
the queues and `counter` afterwards. A peer none of whose passes formed a batch
gets no entry in `to_send_map`. -/
def drainAll (max_rbuf : Int) :
    List (String × List WriteTask) → Nat →
    List (String × List (List WriteTask)) × List (String × List WriteTask) × Nat
  | [], counter => ([], [], counter)
  | q :: rest, counter =>
    let drained := drainQueue max_rbuf kBinlogSendPacketNum q.2 counter
    let later := drainAll max_rbuf rest drained.2.2
    (if drained.1 = [] then later.1 else (q.1, drained.1) :: later.1,
      (q.1, drained.2.1) :: later.2.1, later.2.2)

/-- The loop over the batches of one peer: its key is noted for deletion once
for every batch whose send fails. `send ip port i to_send` is the status of
`SendSlaveBinlogChips(ip, port, to_send)` for the batch number `i` of the peer. -/
def sendBatches (send : String → Int → Nat → List WriteTask → Status) (key ip : String)
    (port : Int) : Nat → List (List WriteTask) → List String
  | _, [] => []
  | i, to_send :: rest =>
    if ¬ (send ip port i to_send).ok then key :: sendBatches send key ip port (i + 1) rest
    else sendBatches send key ip port (i + 1) rest

/-- The loop of `ConsumeWriteQueue` over `to_send_map`, giving `to_delete`. An
entry whose key `slash::ParseIpPortString` (outside the listed sources, here
`parse`) does not accept is skipped. -/
def sendAll (parse : String → Option (String × Int))
    (send : String → Int → Nat → List WriteTask → Status) :
    List (String × List (List WriteTask)) → List String
  | [] => []
  | e :: rest =>
    match parse e.1 with
    | none => sendAll parse send rest
    | some node => sendBatches send e.1 node.1 node.2 0 e.2 ++ sendAll parse send rest

/-- What `ConsumeWriteQueue` leaves: the value returned, the write queues, and
for reference the batches handed to the sender and the keys erased. -/
structure ConsumeResult where
  counter : Nat
  write_queues_ : List (String × List WriteTask)
  to_send_map : List (String × List (List WriteTask))
  to_delete : List String
deriving DecidableEq, Repr

/-- `PikaReplicaManager::ConsumeWriteQueue`. The failed keys are pushed to the
`to_delete` of the function scope (the second declaration of that name lives in
the locked block only and is never used), and every queue with such a key is
erased from the map. `counter` is an `int`; it is kept as a natural number, which
is exact as long as fewer than `2^31` tasks are popped in one call. -/
def ConsumeWriteQueue (max_rbuf : Int) (parse : String → Option (String × Int))
    (send : String → Int → Nat → List WriteTask → Status)
    (write_queues_ : List (String × List WriteTask)) : ConsumeResult :=
  let drained := drainAll max_rbuf write_queues_ 0
  let to_delete := sendAll parse send drained.1
  { counter := drained.2.2,
    write_queues_ := drained.2.1.filter (fun q => q.1 ∉ to_delete),
    to_send_map := drained.1,
    to_delete := to_delete }

/-- The number of tasks queued over all peers. -/
def totalTasks (queues : List (String × List WriteTask)) : Nat :=
  (queues.map (fun q => q.2.length)).sum

/-- The payload bytes of a batch. -/
def payloadBytes (tasks : List WriteTask) : Nat :=
  (tasks.map (fun task => task.binlog_.utf8ByteSize)).sum

/-! ## Sample runs of the master partition -/

/-- A binlog holding two records, ending at `(1, 10)` and `(1, 20)`: what a
reader delivers after a seek to any offset. -/
def sampleSeek (_ : BinlogOffset) : Option (List GetResult) :=
  some [GetResult.record "set a 1" 1 10, GetResult.record "set b 2" 1 20]

/-- A master partition of table `db0` to which the slave `10.0.0.5:9221` was
added. -/
def resyncStart : MasterWorld :=
  (({ part := SyncMasterPartition.construct "db0" 0 } : MasterWorld).AddSlaveNode 0 0
    "10.0.0.5" 9221 0 11 7).2

/-- The slave of `resyncStart` starts binlog sync at `(1, 0)`; both records are
read into its window. -/
def resyncActivated : Status × MasterWorld :=
  resyncStart.ActivateSlaveBinlogSync 9000 5 "10.0.0.5" 9221 sampleSeek ⟨1, 0⟩

/-- The same slave asks for binlog sync at `(1, 0)` once more. -/
def resyncAgain : Status × MasterWorld :=
  resyncActivated.2.ActivateSlaveBinlogSync 9000 6 "10.0.0.5" 9221 sampleSeek ⟨1, 0⟩

/-- The acknowledgement of the record `(1, 10)` then arrives. -/
def resyncAcked : Status × MasterWorld :=
  resyncAgain.2.UpdateSlaveBinlogAckInfo "10.0.0.5" 9221 ⟨1, 10⟩ ⟨1, 10⟩

/-- A world whose only slave reads from file with reader `0`, the next `Get` of
which delivers `first`. -/
def sampleReading (first : GetResult) : MasterWorld :=
  { part :=
      { table_name_ := "db0",
        slaves_ := [{ ip_ := "10.0.0.5", port_ := 9221, table_name_ := "db0",
                      slave_state := SlaveState.kSlaveBinlogSync,
                      b_state := BinlogSyncState.kReadFromFile,
                      sent_offset := ⟨1, 0⟩, acked_offset := ⟨1, 0⟩,
                      binlog_reader := some 0 }] },
    pool := { occupied_ := [({ ip_ := "10.0.0.5", port_ := 9221, table_name_ := "db0" }, 0)],
              constructed := 1 },
    streams := [(0, [first, GetResult.record "set a 1" 1 10])] }

/-- A master partition with two slaves: `10.0.0.5:9221`, last heard of at time
`0`, and `10.0.0.6:9221`, last heard of at `10 s` and last sent to at time `0`. -/
def timeoutSample : SyncMasterPartition :=
  (((SyncMasterPartition.construct "db0" 0).AddSlaveNode 0 0 "10.0.0.5" 9221 0 11
    7).2.AddSlaveNode 0 10000000 "10.0.0.6" 9221 0 12 7).2

/-! ## Sample write queues -/

/-- A stand-in for `slash::ParseIpPortString` on the keys of the samples. -/
def sampleParse (key : String) : Option (String × Int) :=
  if key = "10.0.0.5:9221" then some ("10.0.0.5", 9221)
  else if key = "10.0.0.6:9221" then some ("10.0.0.6", 9221)
  else none

/-- A task for the slave `10.0.0.5:9221` carrying `msg`. -/
def sampleTask (msg : String) : WriteTask :=
  { rm_node_ := { ip_ := "10.0.0.5", port_ := 9221, table_name_ := "db0" },
    master_term_ := 7, offset_ := ⟨1, 0⟩, binlog_ := msg }

/-- One queue of 4001 tasks for `10.0.0.5:9221`. -/
def longQueue : List (String × List WriteTask) :=
  [("10.0.0.5:9221", List.replicate 4001 (sampleTask "set a 1"))]

/-- Two queues: three tasks for `10.0.0.5:9221` and one for `10.0.0.6:9221`. -/
def sampleQueues : List (String × List WriteTask) :=
  [("10.0.0.5:9221", [sampleTask "set a 1", sampleTask "set b 2", sampleTask "set c 3"]),
   ("10.0.0.6:9221", [sampleTask "set a 1"])]

/-- A slave partition of master `10.0.0.1:9221` whose term is the largest
`uint32_t`. -/
def sampleTopTerm : SyncSlavePartition :=
  { m_info_ := { ip_ := "10.0.0.1", port_ := 9221, session_id_ := 5, last_recv_time_ := 1000 },
    m_term_ := 4294967295, repl_state_ := ReplState.kConnected }

/-! ## Cache (pika_cache.h) -/

/-- `class Cache<T>`. `this_` is the identity of the cache object. `m_base` keeps
of each element its `owner` member (`none` for a null owner). A pointer `T*` is
`none` for `nullptr` and `some i` for an address, `some i` with `i` below
`m_base.size()` being `&m_base[i]`. -/
structure Cache where
  this_ : Nat
  m_base : List (Option Nat)
  m_cache : List (Option Nat)
deriving DecidableEq, Repr

/-- The loop `for (size_t i = 0; i < count; i++)` of the constructor, with the
iterations left and the index `i`. -/
def Cache.constructLoop : Nat → Nat → Cache → Cache
  | 0, _, c => c
  | n + 1, i, c =>
    Cache.constructLoop n (i + 1)
      { c with m_base := c.m_base.set i (some c.this_), m_cache := c.m_cache.set i (some i) }

/-- The constructor `Cache(size_t count)`: both vectors are made with `count`
value-initialised entries, then filled by the loop. -/
def Cache.construct (this_ : Nat) (count : Nat) : Cache :=
  Cache.constructLoop count 0
    { this_ := this_, m_base := List.replicate count none,
      m_cache := List.replicate count none }

/-- `Cache::get`: the pointer returned and the cache afterwards. -/
def Cache.get (c : Cache) : Option Nat × Cache :=
  match c.m_cache.getLast? with
  | none => (none, c)
  | some ret => (ret, { c with m_cache := c.m_cache.dropLast })

/-- `Cache::put`. -/
def Cache.put (c : Cache) (ele : Option Nat) : Cache :=
  { c with m_cache := c.m_cache ++ [ele] }

/-- `Cache::size`. -/
def Cache.size (c : Cache) : Nat := c.m_cache.length

/-- So many calls of `get()` in a row: the pointers returned, in the order of
the calls, and the cache afterwards. -/
def Cache.getN : Nat → Cache → List (Option Nat) × Cache
  | 0, c => ([], c)
  | n + 1, c => (c.get.1 :: (Cache.getN n c.get.2).1, (Cache.getN n c.get.2).2)

/-- A task for `10.0.0.5:9221` whose payload is `2^32` bytes long. -/
def hugeTask : WriteTask :=
  sampleTask (String.mk (List.replicate 4294967296 'a'))

/-- A slave in `BinlogSync`, reading from file with reader `0`, with an empty
window and both offsets at `(1, 0)`. -/
def readingSlave : SlaveNode :=
  { ip_ := "10.0.0.5", port_ := 9221, table_name_ := "db0",
    slave_state := SlaveState.kSlaveBinlogSync, b_state := BinlogSyncState.kReadFromFile,
    sent_offset := ⟨1, 0⟩, acked_offset := ⟨1, 0⟩, binlog_reader := some 0 }

/-- The slave `10.0.0.5:9221` of `resyncStart` asks for binlog sync at `(1, 0)`
and the seek of its reader fails. -/
def seekFailed : Status × MasterWorld :=
  resyncStart.ActivateSlaveBinlogSync 9000 5 "10.0.0.5" 9221 (fun _ => none) ⟨1, 0⟩

/-- After `seekFailed`, a second slave `10.0.0.6:9221` is added and starts binlog
sync at `(1, 0)`, the seek succeeding. -/
def seekFailedThenOther : Status × MasterWorld :=
  (seekFailed.2.AddSlaveNode 0 0 "10.0.0.6" 9221 0 12 7).2.ActivateSlaveBinlogSync 9000 6
    "10.0.0.6" 9221 sampleSeek ⟨1, 0⟩

/-! ## Lemmas on the loops of `SyncWindow::Update` -/

theorem popLoop_eq (win : List SyncWinItem) (a : BinlogOffset) :
    popLoop win a = (win.dropWhile (fun x => x.acked_), ackedAfter win a) := by
  induction win generalizing a with
  | nil => simp [popLoop, ackedAfter, ackedPrefix]
  | cons x rest ih =>
    unfold popLoop
    by_cases hx : x.acked_ = true
    · rw [if_pos hx, ih]
      simp only [List.dropWhile_cons, hx, if_true, ackedAfter, ackedPrefix, List.takeWhile_cons]
      congr 1
      cases h : List.takeWhile (fun x => x.acked_) rest with
      | nil => simp
      | cons y ys =>
        simp [List.getLast?_eq_getLast _ (List.cons_ne_nil y ys)]
    · rw [if_neg hx]
      simp [List.dropWhile_cons, hx, ackedAfter, ackedPrefix, List.takeWhile_cons]

theorem markFrom_getElem? (n : Nat) :
    ∀ (win : List SyncWinItem) (i k : Nat),
      (markFrom win i n)[k]? =
        (win[k]?).map (fun x => if i ≤ k ∧ k < i + n then setAcked x else x) := by
  induction n with
  | zero =>
    intro win i k
    have hc : ¬ (i ≤ k ∧ k < i + 0) := by omega
    rw [markFrom]
    cases win[k]? with
    | none => rfl
    | some x => rw [Option.map_some', if_neg hc]
  | succ n ih =>
    intro win i k
    rw [markFrom, ih, List.getElem?_modify]
    cases win[k]? with
    | none => simp
    | some x =>
      simp only [Option.map_some', Option.some.injEq, Functor.map]
      by_cases h1 : i = k
      · subst h1
        have ha : ¬ (i + 1 ≤ i ∧ i < i + 1 + n) := by omega
        have hb : i ≤ i ∧ i < i + (n + 1) := by omega
        simp [ha, hb]
      · by_cases h2 : i + 1 ≤ k ∧ k < i + 1 + n
        · have hb : i ≤ k ∧ k < i + (n + 1) := by omega
          simp [h1, h2, hb]
        · have hb : ¬ (i ≤ k ∧ k < i + (n + 1)) := by omega
          simp [h1, h2, hb]

theorem markLoop_getElem? (win : List SyncWinItem) (i j k : Nat) :
    (markLoop win i j)[k]? = (win[k]?).map (fun x => if i ≤ k ∧ k ≤ j then setAcked x else x) := by
  rw [markLoop, markFrom_getElem?]
  cases win[k]? with
  | none => rfl
  | some x =>
    simp only [Option.map_some', Option.some.injEq]
    by_cases h : i ≤ k ∧ k ≤ j
    · have h2 : i ≤ k ∧ k < i + (j + 1 - i) := by omega
      rw [if_pos h, if_pos h2]
    · have h2 : ¬ (i ≤ k ∧ k < i + (j + 1 - i)) := by omega
      rw [if_neg h, if_neg h2]

theorem markLoop_eq (win : List SyncWinItem) (i j : Nat) :
    markLoop win i j = markedRange win i j := by
  apply List.ext_getElem?
  intro k
  rw [markLoop_getElem?, markedRange, List.getElem?_mapIdx]

theorem findLoop_snd (s e : SyncWinItem) (win : List SyncWinItem) :
    ∀ (k sp ep j : Nat) (x : SyncWinItem), win[j]? = some x → x.opEq e = true →
      (∀ j1 y, j1 < j → win[j1]? = some y → y.opEq e = false) →
      (findLoop s e win k sp ep).2 = k + j := by
  induction win with
  | nil => intro k sp ep j x h; simp at h
  | cons w rest ih =>
    intro k sp ep j x hj hx hfirst
    cases j with
    | zero =>
      simp at hj; subst hj
      simp [findLoop, hx]
    | succ j =>
      have hw : w.opEq e = false := hfirst 0 w (by omega) (by simp)
      simp only [findLoop, hw]
      simp at hj
      have := ih (k + 1) (if w.opEq s = true then k else sp) ep j x hj hx
        (fun j1 y hj1 hy => hfirst (j1 + 1) y (by omega) (by simpa using hy))
      simp at this ⊢
      omega

theorem findLoop_snd_none (s e : SyncWinItem) (win : List SyncWinItem) :
    ∀ (k sp ep : Nat), (∀ y ∈ win, y.opEq e = false) →
      (findLoop s e win k sp ep).2 = ep := by
  induction win with
  | nil => intro k sp ep _; simp [findLoop]
  | cons w rest ih =>
    intro k sp ep h
    have hw : w.opEq e = false := h w (by simp)
    simp only [findLoop, hw]
    simpa using ih (k + 1) (if w.opEq s = true then k else sp) ep
      (fun y hy => h y (by simp [hy]))

theorem findLoop_fst_none (s e : SyncWinItem) (win : List SyncWinItem) :
    ∀ (k sp ep j : Nat) (x : SyncWinItem), win[j]? = some x → x.opEq e = true →
      (∀ j1 y, j1 < j → win[j1]? = some y → y.opEq e = false) →
      (∀ i y, i ≤ j → win[i]? = some y → y.opEq s = false) →
      (findLoop s e win k sp ep).1 = sp := by
  induction win with
  | nil => intro k sp ep j x h; simp at h
  | cons w rest ih =>
    intro k sp ep j x hj hx hfirst hnone
    have hws : w.opEq s = false := hnone 0 w (by omega) (by simp)
    cases j with
    | zero =>
      simp at hj; subst hj
      simp [findLoop, hx, hws]
    | succ j =>
      have hw : w.opEq e = false := hfirst 0 w (by omega) (by simp)
      simp only [findLoop, hw, hws]
      simp at hj
      simpa using ih (k + 1) sp ep j x hj hx
        (fun j1 y hj1 hy => hfirst (j1 + 1) y (by omega) (by simpa using hy))
        (fun i y hi hy => hnone (i + 1) y (by omega) (by simpa using hy))

theorem findLoop_fst (s e : SyncWinItem) (win : List SyncWinItem) :
    ∀ (k sp ep j : Nat) (x : SyncWinItem), win[j]? = some x → x.opEq e = true →
      (∀ j1 y, j1 < j → win[j1]? = some y → y.opEq e = false) →
      ∀ (i : Nat) (y : SyncWinItem), i ≤ j → win[i]? = some y → y.opEq s = true →
      (∀ i1 z, i < i1 → i1 ≤ j → win[i1]? = some z → z.opEq s = false) →
      (findLoop s e win k sp ep).1 = k + i := by
  induction win with
  | nil => intro k sp ep j x h; simp at h
  | cons w rest ih =>
    intro k sp ep j x hj hx hfirst i y hij hi hy hlast
    cases j with
    | zero =>
      have hi0 : i = 0 := by omega
      subst hi0
      simp at hj hi; subst hj; subst hi
      simp [findLoop, hx, hy]
    | succ j =>
      have hw : w.opEq e = false := hfirst 0 w (by omega) (by simp)
      simp only [findLoop, hw]
      simp at hj
      have hfirst1 : ∀ j1 y, j1 < j → rest[j1]? = some y → y.opEq e = false :=
        fun j1 y hj1 hy => hfirst (j1 + 1) y (by omega) (by simpa using hy)
      cases i with
      | zero =>
        simp at hi; subst hi
        have := findLoop_fst_none s e rest (k + 1) k ep j x hj hx hfirst1
          (fun i1 z hi1 hz => hlast (i1 + 1) z (by omega) (by omega) (by simpa using hz))
        simpa [hy] using this
      | succ i =>
        simp at hi
        have := ih (k + 1) (if w.opEq s = true then k else sp) ep j x hj hx hfirst1 i y
          (by omega) hi hy
          (fun i1 z h1 h2 hz => hlast (i1 + 1) z (by omega) (by omega) (by simpa using hz))
        simp at this ⊢
        omega

/-- The outcome of `Update` once the two positions selected by the search loop
are known: items `i..j` are marked, then the acked head run is popped. -/
theorem Update_of_positions (w : SyncWindow) (s e : SyncWinItem) (a : BinlogOffset)
    (i j : Nat) (x y : SyncWinItem)
    (hj : w.win_[j]? = some x) (hx : x.opEq e = true)
    (hfirst : ∀ j1 z, j1 < j → w.win_[j1]? = some z → z.opEq e = false)
    (hij : i ≤ j) (hi : w.win_[i]? = some y) (hy : y.opEq s = true)
    (hlast : ∀ i1 z, i < i1 → i1 ≤ j → w.win_[i1]? = some z → z.opEq s = false) :
    w.Update s e a =
      (true, ⟨(markedRange w.win_ i j).dropWhile (fun z => z.acked_)⟩,
        ackedAfter (markedRange w.win_ i j) a) := by
  have hjl : j < w.win_.length := by
    rcases List.getElem?_eq_some.1 hj with ⟨h, _⟩
    exact h
  have h2 := findLoop_snd s e w.win_ 0 w.win_.length w.win_.length j x hj hx hfirst
  have h1 := findLoop_fst s e w.win_ 0 w.win_.length w.win_.length j x hj hx hfirst
    i y hij hi hy hlast
  simp only [Nat.zero_add] at h1 h2
  unfold SyncWindow.Update
  simp only [h1, h2]
  have hne : ¬ (i = w.win_.length ∨ j = w.win_.length) := by omega
  rw [if_neg hne, popLoop_eq, markLoop_eq]

theorem opEq_iff (a b : SyncWinItem) : a.opEq b = true ↔ a.offset_ = b.offset_ := by
  unfold SyncWinItem.opEq
  constructor
  · intro h
    by_cases hc : a.offset_.filenum = b.offset_.filenum ∧ a.offset_.offset = b.offset_.offset
    · cases ha : a.offset_
      cases hb : b.offset_
      rw [ha, hb] at hc
      simp at hc
      simp [hc.1, hc.2]
    · rw [if_neg hc] at h
      exact absurd h (by simp)
  · intro h
    rw [h]
    simp

theorem opEq_false_iff (a b : SyncWinItem) : a.opEq b = false ↔ a.offset_ ≠ b.offset_ := by
  have h := opEq_iff a b
  cases hc : a.opEq b
  · rw [hc] at h
    simp only [true_iff]
    intro hab
    exact absurd (h.2 hab) (by simp)
  · rw [hc] at h
    simp only [Bool.true_eq_false, false_iff, ne_eq, not_not]
    exact h.1 rfl

theorem index_unique (win : List SyncWinItem)
    (hd : (win.map (fun z => z.offset_)).Nodup) (a b : Nat) (x y : SyncWinItem)
    (ha : win[a]? = some x) (hb : win[b]? = some y) (h : x.offset_ = y.offset_) : a = b := by
  rcases List.getElem?_eq_some.1 ha with ⟨hal, hax⟩
  rcases List.getElem?_eq_some.1 hb with ⟨hbl, hby⟩
  have hal1 : a < (win.map (fun z => z.offset_)).length := by simpa using hal
  have hbl1 : b < (win.map (fun z => z.offset_)).length := by simpa using hbl
  have heq : (win.map (fun z => z.offset_))[a] = (win.map (fun z => z.offset_))[b] := by
    simp [hax, hby, h]
  exact (List.Nodup.getElem_inj_iff hd).1 heq

theorem markedRange_length (win : List SyncWinItem) (i j : Nat) :
    (markedRange win i j).length = win.length := by
  simp [markedRange]

theorem markedRange_getElem? (win : List SyncWinItem) (i j k : Nat) :
    (markedRange win i j)[k]? =
      (win[k]?).map (fun x => if i ≤ k ∧ k ≤ j then setAcked x else x) := by
  rw [markedRange, List.getElem?_mapIdx]

/-- When the head is unacked and lies before the marked range, nothing is popped. -/
theorem markedRange_head_unacked (win : List SyncWinItem) (i j : Nat) (h0 : SyncWinItem)
    (hpos : 0 < i) (hh : win[0]? = some h0) (hu : h0.acked_ = false) (a : BinlogOffset) :
    (markedRange win i j).dropWhile (fun z => z.acked_) = markedRange win i j ∧
      (markedRange win i j).head? = some h0 ∧ ackedAfter (markedRange win i j) a = a := by
  have hm : (markedRange win i j)[0]? = some h0 := by
    rw [markedRange_getElem?, hh]
    have : ¬ (i ≤ 0 ∧ 0 ≤ j) := by omega
    rw [Option.map_some', if_neg this]
  cases hl : markedRange win i j with
  | nil => rw [hl] at hm; simp at hm
  | cons z zs =>
    rw [hl] at hm
    simp at hm
    subst hm
    simp [List.dropWhile_cons, hu, ackedAfter, ackedPrefix, List.takeWhile_cons]

/-- With pairwise distinct offsets the search loop selects the two given indices. -/
theorem Update_of_distinct (w : SyncWindow) (s e : SyncWinItem) (a : BinlogOffset)
    (i j : Nat) (x y : SyncWinItem)
    (hd : (w.win_.map (fun z => z.offset_)).Nodup)
    (hij : i ≤ j) (hi : w.win_[i]? = some y) (hy : y.opEq s = true)
    (hj : w.win_[j]? = some x) (hx : x.opEq e = true) :
    w.Update s e a =
      (true, ⟨(markedRange w.win_ i j).dropWhile (fun z => z.acked_)⟩,
        ackedAfter (markedRange w.win_ i j) a) := by
  have hfirst : ∀ (j1 : Nat) (z : SyncWinItem), j1 < j → w.win_[j1]? = some z →
      z.opEq e = false := by
    intro j1 z hj1 hz
    rw [opEq_false_iff]
    intro hze
    have := index_unique w.win_ hd j1 j z x hz hj (hze.trans ((opEq_iff x e).1 hx).symm)
    omega
  have hlast : ∀ (i1 : Nat) (z : SyncWinItem), i < i1 → i1 ≤ j → w.win_[i1]? = some z →
      z.opEq s = false := by
    intro i1 z hi1 _ hz
    rw [opEq_false_iff]
    intro hzs
    have := index_unique w.win_ hd i1 i z y hz hi (hzs.trans ((opEq_iff y s).1 hy).symm)
    omega
  exact Update_of_positions w s e a i j x y hj hx hfirst hij hi hy hlast

/-! ## Properties of `SyncWindow::Update` -/

/-- C1: in a window whose offsets are pairwise distinct, with the start item at
index `i` and the end item at index `j >= i`, `Update` returns true, the window
becomes the original with items `i..j` marked acked minus its maximal all-acked
prefix, and the acked offset becomes the offset of the last removed item or
stays as it was when nothing is removed; when the head is unacked and `0 < i`,
the head and the acked offset are unchanged. -/
theorem Update_distinct_offsets (w : SyncWindow) (s e : SyncWinItem) (a : BinlogOffset)
    (i j : Nat) (x y : SyncWinItem)
    (hd : (w.win_.map (fun z => z.offset_)).Nodup)
    (hij : i ≤ j) (hi : w.win_[i]? = some y) (hy : y.opEq s = true)
    (hj : w.win_[j]? = some x) (hx : x.opEq e = true) :
    w.Update s e a =
        (true, ⟨(markedRange w.win_ i j).dropWhile (fun z => z.acked_)⟩,
          ((((markedRange w.win_ i j).takeWhile (fun z => z.acked_)).getLast?).map
            (fun z => z.offset_)).getD a) ∧
      (∀ h0 : SyncWinItem, 0 < i → w.win_[0]? = some h0 → h0.acked_ = false →
        (w.Update s e a).2.1.win_ = markedRange w.win_ i j ∧
        (w.Update s e a).2.1.win_.head? = some h0 ∧
        (w.Update s e a).2.2 = a) := by
  have hU := Update_of_distinct w s e a i j x y hd hij hi hy hj hx
  refine ⟨hU, ?_⟩
  intro h0 hpos hh hu
  rw [hU]
  rcases markedRange_head_unacked w.win_ i j h0 hpos hh hu a with ⟨h1, h2, h3⟩
  exact ⟨h1, by simp only [h1, h2], h3⟩

/-- Witness for C1: window `[A, B]`, `Update(B, B)` with acked offset `(0,0)`. -/
theorem Update_distinct_offsets_witness :
    (SyncWindow.mk [⟨⟨1, 10⟩, false⟩, ⟨⟨1, 20⟩, false⟩]).Update ⟨⟨1, 20⟩, false⟩
        ⟨⟨1, 20⟩, false⟩ ⟨0, 0⟩ =
      (true, ⟨[⟨⟨1, 10⟩, false⟩, ⟨⟨1, 20⟩, true⟩]⟩, ⟨0, 0⟩) := by
  have h := (Update_distinct_offsets (SyncWindow.mk [⟨⟨1, 10⟩, false⟩, ⟨⟨1, 20⟩, false⟩])
    ⟨⟨1, 20⟩, false⟩ ⟨⟨1, 20⟩, false⟩ ⟨0, 0⟩ 1 1 ⟨⟨1, 20⟩, false⟩ ⟨⟨1, 20⟩, false⟩
    (by decide) (by decide) (by decide) (by decide) (by decide) (by decide)).1
  rw [h]
  decide

theorem Update_no_end (w : SyncWindow) (s e : SyncWinItem) (a : BinlogOffset)
    (h : ∀ y ∈ w.win_, y.opEq e = false) : w.Update s e a = (false, w, a) := by
  have h2 := findLoop_snd_none s e w.win_ 0 w.win_.length w.win_.length h
  unfold SyncWindow.Update
  simp only [h2, or_true, if_true]

theorem Update_no_start (w : SyncWindow) (s e : SyncWinItem) (a : BinlogOffset)
    (j : Nat) (x : SyncWinItem) (hj : w.win_[j]? = some x) (hx : x.opEq e = true)
    (hfirst : ∀ (j1 : Nat) (z : SyncWinItem), j1 < j → w.win_[j1]? = some z → z.opEq e = false)
    (hnone : ∀ (i : Nat) (y : SyncWinItem), i ≤ j → w.win_[i]? = some y → y.opEq s = false) :
    w.Update s e a = (false, w, a) := by
  have h1 := findLoop_fst_none s e w.win_ 0 w.win_.length w.win_.length j x hj hx hfirst hnone
  unfold SyncWindow.Update
  simp only [h1, true_or, if_true]

/-- Among the indices up to `j` holding an item equal to `s` there is a last one. -/
theorem exists_last_start (win : List SyncWinItem) (s : SyncWinItem) (j i : Nat)
    (y : SyncWinItem) (hij : i ≤ j) (hi : win[i]? = some y) (hy : y.opEq s = true) :
    ∃ (i0 : Nat) (y0 : SyncWinItem), i0 ≤ j ∧ win[i0]? = some y0 ∧ y0.opEq s = true ∧
      ∀ (i1 : Nat) (z : SyncWinItem), i0 < i1 → i1 ≤ j → win[i1]? = some z → z.opEq s = false := by
  let P : Nat → Prop := fun k => (win[k]?).map (fun z => z.opEq s) = some true
  have hP : P i := by simp [P, hi, hy]
  have hg : P (Nat.findGreatest P j) := Nat.findGreatest_spec hij hP
  have hle : Nat.findGreatest P j ≤ j := Nat.findGreatest_le j
  obtain ⟨y0, hy0, hy0s⟩ : ∃ y0, win[Nat.findGreatest P j]? = some y0 ∧ y0.opEq s = true := by
    simpa [P, Option.map_eq_some'] using hg
  refine ⟨Nat.findGreatest P j, y0, hle, hy0, hy0s, ?_⟩
  intro i1 z h1 h2 hz
  have hn : ¬ P i1 := Nat.findGreatest_is_greatest h1 h2
  cases hzs : z.opEq s
  · rfl
  · exact absurd (by simp [P, hz, hzs]) hn

/-- An item equal to `e` somewhere in the window has a first occurrence. -/
theorem exists_first_end (win : List SyncWinItem) (e : SyncWinItem)
    (h : ∃ y ∈ win, y.opEq e = true) :
    ∃ (j : Nat) (x : SyncWinItem), win[j]? = some x ∧ x.opEq e = true ∧
      ∀ (j1 : Nat) (z : SyncWinItem), j1 < j → win[j1]? = some z → z.opEq e = false := by
  let P : Nat → Prop := fun k => (win[k]?).map (fun z => z.opEq e) = some true
  have hex : ∃ k, P k := by
    rcases h with ⟨y, hy, hye⟩
    rcases List.getElem?_of_mem hy with ⟨k, hk⟩
    exact ⟨k, by simp [P, hk, hye]⟩
  have hg : P (Nat.find hex) := Nat.find_spec hex
  obtain ⟨x, hx, hxe⟩ : ∃ x, win[Nat.find hex]? = some x ∧ x.opEq e = true := by
    simpa [P, Option.map_eq_some'] using hg
  refine ⟨Nat.find hex, x, hx, hxe, ?_⟩
  intro j1 z h1 hz
  have hn : ¬ P j1 := Nat.find_min hex h1
  cases hze : z.opEq e
  · rfl
  · exact absurd (by simp [P, hz, hze]) hn

/-- C8 as stated fails: in `[B, A, B]` the item `A` occurs first at index 1 and
`B` occurs at index 2, so the described range is `(1, 2)`, yet `Update(A, B)`
returns false because the search stops at the `B` of index 0. -/
theorem Update_first_occurrence_counterexample :
    specAckRange [⟨⟨1, 20⟩, false⟩, ⟨⟨1, 10⟩, false⟩, ⟨⟨1, 20⟩, false⟩]
        ⟨⟨1, 10⟩, false⟩ ⟨⟨1, 20⟩, false⟩ = some (1, 2) ∧
      ((SyncWindow.mk [⟨⟨1, 20⟩, false⟩, ⟨⟨1, 10⟩, false⟩, ⟨⟨1, 20⟩, false⟩]).Update
        ⟨⟨1, 10⟩, false⟩ ⟨⟨1, 20⟩, false⟩ ⟨0, 0⟩).1 = false := by
  constructor
  · decide
  · decide

/-- C8 (amended): for every window, duplicates allowed, `Update` returns false
exactly when `end` does not occur in the window or `start` does not occur at or
before the first occurrence of `end`, and then changes nothing; otherwise it
acks the range from the last occurrence of `start` at or before the first
occurrence of `end` up to that occurrence of `end`. -/
theorem Update_fails_iff (w : SyncWindow) (s e : SyncWinItem) (a : BinlogOffset) :
    ((w.Update s e a).1 = false ↔
        ¬ ∃ (i j : Nat) (x y : SyncWinItem), i ≤ j ∧ w.win_[j]? = some x ∧ x.opEq e = true ∧
          (∀ (j1 : Nat) (z : SyncWinItem), j1 < j → w.win_[j1]? = some z → z.opEq e = false) ∧
          w.win_[i]? = some y ∧ y.opEq s = true) ∧
      ((w.Update s e a).1 = false → w.Update s e a = (false, w, a)) ∧
      (∀ (i j : Nat) (x y : SyncWinItem), i ≤ j → w.win_[j]? = some x → x.opEq e = true →
        (∀ (j1 : Nat) (z : SyncWinItem), j1 < j → w.win_[j1]? = some z → z.opEq e = false) →
        w.win_[i]? = some y → y.opEq s = true →
        (∀ (i1 : Nat) (z : SyncWinItem), i < i1 → i1 ≤ j → w.win_[i1]? = some z → z.opEq s = false) →
        w.Update s e a =
          (true, ⟨(markedRange w.win_ i j).dropWhile (fun z => z.acked_)⟩,
            ackedAfter (markedRange w.win_ i j) a)) := by
  have hpos : ∀ (i j : Nat) (x y : SyncWinItem), i ≤ j → w.win_[j]? = some x → x.opEq e = true →
      (∀ (j1 : Nat) (z : SyncWinItem), j1 < j → w.win_[j1]? = some z → z.opEq e = false) →
      w.win_[i]? = some y → y.opEq s = true →
      (∀ (i1 : Nat) (z : SyncWinItem), i < i1 → i1 ≤ j → w.win_[i1]? = some z → z.opEq s = false) →
      w.Update s e a =
        (true, ⟨(markedRange w.win_ i j).dropWhile (fun z => z.acked_)⟩,
          ackedAfter (markedRange w.win_ i j) a) :=
    fun i j x y hij hj hx hfirst hi hy hlast =>
      Update_of_positions w s e a i j x y hj hx hfirst hij hi hy hlast
  by_cases hE : ∃ y ∈ w.win_, y.opEq e = true
  · rcases exists_first_end w.win_ e hE with ⟨j, x, hj, hx, hfirst⟩
    by_cases hS : ∃ (i : Nat) (y : SyncWinItem), i ≤ j ∧ w.win_[i]? = some y ∧ y.opEq s = true
    · rcases hS with ⟨i, y, hij, hi, hy⟩
      rcases exists_last_start w.win_ s j i y hij hi hy with ⟨i0, y0, hi0, hy0, hy0s, hlast⟩
      have hU := hpos i0 j x y0 hi0 hj hx hfirst hy0 hy0s hlast
      refine ⟨?_, ?_, hpos⟩
      · rw [hU]
        constructor
        · intro h; exact absurd h (by simp)
        · intro h; exact absurd ⟨i, j, x, y, hij, hj, hx, hfirst, hi, hy⟩ h
      · rw [hU]; intro h; exact absurd h (by simp)
    · have hnone : ∀ (i : Nat) (y : SyncWinItem), i ≤ j → w.win_[i]? = some y → y.opEq s = false := by
        intro i y hij hi
        cases hys : y.opEq s
        · rfl
        · exact absurd ⟨i, y, hij, hi, hys⟩ hS
      have hU := Update_no_start w s e a j x hj hx hfirst hnone
      refine ⟨?_, fun _ => hU, hpos⟩
      rw [hU]
      constructor
      · intro _ hex
        rcases hex with ⟨i, j2, x2, y, hij, hj2, hx2, hfirst2, hi, hy⟩
        have hjj : j2 = j := by
          rcases Nat.lt_trichotomy j2 j with hlt | heq | hgt
          · have := hfirst j2 x2 hlt hj2
            rw [hx2] at this; exact absurd this (by simp)
          · exact heq
          · have := hfirst2 j x hgt hj
            rw [hx] at this; exact absurd this (by simp)
        subst hjj
        have := hnone i y hij hi
        rw [hy] at this; exact absurd this (by simp)
      · intro _; rfl
  · have hnoe : ∀ y ∈ w.win_, y.opEq e = false := by
      intro y hy
      cases hye : y.opEq e
      · rfl
      · exact absurd ⟨y, hy, hye⟩ hE
    have hU := Update_no_end w s e a hnoe
    refine ⟨?_, fun _ => hU, hpos⟩
    rw [hU]
    constructor
    · intro _ hex
      rcases hex with ⟨i, j, x, y, _, hj, hx, _, _, _⟩
      have := hnoe x (List.getElem?_mem hj)
      rw [hx] at this; exact absurd this (by simp)
    · intro _; rfl

/-- Witness for C8 (amended): in `[A, A, B]`, `Update(A, B)` acks `1..2`, the
range starting at the last `A` before the first `B`; nothing is popped. -/
theorem Update_fails_iff_witness :
    (SyncWindow.mk [⟨⟨1, 10⟩, false⟩, ⟨⟨1, 10⟩, false⟩, ⟨⟨1, 20⟩, false⟩]).Update
        ⟨⟨1, 10⟩, false⟩ ⟨⟨1, 20⟩, false⟩ ⟨0, 0⟩ =
      (true, ⟨[⟨⟨1, 10⟩, false⟩, ⟨⟨1, 10⟩, true⟩, ⟨⟨1, 20⟩, true⟩]⟩, ⟨0, 0⟩) := by
  have h := (Update_fails_iff
    (SyncWindow.mk [⟨⟨1, 10⟩, false⟩, ⟨⟨1, 10⟩, false⟩, ⟨⟨1, 20⟩, false⟩])
    ⟨⟨1, 10⟩, false⟩ ⟨⟨1, 20⟩, false⟩ ⟨0, 0⟩).2.2 1 2 ⟨⟨1, 20⟩, false⟩ ⟨⟨1, 10⟩, false⟩
    (by decide) (by decide) (by decide)
    (by
      intro j1 z hj1 hz
      have hc : j1 = 0 ∨ j1 = 1 := by omega
      rcases hc with rfl | rfl <;> simp at hz <;> subst hz <;> decide)
    (by decide) (by decide)
    (by
      intro i1 z h1 h2 hz
      have hc : i1 = 2 := by omega
      subst hc
      simp at hz
      subst hz
      decide)
  rw [h]
  decide

/-! ## Window capacity and purge computations -/

/-- C9 (defect in the code): with window size 5 and six items in the window,
`Remainings` returns -1, not 0: the difference wraps in `size_t`, passes the
test `> 0`, and is read back as a negative `int`. -/
theorem Remainings_overfull :
    SyncWindow.Remainings 5 ⟨List.replicate 6 ⟨⟨1, 0⟩, false⟩⟩ = -1 := by
  decide

/-- While the window holds at most `W` items (with `W` an `int` value),
`Remainings` is `W - len`. -/
theorem Remainings_of_le (W : Nat) (w : SyncWindow) (hW : W < 2 ^ 31)
    (hle : w.win_.length ≤ W) :
    SyncWindow.Remainings (W : Int) w = ((W - w.win_.length : Nat) : Int) := by
  unfold SyncWindow.Remainings
  have h1 : ((W : Int) - (w.win_.length : Int)) = ((W - w.win_.length : Nat) : Int) := by
    omega
  have h2 : ((W - w.win_.length : Nat) : Int) % (2 ^ 64 : Int) =
      ((W - w.win_.length : Nat) : Int) := by
    apply Int.emod_eq_of_lt <;> omega
  simp only [h1, h2, Int.toNat_ofNat]
  by_cases h0 : W - w.win_.length > 0
  · rw [if_pos h0]
    unfold toInt32
    have h3 : (W - w.win_.length) % 2 ^ 32 = W - w.win_.length := by
      apply Nat.mod_eq_of_lt; omega
    rw [h3, if_pos (by omega)]
  · rw [if_neg h0]
    omega

/-- C6 (defect in the code): with the binlog tip in file 5, no slave and index
0, `BinlogCloudPurge` returns true although `0 <= 5 - 10` is false over the
integers: `boffset.filenum - 10` wraps to `2^32 - 5`. -/
theorem BinlogCloudPurge_small_tip :
    BinlogCloudPurge (some ⟨5, 0⟩) [] 0 = true := by
  decide

theorem cloudPurgeLoop_iff (index : Nat) (slaves_ : List SlaveNode) :
    cloudPurgeLoop index slaves_ = true ↔
      (∀ s ∈ slaves_, s.slave_state ≠ SlaveState.kSlaveDbSync) ∧
      (∀ s ∈ slaves_, s.slave_state = SlaveState.kSlaveBinlogSync →
        ¬ s.acked_offset.filenum ≤ index) := by
  induction slaves_ with
  | nil => simp [cloudPurgeLoop]
  | cons s rest ih =>
    unfold cloudPurgeLoop
    by_cases h1 : s.slave_state = SlaveState.kSlaveDbSync
    · simp [h1]
    · rw [if_neg h1]
      by_cases h2 : s.slave_state = SlaveState.kSlaveBinlogSync
      · rw [if_pos h2]
        by_cases h3 : index ≥ s.acked_offset.filenum
        · rw [if_pos h3]
          simp only [Bool.false_eq_true, false_iff, not_and]
          intro _ hall
          exact hall s (by simp) h2 h3
        · rw [if_neg h3, ih]
          simp only [List.mem_cons, forall_eq_or_imp]
          constructor
          · rintro ⟨ha, hb⟩
            exact ⟨⟨h1, ha⟩, ⟨fun _ => h3, hb⟩⟩
          · rintro ⟨⟨_, ha⟩, ⟨_, hb⟩⟩
            exact ⟨ha, hb⟩
      · rw [if_neg h2, ih]
        simp only [List.mem_cons, forall_eq_or_imp]
        constructor
        · rintro ⟨ha, hb⟩
          exact ⟨⟨h1, ha⟩, ⟨fun h => absurd h h2, hb⟩⟩
        · rintro ⟨⟨_, ha⟩, ⟨_, hb⟩⟩
          exact ⟨ha, hb⟩

/-- From file 10 on, `BinlogCloudPurge` is the predicate of the specification. -/
theorem BinlogCloudPurge_iff_of_ge (tip : BinlogOffset) (slaves_ : List SlaveNode)
    (index : Nat) (h10 : 10 ≤ tip.filenum) (h32 : tip.filenum < 2 ^ 32) :
    BinlogCloudPurge (some tip) slaves_ index = true ↔
      (index ≤ tip.filenum - 10 ∧
        (∀ s ∈ slaves_, s.slave_state ≠ SlaveState.kSlaveDbSync) ∧
        (∀ s ∈ slaves_, s.slave_state = SlaveState.kSlaveBinlogSync →
          ¬ s.acked_offset.filenum ≤ index)) := by
  unfold BinlogCloudPurge
  have hw : (tip.filenum + 2 ^ 32 - 10) % 2 ^ 32 = tip.filenum - 10 := by omega
  simp only [hw]
  by_cases hi : index > tip.filenum - 10
  · rw [if_pos hi]
    simp only [Bool.false_eq_true, false_iff, not_and]
    intro h; omega
  · rw [if_neg hi, cloudPurgeLoop_iff]
    constructor
    · intro h; exact ⟨by omega, h⟩
    · intro h; exact h.2

theorem foldr_min_min (l : List Nat) (a b : Nat) :
    l.foldr min (min a b) = min a (l.foldr min b) := by
  induction l with
  | nil => rfl
  | cons x xs ih =>
    simp only [List.foldr_cons, ih]
    omega

theorem safetyPurgeLoop_eq (slaves_ : List SlaveNode) (purge_max : Nat) :
    safetyPurgeLoop slaves_ purge_max =
      if ∀ s ∈ slaves_, s.slave_state = SlaveState.kSlaveBinlogSync ∧ 0 < s.acked_offset.filenum
      then (true, (slaves_.map (fun s => s.acked_offset.filenum - 1)).foldr min purge_max)
      else ((safetyPurgeLoop slaves_ purge_max).1 && false,
        (safetyPurgeLoop slaves_ purge_max).2) := by
  induction slaves_ generalizing purge_max with
  | nil => simp [safetyPurgeLoop]
  | cons s rest ih =>
    unfold safetyPurgeLoop
    by_cases hs : s.slave_state = SlaveState.kSlaveBinlogSync ∧ s.acked_offset.filenum > 0
    · rw [if_pos hs, ih]
      by_cases hall : ∀ t ∈ rest,
          t.slave_state = SlaveState.kSlaveBinlogSync ∧ 0 < t.acked_offset.filenum
      · have hall2 : ∀ t ∈ s :: rest,
            t.slave_state = SlaveState.kSlaveBinlogSync ∧ 0 < t.acked_offset.filenum := by
          intro t ht
          rcases List.mem_cons.1 ht with rfl | h
          · exact hs
          · exact hall t h
        rw [if_pos hall, if_pos hall2]
        simp only [List.map_cons, List.foldr_cons, foldr_min_min]
      · have hall2 : ¬ ∀ t ∈ s :: rest,
            t.slave_state = SlaveState.kSlaveBinlogSync ∧ 0 < t.acked_offset.filenum := by
          intro h
          exact hall (fun t ht => h t (List.mem_cons_of_mem _ ht))
        rw [if_neg hall, if_neg hall2]
        simp
    · rw [if_neg hs]
      have hall2 : ¬ ∀ t ∈ s :: rest,
          t.slave_state = SlaveState.kSlaveBinlogSync ∧ 0 < t.acked_offset.filenum := by
        intro h
        exact hs (h s (by simp))
      rw [if_neg hall2]
      simp

/-- C7 as stated fails: with the tip in file 5 and one slave in `BinlogSync`
that acked into file 3, every slave qualifies, yet the answer is "none". -/
theorem GetSafetyPurgeBinlog_small_tip_counterexample :
    (∀ s ∈ [({ slave_state := SlaveState.kSlaveBinlogSync, acked_offset := ⟨3, 0⟩ } : SlaveNode)],
        s.slave_state = SlaveState.kSlaveBinlogSync ∧ 0 < s.acked_offset.filenum) ∧
      GetSafetyPurgeBinlog "write2file" (some ⟨5, 0⟩)
        [{ slave_state := SlaveState.kSlaveBinlogSync, acked_offset := ⟨3, 0⟩ }] "" = (Status.OK, "none") := by
  constructor
  · decide
  · decide

/-- C7 (amended): with the partition present, `GetSafetyPurgeBinlog` reports a
file index exactly when `tip.file >= 10` and every slave is in `BinlogSync` with
`acked.file > 0`; the index is then `min(tip.file - 10, min over slaves of
acked.file - 1)`, printed as a signed 32-bit integer after the file-name prefix
(so printed as itself while below `2^31`); otherwise it reports "none". -/
theorem GetSafetyPurgeBinlog_eq (kBinlogPrefix : String) (tip : BinlogOffset)
    (slaves_ : List SlaveNode) (safety_purge : String) :
    GetSafetyPurgeBinlog kBinlogPrefix (some tip) slaves_ safety_purge =
        (Status.OK,
          if 10 ≤ tip.filenum ∧ ∀ s ∈ slaves_,
              s.slave_state = SlaveState.kSlaveBinlogSync ∧ 0 < s.acked_offset.filenum
          then kBinlogPrefix ++ toString (toInt32 (specPurgeIndex tip slaves_))
          else "none") ∧
      (specPurgeIndex tip slaves_ < 2 ^ 31 →
        toInt32 (specPurgeIndex tip slaves_) = (specPurgeIndex tip slaves_ : Int)) := by
  constructor
  · unfold GetSafetyPurgeBinlog
    simp only
    congr 1
    by_cases h10 : tip.filenum ≥ 10
    · by_cases hall : ∀ s ∈ slaves_,
          s.slave_state = SlaveState.kSlaveBinlogSync ∧ 0 < s.acked_offset.filenum
      · have hc : 10 ≤ tip.filenum ∧ ∀ s ∈ slaves_,
            s.slave_state = SlaveState.kSlaveBinlogSync ∧ 0 < s.acked_offset.filenum :=
          ⟨h10, hall⟩
        rw [if_pos h10, safetyPurgeLoop_eq, if_pos hall, if_pos hc]
        simp [specPurgeIndex]
      · have hc : ¬ (10 ≤ tip.filenum ∧ ∀ s ∈ slaves_,
            s.slave_state = SlaveState.kSlaveBinlogSync ∧ 0 < s.acked_offset.filenum) :=
          fun h => hall h.2
        rw [if_pos h10, safetyPurgeLoop_eq, if_neg hall, if_neg hc]
        simp
    · have hc : ¬ (10 ≤ tip.filenum ∧ ∀ s ∈ slaves_,
          s.slave_state = SlaveState.kSlaveBinlogSync ∧ 0 < s.acked_offset.filenum) :=
        fun h => h10 h.1
      rw [if_neg h10, if_neg hc]
      simp
  · intro h
    unfold toInt32
    have h3 : specPurgeIndex tip slaves_ % 2 ^ 32 = specPurgeIndex tip slaves_ := by
      apply Nat.mod_eq_of_lt; omega
    rw [h3, if_pos h]

/-- Witness for C7 (amended): tip in file 30, slaves acked into files 7 and 12:
the reported name carries index `min(20, 6, 11) = 6`. -/
theorem GetSafetyPurgeBinlog_eq_witness :
    GetSafetyPurgeBinlog "write2file" (some ⟨30, 0⟩)
        [{ slave_state := SlaveState.kSlaveBinlogSync, acked_offset := ⟨7, 0⟩ },
         { slave_state := SlaveState.kSlaveBinlogSync, acked_offset := ⟨12, 0⟩ }] "" =
      (Status.OK, "write2file6") := by
  have h := (GetSafetyPurgeBinlog_eq "write2file" ⟨30, 0⟩
    [{ slave_state := SlaveState.kSlaveBinlogSync, acked_offset := ⟨7, 0⟩ },
     { slave_state := SlaveState.kSlaveBinlogSync, acked_offset := ⟨12, 0⟩ }] "").1
  rw [h]
  decide

/-! ## The term-guarded state machine of the slave partition -/

theorem matchStates_iff (p : SyncSlavePartition) (allowed_states : List ReplState) :
    p.matchStates allowed_states = true ↔ p.repl_state_ ∈ allowed_states := by
  induction allowed_states with
  | nil => simp [SyncSlavePartition.matchStates]
  | cons a rest ih =>
    unfold SyncSlavePartition.matchStates
    by_cases h : a = p.repl_state_
    · simp [h]
    · rw [if_neg h, ih]
      simp only [List.mem_cons]
      constructor
      · intro hm; exact Or.inr hm
      · rintro (hm | hm)
        · exact absurd hm.symm h
        · exact hm

/-- C3: `CASReplState` returns OK only if on entry the state is one of the
allowed states and the master term is the expected one; when either check
fails the result is Incomplete whatever the action is, and the partition
(state, term, master address, LastRecv) and its environment are as before. -/
theorem CASReplState_guard (p : SyncSlavePartition) (env : Env) (now : Nat)
    (allowed_states : List ReplState) (exp_master_term : Nat)
    (action : SyncSlavePartition → Env → Status × SyncSlavePartition × Env)
    (new_state : ReplState) :
    ((p.CASReplState env now allowed_states exp_master_term action new_state).1 = Status.OK →
        p.repl_state_ ∈ allowed_states ∧ p.m_term_ = exp_master_term) ∧
      (¬ (p.repl_state_ ∈ allowed_states ∧ p.m_term_ = exp_master_term) →
        p.CASReplState env now allowed_states exp_master_term action new_state =
          (Status.Incomplete, p, env)) := by
  unfold SyncSlavePartition.CASReplState
  by_cases hm : p.matchStates allowed_states = true
  · have hmem := (matchStates_iff p allowed_states).1 hm
    by_cases ht : exp_master_term = p.m_term_
    · constructor
      · intro _; exact ⟨hmem, ht.symm⟩
      · intro hn; exact absurd ⟨hmem, ht.symm⟩ hn
    · have hm2 : ¬ ¬ p.matchStates allowed_states = true := fun h => h hm
      rw [if_neg hm2, if_pos ht]
      constructor
      · intro h; exact absurd h (by simp)
      · intro _; rfl
  · rw [if_pos hm]
    constructor
    · intro h; exact absurd h (by simp)
    · intro _; rfl

/-- Witness for C3: a partition in `kConnected` with term 3; a CAS expecting
term 2 fails with Incomplete and changes nothing, whatever the action does. -/
theorem CASReplState_guard_witness :
    ({ m_term_ := 3, repl_state_ := ReplState.kConnected } : SyncSlavePartition).CASReplState
        {} 100 [ReplState.kConnected, ReplState.kWaitDBSync] 2
        (fun q e => (Status.OK, { q with m_term_ := 0 }, e)) ReplState.kTryConnect =
      (Status.Incomplete, { m_term_ := 3, repl_state_ := ReplState.kConnected }, {}) :=
  (CASReplState_guard { m_term_ := 3, repl_state_ := ReplState.kConnected }
    {} 100 [ReplState.kConnected, ReplState.kWaitDBSync] 2
    (fun q e => (Status.OK, { q with m_term_ := 0 }, e)) ReplState.kTryConnect).2 (by decide)

/-- The outcome of `SetMasterUnsafe` for a non-empty master ip, branch by branch. -/
theorem SetMasterUnsafe_cases (p : SyncSlavePartition) (env : Env) (now : Nat)
    (newMaster : RmNode) (info_file_path : String) (hip : newMaster.ip_ ≠ "") :
    ((p.SetMasterUnsafe env now newMaster info_file_path).1 = Status.Corruption ∧
        (p.SetMasterUnsafe env now newMaster info_file_path).2.1 = p ∧
        (p.SetMasterUnsafe env now newMaster info_file_path).2.2.content = env.content ∧
        (rfind info_file_path '/' = none ∨
          (∃ i, rfind info_file_path '/' = some i ∧
            String.mk (info_file_path.data.take i) ∉ env.existing ∧
            String.mk (info_file_path.data.take i) ∈ env.uncreatable) ∨
          info_file_path ∈ env.unopenable)) ∨
      ((p.SetMasterUnsafe env now newMaster info_file_path).1 = Status.OK ∧
        (p.SetMasterUnsafe env now newMaster info_file_path).2.1 =
          { p with m_info_ := { newMaster with last_recv_time_ := now },
                   m_term_ := (p.m_term_ + 1) % 2 ^ 32 } ∧
        (p.SetMasterUnsafe env now newMaster info_file_path).2.2.read info_file_path =
          some (if info_file_path ∈ env.unwritable then ""
            else toString ((p.m_term_ + 1) % 2 ^ 32)) ∧
        ¬ (rfind info_file_path '/' = none ∨
          (∃ i, rfind info_file_path '/' = some i ∧
            String.mk (info_file_path.data.take i) ∉ env.existing ∧
            String.mk (info_file_path.data.take i) ∈ env.uncreatable) ∨
          info_file_path ∈ env.unopenable)) := by
  unfold SyncSlavePartition.SetMasterUnsafe
  rw [if_neg hip]
  cases hr : rfind info_file_path '/' with
  | none => left; simp
  | some i =>
    simp only
    by_cases hd : String.mk (info_file_path.data.take i) ∉ env.existing ∧
        String.mk (info_file_path.data.take i) ∈ env.uncreatable
    · rw [if_pos hd]
      left
      exact ⟨rfl, rfl, rfl, Or.inr (Or.inl ⟨i, rfl, hd⟩)⟩
    · rw [if_neg hd]
      have hun : (if String.mk (info_file_path.data.take i) ∈ env.existing then env
          else { env with existing := String.mk (info_file_path.data.take i) :: env.existing }
          ).unopenable = env.unopenable := by
        split <;> rfl
      have hco : (if String.mk (info_file_path.data.take i) ∈ env.existing then env
          else { env with existing := String.mk (info_file_path.data.take i) :: env.existing }
          ).content = env.content := by
        split <;> rfl
      have huw : (if String.mk (info_file_path.data.take i) ∈ env.existing then env
          else { env with existing := String.mk (info_file_path.data.take i) :: env.existing }
          ).unwritable = env.unwritable := by
        split <;> rfl
      by_cases ho : info_file_path ∈ env.unopenable
      · rw [if_pos (by rw [hun]; exact ho)]
        left
        exact ⟨rfl, rfl, hco, Or.inr (Or.inr ho)⟩
      · rw [if_neg (by rw [hun]; exact ho)]
        right
        refine ⟨rfl, rfl, ?_, ?_⟩
        · simp only [Env.read, List.lookup, beq_self_eq_true, huw]
        · rintro (h | ⟨i2, hi2, hd2⟩ | h)
          · exact absurd h (by simp)
          · simp only [Option.some.injEq] at hi2
            subst hi2
            exact hd hd2
          · exact ho h

theorem SetMasterUnsafe_empty (p : SyncSlavePartition) (env : Env) (now : Nat)
    (newMaster : RmNode) (info_file_path : String) (hip : newMaster.ip_ = "") :
    p.SetMasterUnsafe env now newMaster info_file_path =
      (Status.OK, { p with m_info_ := newMaster }, env) := by
  unfold SyncSlavePartition.SetMasterUnsafe
  rw [if_pos hip]

/-- C10: a `SetMasterUnsafe` with a non-empty master ip that does not return OK
returns Corruption and leaves the partition (so `m_info_` and `m_term_`) as it
was; this happens exactly when the path has no '/', its directory is missing
and cannot be created, or the term file cannot be opened. With an empty master
ip it always returns OK and leaves the term and the files untouched. -/
theorem SetMasterUnsafe_failure (p : SyncSlavePartition) (env : Env) (now : Nat)
    (newMaster : RmNode) (info_file_path : String) :
    (newMaster.ip_ ≠ "" →
        (p.SetMasterUnsafe env now newMaster info_file_path).1 ≠ Status.OK →
        (p.SetMasterUnsafe env now newMaster info_file_path).1 = Status.Corruption ∧
        (p.SetMasterUnsafe env now newMaster info_file_path).2.1.m_info_ = p.m_info_ ∧
        (p.SetMasterUnsafe env now newMaster info_file_path).2.1.m_term_ = p.m_term_) ∧
      (newMaster.ip_ ≠ "" →
        ((p.SetMasterUnsafe env now newMaster info_file_path).1 ≠ Status.OK ↔
          (rfind info_file_path '/' = none ∨
            (∃ i, rfind info_file_path '/' = some i ∧
              String.mk (info_file_path.data.take i) ∉ env.existing ∧
              String.mk (info_file_path.data.take i) ∈ env.uncreatable) ∨
            info_file_path ∈ env.unopenable))) ∧
      (newMaster.ip_ = "" →
        (p.SetMasterUnsafe env now newMaster info_file_path).1 = Status.OK ∧
        (p.SetMasterUnsafe env now newMaster info_file_path).2.1.m_term_ = p.m_term_ ∧
        (p.SetMasterUnsafe env now newMaster info_file_path).2.2 = env) := by
  refine ⟨?_, ?_, ?_⟩
  · intro hip hne
    rcases SetMasterUnsafe_cases p env now newMaster info_file_path hip with
      ⟨h1, h2, _, _⟩ | ⟨h1, _, _, _⟩
    · exact ⟨h1, by rw [h2], by rw [h2]⟩
    · exact absurd h1 hne
  · intro hip
    rcases SetMasterUnsafe_cases p env now newMaster info_file_path hip with
      ⟨h1, _, _, h4⟩ | ⟨h1, _, _, h4⟩
    · rw [h1]
      exact ⟨fun _ => h4, fun _ => by decide⟩
    · rw [h1]
      exact ⟨fun h => absurd rfl h, fun h => absurd h h4⟩
  · intro hip
    rw [SetMasterUnsafe_empty p env now newMaster info_file_path hip]
    exact ⟨rfl, rfl, rfl⟩

/-- Witness for C10: the term file of `/db/term` cannot be opened; the call
returns Corruption and master and term stay as they were. -/
theorem SetMasterUnsafe_failure_witness :
    (({ m_term_ := 7 } : SyncSlavePartition).SetMasterUnsafe
        { existing := ["/db"], unopenable := ["/db/term"] } 50
        { ip_ := "10.0.0.1", port_ := 9221 } "/db/term").1 = Status.Corruption ∧
      (({ m_term_ := 7 } : SyncSlavePartition).SetMasterUnsafe
        { existing := ["/db"], unopenable := ["/db/term"] } 50
        { ip_ := "10.0.0.1", port_ := 9221 } "/db/term").2.1.m_info_ = {} ∧
      (({ m_term_ := 7 } : SyncSlavePartition).SetMasterUnsafe
        { existing := ["/db"], unopenable := ["/db/term"] } 50
        { ip_ := "10.0.0.1", port_ := 9221 } "/db/term").2.1.m_term_ = 7 :=
  (SetMasterUnsafe_failure { m_term_ := 7 }
    { existing := ["/db"], unopenable := ["/db/term"] } 50
    { ip_ := "10.0.0.1", port_ := 9221 } "/db/term").1 (by decide) (by decide)

/-- The write to the term file is not checked: when the file opens and the write
fails, `SetMasterUnsafe` still returns OK with the in-memory term raised from 7 to
8, and the truncated file is empty. -/
theorem SetMasterUnsafe_unchecked_write :
    (({ m_term_ := 7 } : SyncSlavePartition).SetMasterUnsafe
        { existing := ["/db"], unwritable := ["/db/term"] } 50
        { ip_ := "10.0.0.1", port_ := 9221 } "/db/term").1 = Status.OK ∧
      (({ m_term_ := 7 } : SyncSlavePartition).SetMasterUnsafe
        { existing := ["/db"], unwritable := ["/db/term"] } 50
        { ip_ := "10.0.0.1", port_ := 9221 } "/db/term").2.1.m_term_ = 8 ∧
      (({ m_term_ := 7 } : SyncSlavePartition).SetMasterUnsafe
        { existing := ["/db"], unwritable := ["/db/term"] } 50
        { ip_ := "10.0.0.1", port_ := 9221 } "/db/term").2.2.read "/db/term" = some "" := by
  refine ⟨?_, ?_, ?_⟩ <;> decide

/-! ## The binlog reader pool -/

theorem Fetch_preserves_Inv (m : BinlogReaderManager) (rm_node : RmNode) (h : m.Inv) :
    (m.FetchBinlogReader rm_node).2.2.Inv := by
  unfold BinlogReaderManager.FetchBinlogReader
  by_cases hf : (m.occupied_.find? (fun e => e.1.sameKey rm_node)).isSome = true
  · rw [if_pos hf]; exact h
  · rw [if_neg hf]
    rcases h with ⟨hn, hb⟩
    unfold BinlogReaderManager.readers at hn hb
    cases hv : m.vacant_ with
    | nil =>
      rw [hv] at hn hb
      simp only [BinlogReaderManager.Inv, BinlogReaderManager.readers, List.map_cons,
        List.cons_append, hv]
      constructor
      · rw [List.nodup_cons]
        refine ⟨?_, hn⟩
        intro hmem
        have := hb _ hmem
        omega
      · intro r hr
        rcases List.mem_cons.1 hr with rfl | hr
        · omega
        · have := hb r hr
          omega
    | cons reader rest =>
      rw [hv] at hn hb
      simp only [BinlogReaderManager.Inv, BinlogReaderManager.readers, List.map_cons,
        List.cons_append]
      have hperm : (List.map Prod.snd m.occupied_ ++ reader :: rest).Perm
          (reader :: (List.map Prod.snd m.occupied_ ++ rest)) := List.perm_middle
      constructor
      · exact (List.Perm.nodup_iff hperm).1 hn
      · intro r hr
        exact hb r (hperm.symm.subset hr)

theorem Release_preserves_Inv (m : BinlogReaderManager) (rm_node : RmNode) (h : m.Inv) :
    (m.ReleaseBinlogReader rm_node).2.Inv := by
  unfold BinlogReaderManager.ReleaseBinlogReader
  cases hf : m.occupied_.find? (fun e => e.1.sameKey rm_node) with
  | none => exact h
  | some e =>
    have hmem : e ∈ m.occupied_ := List.mem_of_find?_eq_some hf
    have hkey : e.1.sameKey rm_node = true := by
      have := List.find?_some hf
      simpa using this
    rcases h with ⟨hn, hb⟩
    unfold BinlogReaderManager.readers at hn hb
    rcases List.nodup_append.1 hn with ⟨hno, hnv, hdis⟩
    simp only [BinlogReaderManager.Inv, BinlogReaderManager.readers]
    have hsub : List.Sublist
        ((m.occupied_.filter (fun x => ¬ x.1.sameKey rm_node)).map Prod.snd)
        (m.occupied_.map Prod.snd) := List.Sublist.map _ (List.filter_sublist _)
    have he_vac : e.2 ∉ m.vacant_ :=
      List.disjoint_left.1 hdis (List.mem_map_of_mem Prod.snd hmem)
    have he_occ : e.2 ∉ (m.occupied_.filter (fun x => ¬ x.1.sameKey rm_node)).map Prod.snd := by
      intro hin
      rcases List.mem_map.1 hin with ⟨x, hx, hxe⟩
      rcases List.mem_filter.1 hx with ⟨hxo, hxk⟩
      have hxeq : x = e := List.inj_on_of_nodup_map hno hxo hmem hxe
      subst hxeq
      simp [hkey] at hxk
    constructor
    · rw [List.nodup_append]
      refine ⟨hno.sublist hsub, ?_, ?_⟩
      · rw [List.nodup_append]
        refine ⟨hnv, List.nodup_singleton _, ?_⟩
        rw [List.disjoint_left]
        intro a ha hae
        rw [List.mem_singleton] at hae
        subst hae
        exact he_vac ha
      · rw [List.disjoint_left]
        intro a ha hav
        rcases List.mem_append.1 hav with hv | hv
        · exact List.disjoint_left.1 hdis (hsub.subset ha) hv
        · rw [List.mem_singleton] at hv
          subst hv
          exact he_occ ha
    · intro r hr
      rcases List.mem_append.1 hr with hr | hr
      · exact hb r (List.mem_append_left _ (hsub.subset hr))
      · rcases List.mem_append.1 hr with hr | hr
        · exact hb r (List.mem_append_right _ hr)
        · rw [List.mem_singleton] at hr
          subst hr
          exact hb _ (List.mem_append_left _ (List.mem_map_of_mem Prod.snd hmem))

theorem Reachable_Inv (m : BinlogReaderManager) (h : m.Reachable) : m.Inv := by
  induction h with
  | empty =>
    simp [BinlogReaderManager.Inv, BinlogReaderManager.readers]
  | fetch m rm_node _ ih => exact Fetch_preserves_Inv m rm_node ih
  | release m rm_node _ ih => exact Release_preserves_Inv m rm_node ih

/-- The reader handed out by a successful fetch is a vacant one or a new object. -/
theorem Fetch_reader_source (m : BinlogReaderManager) (rm_node : RmNode) (r : Nat)
    (m1 : BinlogReaderManager)
    (h : m.FetchBinlogReader rm_node = (Status.OK, some r, m1)) :
    r ∈ m.vacant_ ∨ r = m.constructed := by
  unfold BinlogReaderManager.FetchBinlogReader at h
  by_cases hf : (m.occupied_.find? (fun e => e.1.sameKey rm_node)).isSome = true
  · rw [if_pos hf] at h
    simp at h
  · rw [if_neg hf] at h
    cases hv : m.vacant_ with
    | nil =>
      rw [hv] at h
      simp only [Prod.mk.injEq, Option.some.injEq, true_and] at h
      exact Or.inr h.1.symm
    | cons reader rest =>
      rw [hv] at h
      simp only [Prod.mk.injEq, Option.some.injEq, true_and] at h
      left
      rw [← h.1]
      exact List.mem_cons_self _ _

/-- C5: in every pool state reachable from the empty manager by fetches and
releases, no reader is checked out under two entries (so not under two keys),
no checked-out reader is in the vacant list, and a successful fetch hands out a
reader that no live key holds. -/
theorem readers_exclusive (m : BinlogReaderManager) (h : m.Reachable) :
    (∀ e1 ∈ m.occupied_, ∀ e2 ∈ m.occupied_, e1.2 = e2.2 → e1 = e2) ∧
      (∀ e ∈ m.occupied_, e.2 ∉ m.vacant_) ∧
      (∀ (rm_node : RmNode) (r : Nat) (m1 : BinlogReaderManager),
        m.FetchBinlogReader rm_node = (Status.OK, some r, m1) →
        ∀ e ∈ m.occupied_, e.2 ≠ r) := by
  have hinv := Reachable_Inv m h
  rcases hinv with ⟨hn, hb⟩
  unfold BinlogReaderManager.readers at hn hb
  rcases List.nodup_append.1 hn with ⟨hno, _, hdis⟩
  refine ⟨?_, ?_, ?_⟩
  · intro e1 h1 e2 h2 heq
    exact List.inj_on_of_nodup_map hno h1 h2 heq
  · intro e he
    exact List.disjoint_left.1 hdis (List.mem_map_of_mem Prod.snd he)
  · intro rm_node r m1 hfetch e he her
    rcases Fetch_reader_source m rm_node r m1 hfetch with hv | hc
    · exact List.disjoint_left.1 hdis (List.mem_map_of_mem Prod.snd he) (her ▸ hv)
    · have := hb e.2 (List.mem_append_left _ (List.mem_map_of_mem Prod.snd he))
      omega

/-- Witness for C5: after fetching for two nodes, releasing the first and
fetching for a third, the two live keys hold the readers 1 and 0, and no reader
is vacant. -/
theorem readers_exclusive_witness :
    samplePool.Reachable ∧
      samplePool.occupied_ =
        [({ ip_ := "10.0.0.3", port_ := 3 }, 0), ({ ip_ := "10.0.0.2", port_ := 2 }, 1)] ∧
      ((∀ e1 ∈ samplePool.occupied_, ∀ e2 ∈ samplePool.occupied_, e1.2 = e2.2 → e1 = e2) ∧
        (∀ e ∈ samplePool.occupied_, e.2 ∉ samplePool.vacant_) ∧
        (∀ (rm_node : RmNode) (r : Nat) (m1 : BinlogReaderManager),
          samplePool.FetchBinlogReader rm_node = (Status.OK, some r, m1) →
          ∀ e ∈ samplePool.occupied_, e.2 ≠ r)) :=
  have hreach : samplePool.Reachable :=
    BinlogReaderManager.Reachable.fetch _ { ip_ := "10.0.0.3", port_ := 3 }
      (BinlogReaderManager.Reachable.release _ { ip_ := "10.0.0.1", port_ := 1 }
        (BinlogReaderManager.Reachable.fetch _ { ip_ := "10.0.0.2", port_ := 2 }
          (BinlogReaderManager.Reachable.fetch _ { ip_ := "10.0.0.1", port_ := 1 }
            BinlogReaderManager.Reachable.empty)))
  ⟨hreach, by decide, readers_exclusive samplePool hreach⟩

/-! ## Acks arriving in any order -/

theorem dropWhile_dropWhile_of_imp {α : Type} (p q : α → Bool)
    (h : ∀ x, p x = true → q x = true) (l : List α) :
    (l.dropWhile p).dropWhile q = l.dropWhile q := by
  induction l with
  | nil => rfl
  | cons x xs ih =>
    by_cases hp : p x = true
    · have hq := h x hp
      simp only [List.dropWhile_cons, hp, hq, if_true]
      exact ih
    · have hp2 : p x = false := by simpa using hp
      simp [List.dropWhile_cons, hp2]

theorem takeWhile_split_of_imp {α : Type} (p q : α → Bool)
    (h : ∀ x, p x = true → q x = true) (l : List α) :
    l.takeWhile q = l.takeWhile p ++ (l.dropWhile p).takeWhile q := by
  induction l with
  | nil => rfl
  | cons x xs ih =>
    by_cases hp : p x = true
    · have hq := h x hp
      simp only [List.takeWhile_cons, List.dropWhile_cons, hp, hq, if_true, List.cons_append]
      rw [ih]
    · have hp2 : p x = false := by simpa using hp
      simp [List.takeWhile_cons, List.dropWhile_cons, hp2]

theorem pushAll_eq (os : List BinlogOffset) (w : SyncWindow) :
    pushAll w os = ⟨w.win_ ++ os.map SyncWinItem.ofOffset⟩ := by
  induction os generalizing w with
  | nil => simp [pushAll]
  | cons o rest ih =>
    have : pushAll w (o :: rest) = pushAll (w.Push (SyncWinItem.ofOffset o)) rest := rfl
    rw [this, ih]
    simp [SyncWindow.Push]

theorem windowAfter_nil (os : List BinlogOffset) :
    windowAfter os [] = os.map SyncWinItem.ofOffset := by
  unfold windowAfter
  have h : os.dropWhile (fun o => decide (o ∈ ([] : List BinlogOffset))) = os := by
    cases os with
    | nil => rfl
    | cons x xs => simp [List.dropWhile_cons]
  rw [h]
  apply List.map_congr_left
  intro o _
  simp [SyncWinItem.ofOffset]

theorem ackedPrefixOf_nil (os : List BinlogOffset) : ackedPrefixOf os [] = [] := by
  unfold ackedPrefixOf
  cases os with
  | nil => rfl
  | cons x xs => simp [List.takeWhile_cons]

theorem getLast?_or_getD {α : Type} (x y : Option α) (a : α) :
    (x.or y).getD a = x.getD (y.getD a) := by
  cases x <;> cases y <;> rfl

/-- One `Update(o, o)` for a pushed offset not acked before: the window and the
acked offset move from those of `done` to those of `done ++ [o]`. -/
theorem Update_single_ack (os done : List BinlogOffset) (a0 o : BinlogOffset)
    (hnd : os.Nodup) (ho : o ∈ os) (hoD : o ∉ done) :
    (SyncWindow.mk (windowAfter os done)).Update (SyncWinItem.ofOffset o)
        (SyncWinItem.ofOffset o) ((ackedPrefixOf os done).getLast?.getD a0) =
      (true, ⟨windowAfter os (done ++ [o])⟩,
        (ackedPrefixOf os (done ++ [o])).getLast?.getD a0) := by
  have hsplit : os.takeWhile (fun x => decide (x ∈ done)) ++
      os.dropWhile (fun x => decide (x ∈ done)) = os := List.takeWhile_append_dropWhile _ _
  have hoL : o ∈ os.dropWhile (fun x => decide (x ∈ done)) := by
    rw [← hsplit] at ho
    rcases List.mem_append.1 ho with h | h
    · have := List.mem_takeWhile_imp h
      simp at this
      exact absurd this hoD
    · exact h
  have hLnd : (os.dropWhile (fun x => decide (x ∈ done))).Nodup :=
    hnd.sublist (List.dropWhile_sublist _)
  obtain ⟨i, hi⟩ := List.mem_iff_getElem?.1 hoL
  have hoff : (windowAfter os done).map (fun z => z.offset_) =
      os.dropWhile (fun x => decide (x ∈ done)) := by
    simp [windowAfter, List.map_map, Function.comp_def]
  have hW : (windowAfter os done)[i]? = some ⟨o, decide (o ∈ done)⟩ := by
    simp [windowAfter, hi]
  have heq : (SyncWinItem.mk o (decide (o ∈ done))).opEq (SyncWinItem.ofOffset o) = true := by
    rw [opEq_iff]; rfl
  rw [Update_of_distinct ⟨windowAfter os done⟩ _ _ _ i i _ _ (by rw [hoff]; exact hLnd)
    (Nat.le_refl i) hW heq hW heq]
  have hmark : markedRange (windowAfter os done) i i =
      (os.dropWhile (fun x => decide (x ∈ done))).map
        (fun x => ⟨x, decide (x ∈ done ++ [o])⟩) := by
    apply List.ext_getElem?
    intro k
    rw [markedRange_getElem?]
    simp only [windowAfter, List.getElem?_map]
    cases hk : (os.dropWhile (fun x => decide (x ∈ done)))[k]? with
    | none => rfl
    | some x =>
      simp only [Option.map_some', Option.some.injEq]
      by_cases hki : k = i
      · subst hki
        rw [hi] at hk
        simp only [Option.some.injEq] at hk
        subst hk
        simp [setAcked]
      · have hxo : x ≠ o := by
          intro hxo
          subst hxo
          rcases List.getElem?_eq_some.1 hk with ⟨hkl, hkx⟩
          rcases List.getElem?_eq_some.1 hi with ⟨hil, hix⟩
          exact hki ((List.Nodup.getElem_inj_iff hLnd).1 (hkx.trans hix.symm))
        have hcond : ¬ (i ≤ k ∧ k ≤ i) := by omega
        rw [if_neg hcond]
        simp [hxo]
  have himp : ∀ x : BinlogOffset, decide (x ∈ done) = true → decide (x ∈ done ++ [o]) = true := by
    intro x hx
    simp only [decide_eq_true_eq] at hx ⊢
    exact List.mem_append_left _ hx
  have hcomp : ((fun z : SyncWinItem => z.acked_) ∘
      (fun x : BinlogOffset => SyncWinItem.mk x (decide (x ∈ done ++ [o])))) =
      (fun x => decide (x ∈ done ++ [o])) := rfl
  rw [hmark]
  refine Prod.ext rfl (Prod.ext ?_ ?_)
  · simp only [List.dropWhile_map, hcomp, windowAfter]
    rw [dropWhile_dropWhile_of_imp _ _ himp]
  · simp only [ackedAfter, ackedPrefix, List.takeWhile_map, hcomp, List.getLast?_map,
      Option.map_map, ackedPrefixOf]
    rw [takeWhile_split_of_imp _ _ himp os, List.getLast?_append, getLast?_or_getD]
    cases (List.takeWhile (fun x => decide (x ∈ done ++ [o]))
      (List.dropWhile (fun x => decide (x ∈ done)) os)).getLast? <;> rfl

/-- The results of acking the offsets of `q` one by one, starting from the window
and acked offset that correspond to `done`. -/
theorem ackEach_trace (os : List BinlogOffset) (a0 : BinlogOffset) (hnd : os.Nodup) :
    ∀ (q done : List BinlogOffset), (∀ o ∈ q, o ∈ os) → (done ++ q).Nodup →
      ackEach ⟨windowAfter os done⟩ ((ackedPrefixOf os done).getLast?.getD a0) q =
        (List.range q.length).map (fun k =>
          (true, SyncWindow.mk (windowAfter os (done ++ q.take (k + 1))),
            (ackedPrefixOf os (done ++ q.take (k + 1))).getLast?.getD a0)) := by
  intro q
  induction q with
  | nil => intro done _ _; rfl
  | cons o rest ih =>
    intro done hmem hnodup
    have ho : o ∈ os := hmem o (List.mem_cons_self _ _)
    have hoD : o ∉ done := by
      intro h
      have hd := (List.nodup_append.1 hnodup).2.2
      exact List.disjoint_left.1 hd h (List.mem_cons_self _ _)
    have hstep := Update_single_ack os done a0 o hnd ho hoD
    have hnodup2 : ((done ++ [o]) ++ rest).Nodup := by
      simpa [List.append_assoc] using hnodup
    have hrec := ih (done ++ [o]) (fun x hx => hmem x (List.mem_cons_of_mem _ hx)) hnodup2
    unfold ackEach
    rw [hstep]
    simp only
    rw [hrec, List.length_cons, List.range_succ_eq_map, List.map_cons, List.map_map]
    congr 1
    apply List.map_congr_left
    intro k _
    simp [Function.comp_def, List.append_assoc]

theorem pairwise_lt_nodup (os : List BinlogOffset) (h : os.Pairwise BinlogOffset.lt) :
    os.Nodup := by
  unfold List.Nodup
  apply List.Pairwise.imp _ h
  intro a b hab heq
  subst heq
  unfold BinlogOffset.lt at hab
  omega

theorem ackedPrefixOf_mono (os d1 d2 : List BinlogOffset) (hsub : ∀ o ∈ d1, o ∈ d2) :
    ackedPrefixOf os d2 = ackedPrefixOf os d1 ++
      (os.dropWhile (fun o => decide (o ∈ d1))).takeWhile (fun o => decide (o ∈ d2)) := by
  unfold ackedPrefixOf
  apply takeWhile_split_of_imp
  intro x hx
  simp only [decide_eq_true_eq] at hx ⊢
  exact hsub x hx

/-- The ends of two nested acked prefixes are in binlog order. -/
theorem ackedPrefixOf_last_le (os d1 d2 : List BinlogOffset) (a0 : BinlogOffset)
    (hsorted : os.Pairwise BinlogOffset.lt) (hsub : ∀ o ∈ d1, o ∈ d2)
    (hne : ackedPrefixOf os d1 ≠ []) :
    BinlogOffset.le ((ackedPrefixOf os d1).getLast?.getD a0)
      ((ackedPrefixOf os d2).getLast?.getD a0) := by
  have hsplit := ackedPrefixOf_mono os d1 d2 hsub
  have hpw : (ackedPrefixOf os d2).Pairwise BinlogOffset.lt :=
    hsorted.sublist (List.takeWhile_sublist _)
  rw [hsplit] at hpw ⊢
  rw [List.getLast?_append, getLast?_or_getD, List.getLast?_eq_getLast _ hne]
  simp only [Option.getD_some]
  cases ht : (os.dropWhile (fun o => decide (o ∈ d1))).takeWhile (fun o => decide (o ∈ d2)) with
  | nil => simp [BinlogOffset.le]
  | cons y ys =>
    rw [ht] at hpw
    rw [List.getLast?_eq_getLast _ (List.cons_ne_nil y ys)]
    simp only [Option.getD_some]
    right
    exact (List.pairwise_append.1 hpw).2.2 _ (List.getLast_mem hne) _
      (List.getLast_mem (List.cons_ne_nil y ys))

/-- C2: push `n >= 1` strictly increasing offsets `os` into an empty window and
ack each exactly once with `Update(o, o)`, in any order `p`. Every `Update`
returns true; the last one leaves the window empty and the acked offset at the
last pushed offset; after `k + 1` acks the acked offset is the end of the
longest prefix of `os` acked so far (the initial value while that prefix is
empty) and the window is what lies behind that prefix; those prefixes grow with
`k`, and their ends are non-decreasing in binlog order. -/
theorem acks_in_any_order (os p : List BinlogOffset) (a0 : BinlogOffset)
    (hne : os ≠ []) (hsorted : os.Pairwise BinlogOffset.lt) (hperm : p.Perm os) :
    (ackEach (pushAll ⟨[]⟩ os) a0 p).length = p.length ∧
      (∀ r ∈ ackEach (pushAll ⟨[]⟩ os) a0 p, r.1 = true) ∧
      (ackEach (pushAll ⟨[]⟩ os) a0 p).getLast? = some (true, ⟨[]⟩, os.getLast hne) ∧
      (∀ (k : Nat) (r : Bool × SyncWindow × BinlogOffset),
        (ackEach (pushAll ⟨[]⟩ os) a0 p)[k]? = some r →
        r.2.1.win_ = windowAfter os (p.take (k + 1)) ∧
        r.2.2 = (ackedPrefixOf os (p.take (k + 1))).getLast?.getD a0) ∧
      (∀ k : Nat, List.IsPrefix (ackedPrefixOf os (p.take k)) os ∧
        (∀ o ∈ ackedPrefixOf os (p.take k), o ∈ p.take k)) ∧
      (∀ k1 k2 : Nat, k1 ≤ k2 →
        List.IsPrefix (ackedPrefixOf os (p.take k1)) (ackedPrefixOf os (p.take k2))) ∧
      (∀ (k1 k2 : Nat) (r1 r2 : Bool × SyncWindow × BinlogOffset), k1 ≤ k2 →
        (ackEach (pushAll ⟨[]⟩ os) a0 p)[k1]? = some r1 →
        (ackEach (pushAll ⟨[]⟩ os) a0 p)[k2]? = some r2 →
        ackedPrefixOf os (p.take (k1 + 1)) ≠ [] →
        BinlogOffset.le r1.2.2 r2.2.2) := by
  have hnd : os.Nodup := pairwise_lt_nodup os hsorted
  have hpnd : p.Nodup := (List.Perm.nodup_iff hperm).2 hnd
  have hstart : pushAll ⟨[]⟩ os = ⟨windowAfter os []⟩ := by
    rw [pushAll_eq, windowAfter_nil]; simp
  have ha0 : a0 = (ackedPrefixOf os []).getLast?.getD a0 := by
    rw [ackedPrefixOf_nil]; rfl
  have htrace : ackEach (pushAll ⟨[]⟩ os) a0 p =
      (List.range p.length).map (fun k =>
        (true, SyncWindow.mk (windowAfter os (p.take (k + 1))),
          (ackedPrefixOf os (p.take (k + 1))).getLast?.getD a0)) := by
    have h := ackEach_trace os a0 hnd p [] (fun o ho => hperm.subset ho) (by simpa using hpnd)
    rw [← ha0, ← hstart] at h
    simpa using h
  have hget : ∀ (k : Nat) (r : Bool × SyncWindow × BinlogOffset),
      (ackEach (pushAll ⟨[]⟩ os) a0 p)[k]? = some r →
      r = (true, SyncWindow.mk (windowAfter os (p.take (k + 1))),
          (ackedPrefixOf os (p.take (k + 1))).getLast?.getD a0) := by
    intro k r hk
    rw [htrace, List.getElem?_map] at hk
    cases hr : (List.range p.length)[k]? with
    | none => rw [hr] at hk; simp at hk
    | some k0 =>
      rw [hr] at hk
      rcases List.getElem?_eq_some.1 hr with ⟨hlt, hval⟩
      simp only [List.getElem_range] at hval
      subst hval
      simp only [Option.map_some', Option.some.injEq] at hk
      exact hk.symm
  have hsubset : ∀ k1 k2 : Nat, k1 ≤ k2 → ∀ o ∈ p.take k1, o ∈ p.take k2 := by
    intro k1 k2 hk o ho
    exact (List.take_prefix_take_left p hk).subset ho
  have hplen : 0 < p.length := by
    rw [hperm.length_eq]
    exact List.length_pos.2 hne
  refine ⟨?_, ?_, ?_, ?_, ?_, ?_, ?_⟩
  · rw [htrace]; simp
  · intro r hr
    rcases List.mem_iff_getElem?.1 hr with ⟨k, hk⟩
    rw [hget k r hk]
  · rw [htrace, List.getLast?_eq_getElem?, List.getElem?_map]
    simp only [List.length_map, List.length_range]
    have hr : (List.range p.length)[p.length - 1]? = some (p.length - 1) := by
      rw [List.getElem?_range]; omega
    rw [hr]
    simp only [Option.map_some', Option.some.injEq, Prod.mk.injEq, true_and]
    have htake : p.take (p.length - 1 + 1) = p := by
      have : p.length - 1 + 1 = p.length := by omega
      rw [this, List.take_length]
    rw [htake]
    have hall : ∀ x ∈ os, (fun o => decide (o ∈ p)) x = true := by
      intro x hx
      simp only [decide_eq_true_eq]
      exact hperm.symm.subset hx
    constructor
    · simp only [windowAfter, SyncWindow.mk.injEq, List.map_eq_nil_iff]
      exact List.dropWhile_eq_nil_iff.2 hall
    · have hT : ackedPrefixOf os p = os := List.takeWhile_eq_self_iff.2 hall
      rw [hT, List.getLast?_eq_getLast _ hne]
      rfl
  · intro k r hk
    rw [hget k r hk]
    exact ⟨rfl, rfl⟩
  · intro k
    exact ⟨List.takeWhile_prefix _, fun o ho => by
      simpa using List.mem_takeWhile_imp ho⟩
  · intro k1 k2 hk
    rw [ackedPrefixOf_mono os (p.take k1) (p.take k2) (hsubset k1 k2 hk)]
    exact List.prefix_append _ _
  · intro k1 k2 r1 r2 hk h1 h2 hne1
    rw [hget k1 r1 h1, hget k2 r2 h2]
    exact ackedPrefixOf_last_le os _ _ a0 hsorted (hsubset (k1 + 1) (k2 + 1) (by omega)) hne1

/-- Witness for C2: offsets `(1,10) < (1,20) < (2,5)` acked in the order
`(1,20), (2,5), (1,10)`: the acked offset stays at its initial value until the
head is acked and ends at `(2,5)` with an empty window. -/
theorem acks_in_any_order_witness :
    ackEach (pushAll ⟨[]⟩ [⟨1, 10⟩, ⟨1, 20⟩, ⟨2, 5⟩]) ⟨0, 0⟩ [⟨1, 20⟩, ⟨2, 5⟩, ⟨1, 10⟩] =
        [(true, ⟨[⟨⟨1, 10⟩, false⟩, ⟨⟨1, 20⟩, true⟩, ⟨⟨2, 5⟩, false⟩]⟩, ⟨0, 0⟩),
         (true, ⟨[⟨⟨1, 10⟩, false⟩, ⟨⟨1, 20⟩, true⟩, ⟨⟨2, 5⟩, true⟩]⟩, ⟨0, 0⟩),
         (true, ⟨[]⟩, ⟨2, 5⟩)] ∧
      (ackEach (pushAll ⟨[]⟩ [⟨1, 10⟩, ⟨1, 20⟩, ⟨2, 5⟩]) ⟨0, 0⟩
        [⟨1, 20⟩, ⟨2, 5⟩, ⟨1, 10⟩]).getLast? = some (true, ⟨[]⟩, ⟨2, 5⟩) :=
  ⟨by decide,
    (acks_in_any_order [⟨1, 10⟩, ⟨1, 20⟩, ⟨2, 5⟩] [⟨1, 20⟩, ⟨2, 5⟩, ⟨1, 10⟩] ⟨0, 0⟩
      (by decide) (by decide) (by decide)).2.2.1⟩

/-! ## Slave partition: action failure, timeout, activation and reset -/

theorem Status_ok_iff (st : Status) : st.ok = true ↔ st = Status.OK := by
  unfold Status.ok
  simp

/-- `CASReplState` once both checks pass. -/
theorem CASReplState_pass (p : SyncSlavePartition) (env : Env) (now : Nat)
    (allowed_states : List ReplState) (exp_master_term : Nat)
    (action : SyncSlavePartition → Env → Status × SyncSlavePartition × Env)
    (new_state : ReplState)
    (hm : p.repl_state_ ∈ allowed_states) (ht : p.m_term_ = exp_master_term) :
    p.CASReplState env now allowed_states exp_master_term action new_state =
      if (action p env).1 = Status.OK then
        if NeedsCheckSyncTimeout
            ((action p env).2.1.SetReplStateUnsafe (action p env).2.2 now new_state).1.repl_state_
        then
          (Status.OK,
            { ((action p env).2.1.SetReplStateUnsafe (action p env).2.2 now new_state).1 with
              m_info_ :=
                { ((action p env).2.1.SetReplStateUnsafe (action p env).2.2 now
                    new_state).1.m_info_ with last_recv_time_ := now } },
            ((action p env).2.1.SetReplStateUnsafe (action p env).2.2 now new_state).2)
        else
          (Status.OK,
            ((action p env).2.1.SetReplStateUnsafe (action p env).2.2 now new_state).1,
            ((action p env).2.1.SetReplStateUnsafe (action p env).2.2 now new_state).2)
      else action p env := by
  unfold SyncSlavePartition.CASReplState
  have hm2 : ¬ ¬ p.matchStates allowed_states = true :=
    fun h => h ((matchStates_iff p allowed_states).2 hm)
  have ht2 : ¬ exp_master_term ≠ p.m_term_ := fun h => h ht.symm
  rw [if_neg hm2, if_neg ht2]
  by_cases hok : (action p env).1 = Status.OK
  · have hok2 : (action p env).1.ok = true := (Status_ok_iff _).2 hok
    simp only []
    rw [if_pos hok2, if_pos hok, hok]
  · have hok2 : ¬ (action p env).1.ok = true := fun h => hok ((Status_ok_iff _).1 h)
    simp only []
    rw [if_neg hok2, if_neg hok]

/-- `CASReplState` when a check fails. -/
theorem CASReplState_reject (p : SyncSlavePartition) (env : Env) (now : Nat)
    (allowed_states : List ReplState) (exp_master_term : Nat)
    (action : SyncSlavePartition → Env → Status × SyncSlavePartition × Env)
    (new_state : ReplState)
    (h : ¬ (p.repl_state_ ∈ allowed_states ∧ p.m_term_ = exp_master_term)) :
    p.CASReplState env now allowed_states exp_master_term action new_state =
      (Status.Incomplete, p, env) := by
  unfold SyncSlavePartition.CASReplState
  by_cases hm : p.matchStates allowed_states = true
  · have hmem := (matchStates_iff p allowed_states).1 hm
    have ht : exp_master_term ≠ p.m_term_ := fun ht => h ⟨hmem, ht.symm⟩
    have hm2 : ¬ ¬ p.matchStates allowed_states = true := fun h => h hm
    rw [if_neg hm2, if_pos ht]
  · rw [if_pos hm]

theorem SetReplStateUnsafe_noConnect (p : SyncSlavePartition) (env : Env) (now : Nat) :
    p.SetReplStateUnsafe env now ReplState.kNoConnect =
      ({ p with m_info_ := {}, repl_state_ := ReplState.kNoConnect }, env) := by
  unfold SyncSlavePartition.SetReplStateUnsafe
  rw [if_pos rfl, SetMasterUnsafe_empty p env now {} "" rfl]

theorem SetReplStateUnsafe_other (p : SyncSlavePartition) (env : Env) (now : Nat)
    (repl_state : ReplState) (h : repl_state ≠ ReplState.kNoConnect) :
    p.SetReplStateUnsafe env now repl_state = ({ p with repl_state_ := repl_state }, env) := by
  unfold SyncSlavePartition.SetReplStateUnsafe
  rw [if_neg h]

/-- A writable term file makes `SetMasterUnsafe` with a non-empty ip succeed. -/
theorem SetMasterUnsafe_writable (p : SyncSlavePartition) (env : Env) (now : Nat)
    (newMaster : RmNode) (info_file_path : String) (hip : newMaster.ip_ ≠ "")
    (hw : env.writable info_file_path = true) :
    (p.SetMasterUnsafe env now newMaster info_file_path).1 = Status.OK ∧
      (p.SetMasterUnsafe env now newMaster info_file_path).2.1 =
        { p with m_info_ := { newMaster with last_recv_time_ := now },
                 m_term_ := (p.m_term_ + 1) % 2 ^ 32 } ∧
      (p.SetMasterUnsafe env now newMaster info_file_path).2.2.read info_file_path =
        some (toString ((p.m_term_ + 1) % 2 ^ 32)) := by
  have hwr : info_file_path ∉ env.unwritable := by
    unfold Env.writable at hw
    cases hr : rfind info_file_path '/' with
    | none => rw [hr] at hw; exact absurd hw (by simp)
    | some i =>
      rw [hr] at hw
      simp only [decide_eq_true_eq] at hw
      exact hw.2.2
  rcases SetMasterUnsafe_cases p env now newMaster info_file_path hip with
    ⟨_, _, _, hbad⟩ | ⟨h1, h2, h3, _⟩
  · exfalso
    unfold Env.writable at hw
    rcases hbad with h | ⟨i, hi, hd1, hd2⟩ | h
    · rw [h] at hw
      exact absurd hw (by simp)
    · rw [hi] at hw
      simp only [decide_eq_true_eq] at hw
      rcases hw.1 with hx | hx
      · exact hd1 hx
      · exact hx hd2
    · cases hr : rfind info_file_path '/' with
      | none => rw [hr] at hw; exact absurd hw (by simp)
      | some i =>
        rw [hr] at hw
        simp only [decide_eq_true_eq] at hw
        exact hw.2.1 h
  · rw [if_neg hwr] at h3
    exact ⟨h1, h2, h3⟩

/-- `SetMasterUnsafe` never writes the replication state, and leaves the stored
master either as it was or equal to the new master (up to LastRecv). -/
theorem SetMasterUnsafe_frame (p : SyncSlavePartition) (env : Env) (now : Nat)
    (newMaster : RmNode) (info_file_path : String) :
    (p.SetMasterUnsafe env now newMaster info_file_path).2.1.repl_state_ = p.repl_state_ ∧
      ((p.SetMasterUnsafe env now newMaster info_file_path).2.1.m_info_.ip_ = p.m_info_.ip_ ∨
        (p.SetMasterUnsafe env now newMaster info_file_path).2.1.m_info_.ip_ =
          newMaster.ip_) := by
  by_cases hip : newMaster.ip_ = ""
  · rw [SetMasterUnsafe_empty p env now newMaster info_file_path hip]
    exact ⟨rfl, Or.inr rfl⟩
  · rcases SetMasterUnsafe_cases p env now newMaster info_file_path hip with
      ⟨_, h2, _, _⟩ | ⟨_, h2, _, _⟩
    · rw [h2]; exact ⟨rfl, Or.inl rfl⟩
    · rw [h2]; exact ⟨rfl, Or.inr rfl⟩

theorem ResetMasterUnsafe_frame (p : SyncSlavePartition) (env : Env) (now : Nat)
    (info_file_path : String) :
    (p.ResetMasterUnsafe env now info_file_path).2.1.repl_state_ = p.repl_state_ ∧
      (p.ResetMasterUnsafe env now info_file_path).2.1.m_info_.ip_ = p.m_info_.ip_ := by
  unfold SyncSlavePartition.ResetMasterUnsafe
  have h := SetMasterUnsafe_frame p env now { p.m_info_ with session_id_ := 0 } info_file_path
  refine ⟨h.1, ?_⟩
  rcases h.2 with h2 | h2
  · exact h2
  · exact h2

/-- C12 as stated fails: a partition connected to `10.0.0.1` that last heard
from its master at time 1000 is checked at time 21001000 with a writable term
file; the timeout fires, yet the stored master ip is still `10.0.0.1`, not
empty. -/
theorem CheckSyncTimeout_keeps_ip_counterexample :
    sampleConnected.m_info_.last_recv_time_ + kRecvKeepAliveTimeout < 21001000 ∧
      sampleEnv.writable "/db/term" = true ∧
      (sampleConnected.CheckSyncTimeout sampleEnv 21001500 (some "/db/term")
        21001000).2.1.repl_state_ = ReplState.kTryConnect ∧
      (sampleConnected.CheckSyncTimeout sampleEnv 21001500 (some "/db/term")
        21001000).2.1.m_info_.ip_ = "10.0.0.1" ∧
      (sampleConnected.CheckSyncTimeout sampleEnv 21001500 (some "/db/term")
        21001000).2.1.m_info_.ip_ ≠ "" := by
  refine ⟨?_, ?_, ?_, ?_, ?_⟩ <;> decide

/-- C12 (amended): for a partition in `kConnected` with a non-empty master,
LastRecv `t0` and a writable term file, `CheckSyncTimeout(now)` with
`t0 + kRecvKeepAliveTimeout < now` returns OK, moves the state to `kTryConnect`,
increments the 32-bit master term by one (modulo `2^32`), rewrites the term file
with the new term, and keeps the master as it was except that its session id
becomes 0 and its LastRecv the time of the reset; in particular ip and port are
kept. -/
theorem CheckSyncTimeout_recv_timeout (p : SyncSlavePartition) (env : Env)
    (micros now : Nat) (path : String)
    (hst : p.repl_state_ = ReplState.kConnected) (hip : p.m_info_.ip_ ≠ "")
    (hw : env.writable path = true)
    (hto : p.m_info_.last_recv_time_ + kRecvKeepAliveTimeout < now) (hnow : now < 2 ^ 64) :
    (p.CheckSyncTimeout env micros (some path) now).1 = Status.OK ∧
      (p.CheckSyncTimeout env micros (some path) now).2.1.repl_state_ =
        ReplState.kTryConnect ∧
      (p.CheckSyncTimeout env micros (some path) now).2.1.m_term_ =
        (p.m_term_ + 1) % 2 ^ 32 ∧
      (p.m_term_ + 1 < 2 ^ 32 →
        (p.CheckSyncTimeout env micros (some path) now).2.1.m_term_ = p.m_term_ + 1) ∧
      (p.CheckSyncTimeout env micros (some path) now).2.2.read path =
        some (toString (p.CheckSyncTimeout env micros (some path) now).2.1.m_term_) ∧
      (p.CheckSyncTimeout env micros (some path) now).2.1.m_info_ =
        { p.m_info_ with session_id_ := 0, last_recv_time_ := micros } ∧
      (p.CheckSyncTimeout env micros (some path) now).2.1.m_info_.ip_ = p.m_info_.ip_ ∧
      (p.CheckSyncTimeout env micros (some path) now).2.1.m_info_.port_ = p.m_info_.port_ := by
  have hmod : (p.m_info_.last_recv_time_ + kRecvKeepAliveTimeout) % 2 ^ 64 =
      p.m_info_.last_recv_time_ + kRecvKeepAliveTimeout := Nat.mod_eq_of_lt (by omega)
  have hneed : NeedsCheckSyncTimeout p.repl_state_ = true := by rw [hst]; decide
  have hset := SetMasterUnsafe_writable p env micros { p.m_info_ with session_id_ := 0 }
    path hip hw
  have hact : checkSyncTimeoutAction micros now path p env =
      (Status.OK,
        { p with m_info_ := { p.m_info_ with session_id_ := 0, last_recv_time_ := micros },
                 m_term_ := (p.m_term_ + 1) % 2 ^ 32 },
        { (p.ResetMasterUnsafe env micros path).2.2 with
          loop_partition_state_machine := true }) := by
    unfold checkSyncTimeoutAction
    have hto2 : recvTimedOut p.m_info_.last_recv_time_ now = true := by
      unfold recvTimedOut
      rw [hmod]
      simpa using hto
    rw [if_pos hto2]
    simp only []
    have hok : (p.ResetMasterUnsafe env micros path).1 = Status.OK := hset.1
    have hok2 : (p.ResetMasterUnsafe env micros path).1.ok = true := (Status_ok_iff _).2 hok
    rw [if_pos hok2, hok]
    have hp : (p.ResetMasterUnsafe env micros path).2.1 =
        { p with m_info_ := { p.m_info_ with session_id_ := 0, last_recv_time_ := micros },
                 m_term_ := (p.m_term_ + 1) % 2 ^ 32 } := hset.2.1
    rw [hp]
  have hcas := CASReplState_pass p env micros NEEDS_CHECK_SYNC_TIMEOUT_STATES p.m_term_
    (checkSyncTimeoutAction micros now path) ReplState.kTryConnect
    (by rw [hst]; decide) rfl
  rw [hact] at hcas
  simp only [if_true] at hcas
  rw [SetReplStateUnsafe_other _ _ _ _ (by decide)] at hcas
  have hnn : ¬ NeedsCheckSyncTimeout ReplState.kTryConnect = true := by decide
  simp only [hnn, Bool.false_eq_true, if_false] at hcas
  have hres : p.CheckSyncTimeout env micros (some path) now =
      (Status.OK,
        { p with m_info_ := { p.m_info_ with session_id_ := 0, last_recv_time_ := micros },
                 m_term_ := (p.m_term_ + 1) % 2 ^ 32,
                 repl_state_ := ReplState.kTryConnect },
        { (p.ResetMasterUnsafe env micros path).2.2 with
          loop_partition_state_machine := true }) := by
    unfold SyncSlavePartition.CheckSyncTimeout
    have h1 : ¬ ¬ NeedsCheckSyncTimeout p.repl_state_ = true := fun h => h hneed
    have h2 : ¬ (p.m_info_.last_recv_time_ + kRecvKeepAliveTimeout) % 2 ^ 64 ≥ now := by
      rw [hmod]; omega
    rw [if_neg h1, if_neg h2]
    simp only []
    rw [hcas]
  rw [hres]
  refine ⟨rfl, rfl, rfl, ?_, ?_, rfl, rfl, rfl⟩
  · intro hb
    exact Nat.mod_eq_of_lt hb
  · have hr := hset.2.2
    unfold SyncSlavePartition.ResetMasterUnsafe
    unfold Env.read at hr ⊢
    exact hr

/-- Witness for C12 (amended): the partition of the counterexample ends in
`kTryConnect` with term 8 written to `/db/term`. -/
theorem CheckSyncTimeout_recv_timeout_witness :
    (sampleConnected.CheckSyncTimeout sampleEnv 21001500 (some "/db/term")
        21001000).2.1.repl_state_ = ReplState.kTryConnect ∧
      (sampleConnected.CheckSyncTimeout sampleEnv 21001500 (some "/db/term")
        21001000).2.1.m_term_ = 8 ∧
      (sampleConnected.CheckSyncTimeout sampleEnv 21001500 (some "/db/term")
        21001000).2.2.read "/db/term" = some "8" :=
  have h := CheckSyncTimeout_recv_timeout sampleConnected sampleEnv 21001500 21001000
    "/db/term" (by decide) (by decide) (by decide) (by decide) (by decide)
  ⟨h.2.1, h.2.2.2.1 (by decide), by decide⟩

theorem Deactivate_eq (p : SyncSlavePartition) (env : Env) (micros : Nat) :
    p.Deactivate env micros =
      ({ p with m_info_ := {}, repl_state_ := ReplState.kNoConnect }, env) := by
  unfold SyncSlavePartition.Deactivate
  exact SetReplStateUnsafe_noConnect p env micros

/-- `Activate` with a valid master other than the stored one and a writable term
file. -/
theorem Activate_ok (p : SyncSlavePartition) (env : Env) (micros : Nat) (master : RmNode)
    (repl_state : ReplState) (path : String)
    (hip : master.ip_ ≠ "") (hlo : 0 < master.port_) (hhi : master.port_ < 65536)
    (hother : ¬ (master.ip_ = p.m_info_.ip_ ∧ master.port_ = p.m_info_.port_))
    (hw : env.writable path = true) :
    (p.Activate env micros master repl_state path).1 = Status.OK ∧
      (p.Activate env micros master repl_state path).2.1.m_term_ =
        (p.m_term_ + 1) % 2 ^ 32 := by
  have hset := SetMasterUnsafe_writable p env micros master path hip hw
  unfold SyncSlavePartition.Activate
  have h1 : ¬ (master.ip_ = "" ∨ master.port_ ≤ 0 ∨ master.port_ ≥ 65536) := by
    rintro (h | h | h)
    · exact hip h
    · omega
    · omega
  rw [if_neg h1, if_neg hother]
  simp only []
  have hok2 : ¬ ¬ (p.SetMasterUnsafe env micros master path).1.ok = true :=
    fun h => h ((Status_ok_iff _).2 hset.1)
  rw [if_neg hok2]
  refine ⟨rfl, ?_⟩
  simp only []
  rw [hset.2.1]
  by_cases hs : repl_state = ReplState.kNoConnect
  · rw [hs, SetReplStateUnsafe_noConnect]
  · rw [SetReplStateUnsafe_other _ _ _ _ hs]

/-- C13 as stated fails: from a partition with term 7, the sequence
`Deactivate(); Activate(m, kTryConnect, path); Deactivate()` with a valid master
and a writable term file ends with term 8, not 7. -/
theorem deactivate_activate_term_counterexample :
    sampleEnv.writable "/db/term" = true ∧
      sampleConnected.m_term_ = 7 ∧
      (deactivateActivateDeactivate sampleConnected sampleEnv 10 20 30
        { ip_ := "10.0.0.2", port_ := 9221 } ReplState.kTryConnect "/db/term").1 = Status.OK ∧
      (deactivateActivateDeactivate sampleConnected sampleEnv 10 20 30
        { ip_ := "10.0.0.2", port_ := 9221 } ReplState.kTryConnect "/db/term").2.1.m_term_ = 8 ∧
      (deactivateActivateDeactivate sampleConnected sampleEnv 10 20 30
        { ip_ := "10.0.0.2", port_ := 9221 } ReplState.kTryConnect "/db/term").2.1.m_term_ ≠
        sampleConnected.m_term_ := by
  refine ⟨?_, ?_, ?_, ?_, ?_⟩ <;> decide

/-- C13 (amended): for every slave partition and every valid master (non-empty
ip, port in 1..65535, term file writable), in the sequence `Deactivate();
Activate(m, state, path); Deactivate()` the activation succeeds and the sequence
ends in `kNoConnect` with an empty master and with the 32-bit master term one
above its value before the sequence (modulo `2^32`): `Activate` increments it
and `Deactivate` leaves it alone. -/
theorem deactivate_activate_deactivate (p : SyncSlavePartition) (env : Env) (t0 t1 t2 : Nat)
    (master : RmNode) (repl_state : ReplState) (path : String)
    (hip : master.ip_ ≠ "") (hlo : 0 < master.port_) (hhi : master.port_ < 65536)
    (hw : env.writable path = true) :
    (deactivateActivateDeactivate p env t0 t1 t2 master repl_state path).1 = Status.OK ∧
      (deactivateActivateDeactivate p env t0 t1 t2 master repl_state path).2.1.repl_state_ =
        ReplState.kNoConnect ∧
      (deactivateActivateDeactivate p env t0 t1 t2 master repl_state path).2.1.m_info_ = {} ∧
      (deactivateActivateDeactivate p env t0 t1 t2 master repl_state path).2.1.m_term_ =
        (p.m_term_ + 1) % 2 ^ 32 ∧
      (p.m_term_ + 1 < 2 ^ 32 →
        (deactivateActivateDeactivate p env t0 t1 t2 master repl_state path).2.1.m_term_ =
          p.m_term_ + 1) ∧
      (p.Deactivate env t0).1.m_term_ = p.m_term_ := by
  unfold deactivateActivateDeactivate
  rw [Deactivate_eq p env t0]
  have hother : ¬ (master.ip_ =
      ({ p with m_info_ := {}, repl_state_ := ReplState.kNoConnect } :
        SyncSlavePartition).m_info_.ip_ ∧
      master.port_ = ({ p with m_info_ := {}, repl_state_ := ReplState.kNoConnect } :
        SyncSlavePartition).m_info_.port_) := fun h => hip h.1
  have ha := Activate_ok { p with m_info_ := {}, repl_state_ := ReplState.kNoConnect } env t1
    master repl_state path hip hlo hhi hother hw
  simp only [Deactivate_eq]
  refine ⟨ha.1, trivial, trivial, ha.2, ?_, trivial⟩
  intro hb
  rw [ha.2]
  exact Nat.mod_eq_of_lt hb

/-- Witness for C13 (amended): the sequence on the sample partition ends in
`kNoConnect` with term 8. -/
theorem deactivate_activate_deactivate_witness :
    (deactivateActivateDeactivate sampleConnected sampleEnv 10 20 30
        { ip_ := "10.0.0.2", port_ := 9221 } ReplState.kTryConnect "/db/term").2.1.repl_state_ =
        ReplState.kNoConnect ∧
      (deactivateActivateDeactivate sampleConnected sampleEnv 10 20 30
        { ip_ := "10.0.0.2", port_ := 9221 } ReplState.kTryConnect "/db/term").2.1.m_term_ =
        sampleConnected.m_term_ + 1 :=
  have h := deactivate_activate_deactivate sampleConnected sampleEnv 10 20 30
    { ip_ := "10.0.0.2", port_ := 9221 } ReplState.kTryConnect "/db/term"
    (by decide) (by decide) (by decide) (by decide)
  ⟨h.2.1, h.2.2.2.2.1 (by decide)⟩

/-- The one-state `CASReplState` when state and term match. -/
theorem CASReplStateOne_pass (p : SyncSlavePartition) (env : Env) (micros : Nat)
    (exp_state : ReplState) (exp_master_term : Nat) (new_state : ReplState)
    (hs : p.repl_state_ = exp_state) (ht : p.m_term_ = exp_master_term) :
    (p.CASReplStateOne env micros exp_state exp_master_term new_state).1 = Status.OK ∧
      (p.CASReplStateOne env micros exp_state exp_master_term new_state).2.1.repl_state_ =
        new_state ∧
      (p.CASReplStateOne env micros exp_state exp_master_term new_state).2.1.m_term_ =
        p.m_term_ := by
  unfold SyncSlavePartition.CASReplStateOne
  rw [CASReplState_pass p env micros [exp_state] exp_master_term _ new_state
    (by rw [hs]; exact List.mem_singleton.2 rfl) ht]
  simp only [if_true]
  by_cases hn : new_state = ReplState.kNoConnect
  · rw [hn, SetReplStateUnsafe_noConnect]
    have hnn : ¬ NeedsCheckSyncTimeout ReplState.kNoConnect = true := by decide
    rw [if_neg hnn]
    exact ⟨rfl, rfl, rfl⟩
  · rw [SetReplStateUnsafe_other _ _ _ _ hn]
    by_cases hc : NeedsCheckSyncTimeout new_state = true
    · rw [if_pos hc]
      exact ⟨rfl, rfl, rfl⟩
    · rw [if_neg hc]
      exact ⟨rfl, rfl, rfl⟩

/-- The one-state `CASReplState` when state or term differ. -/
theorem CASReplStateOne_reject (p : SyncSlavePartition) (env : Env) (micros : Nat)
    (exp_state : ReplState) (exp_master_term : Nat) (new_state : ReplState)
    (h : ¬ (p.repl_state_ = exp_state ∧ p.m_term_ = exp_master_term)) :
    p.CASReplStateOne env micros exp_state exp_master_term new_state =
      (Status.Incomplete, p, env) := by
  unfold SyncSlavePartition.CASReplStateOne
  apply CASReplState_reject
  intro hc
  exact h ⟨List.mem_singleton.1 hc.1, hc.2⟩

/-- C14: for a partition in `kWaitReply` with term `T >= 1`, the calls
`CASReplState(kWaitReply, T, kConnected)` and `CASReplState(kWaitReply, T-1,
kConnected)` run one after the other, in either order: the one expecting `T`
returns OK, the stale one returns Incomplete, and the partition ends in
`kConnected` with term `T`. -/
theorem CASReplState_term_guard (p : SyncSlavePartition) (env : Env) (m1 m2 T : Nat)
    (hs : p.repl_state_ = ReplState.kWaitReply) (hT : p.m_term_ = T) (h1 : 1 ≤ T) :
    ((p.CASReplStateOne env m1 ReplState.kWaitReply T ReplState.kConnected).1 = Status.OK ∧
        ((p.CASReplStateOne env m1 ReplState.kWaitReply T
            ReplState.kConnected).2.1.CASReplStateOne
          (p.CASReplStateOne env m1 ReplState.kWaitReply T ReplState.kConnected).2.2 m2
          ReplState.kWaitReply (T - 1) ReplState.kConnected).1 = Status.Incomplete ∧
        ((p.CASReplStateOne env m1 ReplState.kWaitReply T
            ReplState.kConnected).2.1.CASReplStateOne
          (p.CASReplStateOne env m1 ReplState.kWaitReply T ReplState.kConnected).2.2 m2
          ReplState.kWaitReply (T - 1) ReplState.kConnected).2.1.repl_state_ =
          ReplState.kConnected ∧
        ((p.CASReplStateOne env m1 ReplState.kWaitReply T
            ReplState.kConnected).2.1.CASReplStateOne
          (p.CASReplStateOne env m1 ReplState.kWaitReply T ReplState.kConnected).2.2 m2
          ReplState.kWaitReply (T - 1) ReplState.kConnected).2.1.m_term_ = T) ∧
      ((p.CASReplStateOne env m1 ReplState.kWaitReply (T - 1) ReplState.kConnected).1 =
          Status.Incomplete ∧
        ((p.CASReplStateOne env m1 ReplState.kWaitReply (T - 1)
            ReplState.kConnected).2.1.CASReplStateOne
          (p.CASReplStateOne env m1 ReplState.kWaitReply (T - 1) ReplState.kConnected).2.2 m2
          ReplState.kWaitReply T ReplState.kConnected).1 = Status.OK ∧
        ((p.CASReplStateOne env m1 ReplState.kWaitReply (T - 1)
            ReplState.kConnected).2.1.CASReplStateOne
          (p.CASReplStateOne env m1 ReplState.kWaitReply (T - 1) ReplState.kConnected).2.2 m2
          ReplState.kWaitReply T ReplState.kConnected).2.1.repl_state_ =
          ReplState.kConnected ∧
        ((p.CASReplStateOne env m1 ReplState.kWaitReply (T - 1)
            ReplState.kConnected).2.1.CASReplStateOne
          (p.CASReplStateOne env m1 ReplState.kWaitReply (T - 1) ReplState.kConnected).2.2 m2
          ReplState.kWaitReply T ReplState.kConnected).2.1.m_term_ = T) := by
  have hgood := CASReplStateOne_pass p env m1 ReplState.kWaitReply T ReplState.kConnected hs hT
  have hgood2 := CASReplStateOne_pass p env m2 ReplState.kWaitReply T ReplState.kConnected hs hT
  have hstale : p.CASReplStateOne env m1 ReplState.kWaitReply (T - 1) ReplState.kConnected =
      (Status.Incomplete, p, env) :=
    CASReplStateOne_reject p env m1 _ _ _ (fun h => by omega)
  constructor
  · have hrej := CASReplStateOne_reject
      (p.CASReplStateOne env m1 ReplState.kWaitReply T ReplState.kConnected).2.1
      (p.CASReplStateOne env m1 ReplState.kWaitReply T ReplState.kConnected).2.2 m2
      ReplState.kWaitReply (T - 1) ReplState.kConnected
      (fun h => by rw [hgood.2.1] at h; exact absurd h.1 (by decide))
    rw [hrej]
    exact ⟨hgood.1, rfl, hgood.2.1, by rw [hgood.2.2]; exact hT⟩
  · rw [hstale]
    exact ⟨rfl, hgood2.1, hgood2.2.1, by rw [hgood2.2.2]; exact hT⟩

/-- Witness for C14: the sample partition in `kWaitReply` with term 7; the stale
call expecting term 6 comes first and fails, the call expecting 7 succeeds. -/
theorem CASReplState_term_guard_witness :
    (sampleWaitReply.CASReplStateOne sampleEnv 2000 ReplState.kWaitReply (7 - 1)
        ReplState.kConnected).1 = Status.Incomplete ∧
      ((sampleWaitReply.CASReplStateOne sampleEnv 2000 ReplState.kWaitReply (7 - 1)
          ReplState.kConnected).2.1.CASReplStateOne
        (sampleWaitReply.CASReplStateOne sampleEnv 2000 ReplState.kWaitReply (7 - 1)
          ReplState.kConnected).2.2 3000
        ReplState.kWaitReply 7 ReplState.kConnected).1 = Status.OK ∧
      ((sampleWaitReply.CASReplStateOne sampleEnv 2000 ReplState.kWaitReply (7 - 1)
          ReplState.kConnected).2.1.CASReplStateOne
        (sampleWaitReply.CASReplStateOne sampleEnv 2000 ReplState.kWaitReply (7 - 1)
          ReplState.kConnected).2.2 3000
        ReplState.kWaitReply 7 ReplState.kConnected).2.1.repl_state_ = ReplState.kConnected ∧
      ((sampleWaitReply.CASReplStateOne sampleEnv 2000 ReplState.kWaitReply (7 - 1)
          ReplState.kConnected).2.1.CASReplStateOne
        (sampleWaitReply.CASReplStateOne sampleEnv 2000 ReplState.kWaitReply (7 - 1)
          ReplState.kConnected).2.2 3000
        ReplState.kWaitReply 7 ReplState.kConnected).2.1.m_term_ = 7 :=
  (CASReplState_term_guard sampleWaitReply sampleEnv 2000 3000 7
    (by decide) (by decide) (by decide)).2

/-- `ResetMasterUnsafe` succeeds when the term file is writable. -/
theorem ResetMasterUnsafe_writable (p : SyncSlavePartition) (env : Env) (micros : Nat)
    (path : String) (hw : env.writable path = true) :
    (p.ResetMasterUnsafe env micros path).1 = Status.OK := by
  unfold SyncSlavePartition.ResetMasterUnsafe
  by_cases hip : p.m_info_.ip_ = ""
  · rw [SetMasterUnsafe_empty p env micros { p.m_info_ with session_id_ := 0 } path hip]
  · exact (SetMasterUnsafe_writable p env micros { p.m_info_ with session_id_ := 0 } path
      hip hw).1

/-- C15: with a writable term file, `ResetReplication(term)` returns OK exactly
when the state is `kConnected` or `kWaitDBSync` and `term` is the current master
term, and the state is then `kTryConnect`; in every other case it returns
Incomplete and leaves partition and files unchanged; after a successful reset
any further `ResetReplication` returns Incomplete and changes nothing. -/
theorem ResetReplication_iff (p : SyncSlavePartition) (env : Env) (micros : Nat)
    (path : String) (master_term : Nat) (hw : env.writable path = true) :
    ((p.ResetReplication env micros (some path) master_term).1 = Status.OK ↔
        ((p.repl_state_ = ReplState.kConnected ∨ p.repl_state_ = ReplState.kWaitDBSync) ∧
          master_term = p.m_term_)) ∧
      ((p.ResetReplication env micros (some path) master_term).1 = Status.OK →
        (p.ResetReplication env micros (some path) master_term).2.1.repl_state_ =
          ReplState.kTryConnect) ∧
      (¬ ((p.repl_state_ = ReplState.kConnected ∨ p.repl_state_ = ReplState.kWaitDBSync) ∧
          master_term = p.m_term_) →
        p.ResetReplication env micros (some path) master_term = (Status.Incomplete, p, env)) ∧
      ((p.ResetReplication env micros (some path) master_term).1 = Status.OK →
        ∀ (env2 : Env) (micros2 : Nat) (path2 : String) (term2 : Nat),
          (p.ResetReplication env micros (some path) master_term).2.1.ResetReplication
              env2 micros2 (some path2) term2 =
            (Status.Incomplete,
              (p.ResetReplication env micros (some path) master_term).2.1, env2)) := by
  have hmem : p.repl_state_ ∈ [ReplState.kConnected, ReplState.kWaitDBSync] ↔
      (p.repl_state_ = ReplState.kConnected ∨ p.repl_state_ = ReplState.kWaitDBSync) := by
    simp
  have hrej : ∀ (q : SyncSlavePartition) (e : Env) (mi : Nat) (pa : String) (te : Nat),
      ¬ ((q.repl_state_ = ReplState.kConnected ∨ q.repl_state_ = ReplState.kWaitDBSync) ∧
        te = q.m_term_) →
      q.ResetReplication e mi (some pa) te = (Status.Incomplete, q, e) := by
    intro q e mi pa te hn
    unfold SyncSlavePartition.ResetReplication
    simp only []
    apply CASReplState_reject
    intro hc
    have hq : q.repl_state_ = ReplState.kConnected ∨ q.repl_state_ = ReplState.kWaitDBSync := by
      simpa using hc.1
    exact hn ⟨hq, hc.2.symm⟩
  by_cases hc : (p.repl_state_ = ReplState.kConnected ∨ p.repl_state_ = ReplState.kWaitDBSync) ∧
      master_term = p.m_term_
  · have hact := ResetMasterUnsafe_writable p env micros path hw
    have hres : p.ResetReplication env micros (some path) master_term =
        (Status.OK, { (p.ResetMasterUnsafe env micros path).2.1 with
            repl_state_ := ReplState.kTryConnect },
          (p.ResetMasterUnsafe env micros path).2.2) := by
      unfold SyncSlavePartition.ResetReplication
      simp only []
      rw [CASReplState_pass p env micros _ master_term _ ReplState.kTryConnect
        (hmem.2 hc.1) hc.2.symm]
      simp only []
      rw [if_pos hact, SetReplStateUnsafe_other _ _ _ _ (by decide)]
      have hnn : ¬ NeedsCheckSyncTimeout ReplState.kTryConnect = true := by decide
      simp only [hnn, Bool.false_eq_true, if_false]
    rw [hres]
    refine ⟨⟨fun _ => hc, fun _ => rfl⟩, fun _ => rfl, fun hn => absurd hc hn, ?_⟩
    intro _ env2 micros2 path2 term2
    apply hrej
    intro h2
    rcases h2.1 with h | h
    · exact absurd h (by simp)
    · exact absurd h (by simp)
  · have hres := hrej p env micros path master_term hc
    rw [hres]
    refine ⟨⟨fun h => absurd h (by simp), fun h => absurd h hc⟩,
      fun h => absurd h (by simp), fun _ => rfl, fun h => absurd h (by simp)⟩

/-- Witness for C15: the sample partition in `kConnected` with term 7 is reset
with term 7; the reset succeeds, the state is `kTryConnect`, and a second reset
with the same term returns Incomplete. -/
theorem ResetReplication_iff_witness :
    (sampleConnected.ResetReplication sampleEnv 2000 (some "/db/term") 7).1 = Status.OK ∧
      (sampleConnected.ResetReplication sampleEnv 2000 (some "/db/term") 7).2.1.repl_state_ =
        ReplState.kTryConnect ∧
      ((sampleConnected.ResetReplication sampleEnv 2000 (some "/db/term")
        7).2.1.ResetReplication sampleEnv 3000 (some "/db/term") 7).1 = Status.Incomplete :=
  have h := ResetReplication_iff sampleConnected sampleEnv 2000 "/db/term" 7 (by decide)
  have hok := h.1.2 (by decide)
  ⟨hok, h.2.1 hok, by rw [h.2.2.2 hok sampleEnv 3000 "/db/term" 7]⟩

/-! ## Invariant of the slave partition -/

theorem SetReplStateUnsafe_NoConnectEmpty (p : SyncSlavePartition) (env : Env) (now : Nat)
    (repl_state : ReplState) : (p.SetReplStateUnsafe env now repl_state).1.NoConnectEmpty := by
  by_cases hs : repl_state = ReplState.kNoConnect
  · rw [hs, SetReplStateUnsafe_noConnect]
    intro _
    rfl
  · rw [SetReplStateUnsafe_other _ _ _ _ hs]
    intro h
    exact absurd h hs

theorem CASReplState_NoConnectEmpty (p : SyncSlavePartition) (env : Env) (now : Nat)
    (allowed_states : List ReplState) (exp_master_term : Nat)
    (action : SyncSlavePartition → Env → Status × SyncSlavePartition × Env)
    (new_state : ReplState) (hp : p.NoConnectEmpty) (hact : (action p env).2.1.NoConnectEmpty) :
    (p.CASReplState env now allowed_states exp_master_term action new_state).2.1.NoConnectEmpty
    := by
  by_cases hc : p.repl_state_ ∈ allowed_states ∧ p.m_term_ = exp_master_term
  · rw [CASReplState_pass p env now allowed_states exp_master_term action new_state hc.1 hc.2]
    have hset := SetReplStateUnsafe_NoConnectEmpty (action p env).2.1 (action p env).2.2 now
      new_state
    by_cases hok : (action p env).1 = Status.OK
    · rw [if_pos hok]
      by_cases hn : NeedsCheckSyncTimeout
          ((action p env).2.1.SetReplStateUnsafe (action p env).2.2 now new_state).1.repl_state_
          = true
      · rw [if_pos hn]
        exact hset
      · rw [if_neg hn]
        exact hset
    · rw [if_neg hok]
      exact hact
  · rw [CASReplState_reject p env now allowed_states exp_master_term action new_state hc]
    exact hp

theorem ResetMasterUnsafe_NoConnectEmpty (p : SyncSlavePartition) (env : Env) (now : Nat)
    (path : String) (hp : p.NoConnectEmpty) :
    (p.ResetMasterUnsafe env now path).2.1.NoConnectEmpty := by
  have h := ResetMasterUnsafe_frame p env now path
  intro hs
  rw [h.2]
  exact hp (h.1 ▸ hs)

theorem checkSyncTimeoutAction_NoConnectEmpty (micros now : Nat) (path : String)
    (p : SyncSlavePartition) (env : Env) (hp : p.NoConnectEmpty) :
    (checkSyncTimeoutAction micros now path p env).2.1.NoConnectEmpty := by
  unfold checkSyncTimeoutAction
  by_cases hto : recvTimedOut p.m_info_.last_recv_time_ now = true
  · rw [if_pos hto]
    simp only []
    by_cases hok : (p.ResetMasterUnsafe env micros path).1.ok = true
    · rw [if_pos hok]
      exact ResetMasterUnsafe_NoConnectEmpty p env micros path hp
    · rw [if_neg hok]
      exact ResetMasterUnsafe_NoConnectEmpty p env micros path hp
  · rw [if_neg hto]
    exact hp

theorem Activate_NoConnectEmpty (p : SyncSlavePartition) (env : Env) (micros : Nat)
    (master : RmNode) (repl_state : ReplState) (path : String) (hp : p.NoConnectEmpty) :
    (p.Activate env micros master repl_state path).2.1.NoConnectEmpty := by
  unfold SyncSlavePartition.Activate
  by_cases h1 : master.ip_ = "" ∨ master.port_ ≤ 0 ∨ master.port_ ≥ 65536
  · rw [if_pos h1]; exact hp
  · rw [if_neg h1]
    by_cases h2 : master.ip_ = p.m_info_.ip_ ∧ master.port_ = p.m_info_.port_
    · rw [if_pos h2]; exact hp
    · rw [if_neg h2]
      simp only []
      by_cases hok : ¬ (p.SetMasterUnsafe env micros master path).1.ok = true
      · rw [if_pos hok]
        have hip : master.ip_ ≠ "" := fun h => h1 (Or.inl h)
        rcases SetMasterUnsafe_cases p env micros master path hip with
          ⟨_, hp2, _, _⟩ | ⟨hok2, _, _, _⟩
        · rw [hp2]; exact hp
        · exact absurd ((Status_ok_iff _).2 hok2) hok
      · rw [if_neg hok]
        exact SetReplStateUnsafe_NoConnectEmpty _ _ _ _

/-- C16: in every state reachable from a freshly constructed slave partition by
`Activate`, `Deactivate`, `SetReplState`, the four-argument `CASReplState`,
`CheckSyncTimeout` and `ResetReplication`, met with any environment, the state
`kNoConnect` implies that the stored master ip is empty. -/
theorem NoConnect_master_empty (p : SyncSlavePartition) (h : p.Reachable) :
    p.repl_state_ = ReplState.kNoConnect → p.m_info_.ip_ = "" := by
  show p.NoConnectEmpty
  induction h with
  | construct micros => intro _; rfl
  | activate p env micros master repl_state path _ ih =>
    exact Activate_NoConnectEmpty p env micros master repl_state path ih
  | deactivate p env micros _ _ =>
    exact SetReplStateUnsafe_NoConnectEmpty p env micros ReplState.kNoConnect
  | setReplState p env micros repl_state _ _ =>
    exact SetReplStateUnsafe_NoConnectEmpty p env micros repl_state
  | casReplState p env micros exp_state exp_master_term new_state _ ih =>
    exact CASReplState_NoConnectEmpty p env micros [exp_state] exp_master_term _ new_state ih ih
  | checkSyncTimeout p env micros info_file_path now _ ih =>
    unfold SyncSlavePartition.CheckSyncTimeout
    by_cases h1 : ¬ NeedsCheckSyncTimeout p.repl_state_ = true
    · rw [if_pos h1]; exact ih
    · rw [if_neg h1]
      by_cases h2 : (p.m_info_.last_recv_time_ + kRecvKeepAliveTimeout) % 2 ^ 64 ≥ now
      · rw [if_pos h2]; exact ih
      · rw [if_neg h2]
        cases info_file_path with
        | none => exact ih
        | some path =>
          exact CASReplState_NoConnectEmpty p env micros NEEDS_CHECK_SYNC_TIMEOUT_STATES
            p.m_term_ _ ReplState.kTryConnect ih
            (checkSyncTimeoutAction_NoConnectEmpty micros now path p env ih)
  | resetReplication p env micros info_file_path master_term _ ih =>
    cases info_file_path with
    | none => exact ih
    | some path =>
      exact CASReplState_NoConnectEmpty p env micros _ master_term _ ReplState.kTryConnect ih
        (ResetMasterUnsafe_NoConnectEmpty p env micros path ih)

/-- Witness for C16: a partition activated towards `10.0.0.1:9221` and then
deactivated is reachable, is in `kNoConnect`, and stores an empty master ip. -/
theorem NoConnect_master_empty_witness :
    sampleDeactivated.Reachable ∧ sampleDeactivated.repl_state_ = ReplState.kNoConnect ∧
      sampleDeactivated.m_info_.ip_ = "" :=
  have hr : sampleDeactivated.Reachable :=
    SyncSlavePartition.Reachable.deactivate _ sampleEnv 20
      (SyncSlavePartition.Reachable.activate _ sampleEnv 10
        { ip_ := "10.0.0.1", port_ := 9221 } ReplState.kTryConnect "/db/term"
        (SyncSlavePartition.Reachable.construct 0))
  ⟨hr, by decide, NoConnect_master_empty sampleDeactivated hr (by decide)⟩

/-! ## The slave list of the master partition -/

theorem isAt_iff (slave : SlaveNode) (ip : String) (port : Int) :
    slave.isAt ip port = true ↔ slave.endpoint = (ip, port) := by
  unfold SlaveNode.isAt SlaveNode.endpoint
  simp only [decide_eq_true_eq, Prod.mk.injEq]
  constructor
  · rintro ⟨h1, h2⟩; exact ⟨h1.symm, h2.symm⟩
  · rintro ⟨h1, h2⟩; exact ⟨h1.symm, h2.symm⟩

/-- In a list with one entry per endpoint, nothing behind an entry at the
endpoint is at the endpoint. -/
theorem not_isAt_of_nodup_cons (slave : SlaveNode) (rest : List SlaveNode) (ip : String)
    (port : Int) (hnd : ((slave :: rest).map SlaveNode.endpoint).Nodup)
    (h : slave.isAt ip port = true) : ∀ t ∈ rest, ¬ t.isAt ip port = true := by
  intro t ht hat
  rw [List.map_cons, List.nodup_cons] at hnd
  apply hnd.1
  rw [(isAt_iff slave ip port).1 h, ← (isAt_iff t ip port).1 hat]
  exact List.mem_map_of_mem _ ht

theorem addSlaveLoop_none_iff (ip : String) (port : Int) (partition_id : Nat)
    (session_id : Int) (l : List SlaveNode) :
    addSlaveLoop ip port partition_id session_id l = none ↔
      ∀ t ∈ l, ¬ t.isAt ip port = true := by
  induction l with
  | nil => simp [addSlaveLoop]
  | cons slave rest ih =>
    unfold addSlaveLoop
    by_cases h : slave.isAt ip port = true
    · rw [if_pos h]
      constructor
      · intro hn
        by_cases hp : partition_id = slave.partition_id_
        · rw [if_pos hp] at hn; exact absurd hn (by simp)
        · rw [if_neg hp] at hn; exact absurd hn (by simp)
      · intro hall
        exact absurd h (hall slave (List.mem_cons_self _ _))
    · rw [if_neg h, Option.map_eq_none', ih]
      constructor
      · intro hall t ht
        rcases List.mem_cons.1 ht with rfl | ht
        · exact h
        · exact hall t ht
      · intro hall t ht
        exact hall t (List.mem_cons_of_mem _ ht)

theorem addSlaveLoop_endpoints (ip : String) (port : Int) (partition_id : Nat)
    (session_id : Int) (l : List SlaveNode) :
    ∀ r, addSlaveLoop ip port partition_id session_id l = some r →
      r.2.map SlaveNode.endpoint = l.map SlaveNode.endpoint := by
  induction l with
  | nil => intro r h; simp [addSlaveLoop] at h
  | cons slave rest ih =>
    intro r h
    unfold addSlaveLoop at h
    by_cases hat : slave.isAt ip port = true
    · rw [if_pos hat] at h
      by_cases hp : partition_id = slave.partition_id_
      · rw [if_pos hp] at h
        simp only [Option.some.injEq] at h
        rw [← h]
        rfl
      · rw [if_neg hp] at h
        simp only [Option.some.injEq] at h
        rw [← h]
    · rw [if_neg hat] at h
      cases hrec : addSlaveLoop ip port partition_id session_id rest with
      | none => rw [hrec] at h; simp at h
      | some r0 =>
        rw [hrec] at h
        simp only [Option.map_some', Option.some.injEq] at h
        rw [← h]
        simp only [List.map_cons]
        rw [ih r0 hrec]

/-- The loop of `AddSlaveNode` on a list with one entry per endpoint that holds an
entry at the endpoint. -/
theorem addSlaveLoop_found (ip : String) (port : Int) (partition_id : Nat)
    (session_id : Int) (l : List SlaveNode) (s : SlaveNode)
    (hnd : (l.map SlaveNode.endpoint).Nodup) (hs : s ∈ l) (hat : s.isAt ip port = true) :
    addSlaveLoop ip port partition_id session_id l =
      some (if partition_id = s.partition_id_ then
          (Status.OK,
            l.map (fun t => if t.isAt ip port then { t with session_id_ := session_id } else t))
        else (Status.Corruption, l)) := by
  induction l with
  | nil => simp at hs
  | cons slave rest ih =>
    unfold addSlaveLoop
    by_cases h : slave.isAt ip port = true
    · have hnone := not_isAt_of_nodup_cons slave rest ip port hnd h
      have hsl : s = slave := by
        rcases List.mem_cons.1 hs with rfl | hs2
        · rfl
        · exact absurd hat (hnone s hs2)
      subst hsl
      rw [if_pos h]
      by_cases hp : partition_id = s.partition_id_
      · rw [if_pos hp, if_pos hp]
        simp only [List.map_cons, h, if_true]
        have hrest : rest.map (fun t =>
            if t.isAt ip port then { t with session_id_ := session_id } else t) = rest := by
          have hid : rest.map id = rest := List.map_id rest
          rw [← hid]
          rw [List.map_map]
          apply List.map_congr_left
          intro t ht
          have := hnone t ht
          simp [this]
        rw [hrest]
      · rw [if_neg hp, if_neg hp]
    · have hs2 : s ∈ rest := by
        rcases List.mem_cons.1 hs with rfl | hs2
        · exact absurd hat h
        · exact hs2
      rw [List.map_cons, List.nodup_cons] at hnd
      rw [if_neg h, ih hnd.2 hs2]
      by_cases hp : partition_id = s.partition_id_
      · simp [hp, h]
      · simp [hp]

theorem AddSlaveNode_endpoints_nodup (m : SyncMasterPartition) (send_time recv_time : Nat)
    (ip : String) (port : Int) (partition_id : Nat) (session_id : Int) (master_term : Nat)
    (hnd : (m.slaves_.map SlaveNode.endpoint).Nodup) :
    ((m.AddSlaveNode send_time recv_time ip port partition_id session_id
      master_term).2.slaves_.map SlaveNode.endpoint).Nodup := by
  unfold SyncMasterPartition.AddSlaveNode
  cases hl : addSlaveLoop ip port partition_id session_id m.slaves_ with
  | some r =>
    simp only []
    rw [addSlaveLoop_endpoints ip port partition_id session_id m.slaves_ r hl]
    exact hnd
  | none =>
    simp only [List.map_append, List.map_cons, List.map_nil]
    rw [List.nodup_append]
    refine ⟨hnd, List.nodup_singleton _, ?_⟩
    rw [List.disjoint_left]
    intro e he hin
    rw [List.mem_singleton] at hin
    rcases List.mem_map.1 he with ⟨t, ht, hte⟩
    have hno := (addSlaveLoop_none_iff ip port partition_id session_id m.slaves_).1 hl t ht
    apply hno
    rw [isAt_iff, hte, hin]
    rfl

theorem RemoveSlaveNode_endpoints_nodup (m : SyncMasterPartition) (ip : String) (port : Int)
    (hnd : (m.slaves_.map SlaveNode.endpoint).Nodup) :
    ((m.RemoveSlaveNode ip port).2.slaves_.map SlaveNode.endpoint).Nodup := by
  unfold SyncMasterPartition.RemoveSlaveNode
  by_cases h : m.slaves_.any (fun slave => slave.isAt ip port) = true
  · rw [if_pos h]
    exact hnd.sublist (List.Sublist.map _ (List.eraseP_sublist _))
  · rw [if_neg h]
    exact hnd

theorem checkTimeoutLoop_endpoints (now : Nat) (send : WriteTask → Status)
    (l : List SlaveNode) :
    (checkTimeoutLoop now send l).slaves.map SlaveNode.endpoint = l.map SlaveNode.endpoint := by
  induction l with
  | nil => rfl
  | cons slave rest ih =>
    unfold checkTimeoutLoop
    by_cases h1 : (slave.last_recv_time_ + kRecvKeepAliveTimeout) % 2 ^ 64 < now
    · rw [if_pos h1]
      simp only [List.map_cons, ih]
    · rw [if_neg h1]
      by_cases h2 : (slave.last_send_time_ + kSendKeepAliveTimeout) % 2 ^ 64 < now
      · rw [if_pos h2]
        by_cases h3 : (send (pingTask slave)).ok = true
        · rw [if_pos h3]
          simp only [List.map_cons, ih]
          rfl
        · rw [if_neg h3]
          rfl
      · rw [if_neg h2]
        simp only [List.map_cons, ih]

theorem eraseTimedOut_sublist (to_del : List (String × Int)) :
    ∀ l : List SlaveNode, List.Sublist (eraseTimedOut l to_del) l := by
  induction to_del with
  | nil => intro l; exact List.Sublist.refl l
  | cons node rest ih =>
    intro l
    unfold eraseTimedOut
    rw [List.foldl_cons]
    exact (ih _).trans (List.eraseP_sublist _)

theorem CheckSyncTimeout_endpoints_nodup (m : SyncMasterPartition)
    (send : WriteTask → Status) (now : Nat) (hnd : (m.slaves_.map SlaveNode.endpoint).Nodup) :
    ((m.CheckSyncTimeout send now).2.1.slaves_.map SlaveNode.endpoint).Nodup := by
  have hloop : ((checkTimeoutLoop now send m.slaves_).slaves.map SlaveNode.endpoint).Nodup := by
    rw [checkTimeoutLoop_endpoints]; exact hnd
  unfold SyncMasterPartition.CheckSyncTimeout
  by_cases h : (checkTimeoutLoop now send m.slaves_).failed = true
  · rw [if_pos h]
    exact hloop
  · rw [if_neg h]
    exact hloop.sublist (List.Sublist.map _ (eraseTimedOut_sublist _ _))

/-- C17: in every slave list reachable from the empty master partition by
`AddSlaveNode`, `RemoveSlaveNode` and `CheckSyncTimeout` (whatever the keepalive
sends return), no two entries have the same `(ip, port)` endpoint. -/
theorem slaves_one_per_endpoint (m : SyncMasterPartition) (h : m.Reachable) :
    (m.slaves_.map SlaveNode.endpoint).Nodup ∧
      (∀ (i j : Nat) (a b : SlaveNode), m.slaves_[i]? = some a → m.slaves_[j]? = some b →
        a.ip_ = b.ip_ → a.port_ = b.port_ → i = j) := by
  have hnd : (m.slaves_.map SlaveNode.endpoint).Nodup := by
    induction h with
    | construct table_name partition_id => exact List.nodup_nil
    | addSlaveNode m send_time recv_time ip port partition_id session_id master_term _ ih =>
      exact AddSlaveNode_endpoints_nodup m send_time recv_time ip port partition_id session_id
        master_term ih
    | removeSlaveNode m ip port _ ih => exact RemoveSlaveNode_endpoints_nodup m ip port ih
    | checkSyncTimeout m send now _ ih => exact CheckSyncTimeout_endpoints_nodup m send now ih
  refine ⟨hnd, ?_⟩
  intro i j a b hi hj hip hport
  rcases List.getElem?_eq_some.1 hi with ⟨hil, hia⟩
  rcases List.getElem?_eq_some.1 hj with ⟨hjl, hjb⟩
  have hil2 : i < (m.slaves_.map SlaveNode.endpoint).length := by simpa using hil
  have hjl2 : j < (m.slaves_.map SlaveNode.endpoint).length := by simpa using hjl
  have heq : (m.slaves_.map SlaveNode.endpoint)[i] = (m.slaves_.map SlaveNode.endpoint)[j] := by
    simp [hia, hjb, SlaveNode.endpoint, hip, hport]
  exact (List.Nodup.getElem_inj_iff hnd).1 heq

/-- Witness for C17: a partition with two slaves added is reachable, and its two
entries have different endpoints. -/
theorem slaves_one_per_endpoint_witness :
    sampleMaster.Reachable ∧
      sampleMaster.slaves_.map SlaveNode.endpoint = [("10.0.0.5", 9221), ("10.0.0.6", 9221)] ∧
      ((sampleMaster.slaves_.map SlaveNode.endpoint).Nodup ∧
        (∀ (i j : Nat) (a b : SlaveNode), sampleMaster.slaves_[i]? = some a →
          sampleMaster.slaves_[j]? = some b → a.ip_ = b.ip_ → a.port_ = b.port_ → i = j)) :=
  have hr : sampleMaster.Reachable :=
    SyncMasterPartition.Reachable.addSlaveNode _ 200 201 "10.0.0.6" 9221 2 12 7
      (SyncMasterPartition.Reachable.addSlaveNode _ 100 101 "10.0.0.5" 9221 2 11 7
        (SyncMasterPartition.Reachable.construct "db0" 2))
  ⟨hr, by decide, slaves_one_per_endpoint sampleMaster hr⟩

/-- C18: when the slave list (one entry per endpoint) holds an entry at
`(ip, port)` whose partition id differs from the one passed, `AddSlaveNode`
returns Corruption and the partition is exactly as before: same entries in the
same order, each with all its fields. -/
theorem AddSlaveNode_other_partition (m : SyncMasterPartition) (send_time recv_time : Nat)
    (ip : String) (port : Int) (partition_id : Nat) (session_id : Int) (master_term : Nat)
    (s : SlaveNode) (hnd : (m.slaves_.map SlaveNode.endpoint).Nodup)
    (hs : s ∈ m.slaves_) (hip : s.ip_ = ip) (hport : s.port_ = port)
    (hp : s.partition_id_ ≠ partition_id) :
    m.AddSlaveNode send_time recv_time ip port partition_id session_id master_term =
      (Status.Corruption, m) := by
  have hat : s.isAt ip port = true := by
    unfold SlaveNode.isAt
    simp [hip, hport]
  have hloop := addSlaveLoop_found ip port partition_id session_id m.slaves_ s hnd hs hat
  rw [if_neg (fun h => hp h.symm)] at hloop
  unfold SyncMasterPartition.AddSlaveNode
  rw [hloop]

/-- Witness for C18: slave `10.0.0.5:9221` follows partition 2; adding it for
partition 3 returns Corruption and leaves the partition as it was. -/
theorem AddSlaveNode_other_partition_witness :
    sampleMaster.AddSlaveNode 300 301 "10.0.0.5" 9221 3 99 8 =
      (Status.Corruption, sampleMaster) :=
  AddSlaveNode_other_partition sampleMaster 300 301 "10.0.0.5" 9221 3 99 8
    { SlaveNode.construct "10.0.0.5" 9221 "db0" 2 11 7 with
      last_send_time_ := 100, last_recv_time_ := 101 }
    (by decide) (by decide) (by decide) (by decide) (by decide)

/-- C19: when the slave list (one entry per endpoint) holds an entry at
`(ip, port)` with the partition id passed, `AddSlaveNode` returns OK, the list
keeps its length and order, the entry at the endpoint gets the session id passed
and keeps every other field (its master term too, whatever term is passed), and
every other entry is untouched. -/
theorem AddSlaveNode_same_partition (m : SyncMasterPartition) (send_time recv_time : Nat)
    (ip : String) (port : Int) (partition_id : Nat) (session_id : Int) (master_term : Nat)
    (s : SlaveNode) (hnd : (m.slaves_.map SlaveNode.endpoint).Nodup)
    (hs : s ∈ m.slaves_) (hip : s.ip_ = ip) (hport : s.port_ = port)
    (hp : s.partition_id_ = partition_id) :
    m.AddSlaveNode send_time recv_time ip port partition_id session_id master_term =
        (Status.OK, { m with slaves_ := m.slaves_.map (fun t =>
          if t.isAt ip port then { t with session_id_ := session_id } else t) }) ∧
      (m.AddSlaveNode send_time recv_time ip port partition_id session_id
        master_term).2.slaves_.length = m.slaves_.length ∧
      (∀ i : Nat, m.slaves_[i]? = some s →
        (m.AddSlaveNode send_time recv_time ip port partition_id session_id
          master_term).2.slaves_[i]? = some { s with session_id_ := session_id }) ∧
      (∀ (i : Nat) (t : SlaveNode), m.slaves_[i]? = some t → t ≠ s →
        (m.AddSlaveNode send_time recv_time ip port partition_id session_id
          master_term).2.slaves_[i]? = some t) := by
  have hat : s.isAt ip port = true := by
    unfold SlaveNode.isAt
    simp [hip, hport]
  have hloop := addSlaveLoop_found ip port partition_id session_id m.slaves_ s hnd hs hat
  rw [if_pos hp.symm] at hloop
  have hres : m.AddSlaveNode send_time recv_time ip port partition_id session_id master_term =
      (Status.OK, { m with slaves_ := m.slaves_.map (fun t =>
        if t.isAt ip port then { t with session_id_ := session_id } else t) }) := by
    unfold SyncMasterPartition.AddSlaveNode
    rw [hloop]
  rw [hres]
  refine ⟨rfl, by simp, ?_, ?_⟩
  · intro i hi
    simp only [List.getElem?_map, hi, Option.map_some', hat, if_true]
  · intro i t hi hne
    have hnat : ¬ t.isAt ip port = true := by
      intro hta
      apply hne
      rcases List.mem_iff_getElem?.1 hs with ⟨j, hj⟩
      rcases List.getElem?_eq_some.1 hi with ⟨hil, hit⟩
      rcases List.getElem?_eq_some.1 hj with ⟨hjl, hjs⟩
      have hil2 : i < (m.slaves_.map SlaveNode.endpoint).length := by simpa using hil
      have hjl2 : j < (m.slaves_.map SlaveNode.endpoint).length := by simpa using hjl
      have heq : (m.slaves_.map SlaveNode.endpoint)[i] =
          (m.slaves_.map SlaveNode.endpoint)[j] := by
        simp [hit, hjs, (isAt_iff t ip port).1 hta, (isAt_iff s ip port).1 hat]
      have hij : i = j := (List.Nodup.getElem_inj_iff hnd).1 heq
      subst hij
      rw [hi] at hj
      exact Option.some.inj hj
    simp only [List.getElem?_map, hi, Option.map_some', hnat, if_false]
    rfl

/-- Witness for C19: slave `10.0.0.5:9221` of partition 2 is added again with
session 99 and term 8: only its session id changes. -/
theorem AddSlaveNode_same_partition_witness :
    (sampleMaster.AddSlaveNode 300 301 "10.0.0.5" 9221 2 99 8).1 = Status.OK ∧
      (sampleMaster.AddSlaveNode 300 301 "10.0.0.5" 9221 2 99 8).2.slaves_ =
        [{ SlaveNode.construct "10.0.0.5" 9221 "db0" 2 99 7 with
            last_send_time_ := 100, last_recv_time_ := 101 },
         { SlaveNode.construct "10.0.0.6" 9221 "db0" 2 12 7 with
            last_send_time_ := 200, last_recv_time_ := 201 }] :=
  have h := (AddSlaveNode_same_partition sampleMaster 300 301 "10.0.0.5" 9221 2 99 8
    { SlaveNode.construct "10.0.0.5" 9221 "db0" 2 11 7 with
      last_send_time_ := 100, last_recv_time_ := 101 }
    (by decide) (by decide) (by decide) (by decide) (by decide)).1
  ⟨by rw [h], by rw [h]; decide⟩

theorem eraseP_eq_filter_of_nodup (ip : String) (port : Int) (l : List SlaveNode)
    (hnd : (l.map SlaveNode.endpoint).Nodup) :
    l.eraseP (fun slave => slave.isAt ip port) =
      l.filter (fun slave => ¬ slave.isAt ip port) := by
  induction l with
  | nil => rfl
  | cons slave rest ih =>
    by_cases h : slave.isAt ip port = true
    · have hnone := not_isAt_of_nodup_cons slave rest ip port hnd h
      rw [List.eraseP_cons_of_pos (by simpa using h)]
      rw [List.filter_cons_of_neg (by simp [h])]
      symm
      rw [List.filter_eq_self]
      intro t ht
      simpa using hnone t ht
    · rw [List.map_cons, List.nodup_cons] at hnd
      rw [List.eraseP_cons_of_neg (by simpa using h)]
      rw [List.filter_cons_of_pos (by simpa using h)]
      rw [ih hnd.2]

/-- The slave list left by `RemoveSlaveNode` when endpoints are unique. -/
theorem RemoveSlaveNode_slaves (m : SyncMasterPartition) (ip : String) (port : Int)
    (hnd : (m.slaves_.map SlaveNode.endpoint).Nodup) :
    (m.RemoveSlaveNode ip port).2.slaves_ =
      m.slaves_.filter (fun slave => ¬ slave.isAt ip port) := by
  unfold SyncMasterPartition.RemoveSlaveNode
  by_cases h : m.slaves_.any (fun slave => slave.isAt ip port) = true
  · rw [if_pos h]
    exact eraseP_eq_filter_of_nodup ip port m.slaves_ hnd
  · rw [if_neg h]
    symm
    rw [List.filter_eq_self]
    intro t ht
    have hn : ¬ t.isAt ip port = true := by
      intro hta
      exact h (List.any_eq_true.2 ⟨t, ht, hta⟩)
    simpa using hn

/-- The entries away from the endpoint after `AddSlaveNode` are those before it. -/
theorem AddSlaveNode_filter (m : SyncMasterPartition) (send_time recv_time : Nat)
    (ip : String) (port : Int) (partition_id : Nat) (session_id : Int) (master_term : Nat)
    (hnd : (m.slaves_.map SlaveNode.endpoint).Nodup) :
    (m.AddSlaveNode send_time recv_time ip port partition_id session_id
      master_term).2.slaves_.filter (fun slave => ¬ slave.isAt ip port) =
      m.slaves_.filter (fun slave => ¬ slave.isAt ip port) := by
  by_cases hex : ∃ s ∈ m.slaves_, s.isAt ip port = true
  · rcases hex with ⟨s, hs, hat⟩
    have hloop := addSlaveLoop_found ip port partition_id session_id m.slaves_ s hnd hs hat
    unfold SyncMasterPartition.AddSlaveNode
    rw [hloop]
    by_cases hp : partition_id = s.partition_id_
    · rw [if_pos hp]
      simp only [List.filter_map]
      have hid : m.slaves_.filter (fun slave => ¬ slave.isAt ip port) =
          (m.slaves_.filter (fun slave => ¬ slave.isAt ip port)).map id := (List.map_id _).symm
      rw [hid]
      have hfil : List.filter
          ((fun slave : SlaveNode => decide ¬ slave.isAt ip port = true) ∘
            (fun t => if t.isAt ip port = true then { t with session_id_ := session_id } else t))
          m.slaves_ = m.slaves_.filter (fun slave => ¬ slave.isAt ip port) := by
        apply List.filter_congr
        intro t _
        by_cases hta : t.isAt ip port = true
        · have h2 : ({ t with session_id_ := session_id } : SlaveNode).isAt ip port = true := hta
          simp [hta, h2]
        · simp [hta]
      rw [hfil]
      apply List.map_congr_left
      intro t ht
      have hta : ¬ t.isAt ip port = true := by
        simpa using (List.mem_filter.1 ht).2
      simp [hta]
    · rw [if_neg hp]
  · have hnone : ∀ t ∈ m.slaves_, ¬ t.isAt ip port = true :=
      fun t ht hta => hex ⟨t, ht, hta⟩
    have hloop := (addSlaveLoop_none_iff ip port partition_id session_id m.slaves_).2 hnone
    unfold SyncMasterPartition.AddSlaveNode
    rw [hloop]
    simp only [List.filter_append]
    have hfresh : ({ SlaveNode.construct ip port m.table_name_ partition_id session_id
        master_term with last_send_time_ := send_time, last_recv_time_ := recv_time } :
        SlaveNode).isAt ip port = true := by
      unfold SlaveNode.isAt SlaveNode.construct
      simp
    rw [List.filter_cons_of_neg (by simp [hfresh])]
    simp

/-- `AddSlaveNode` for an endpoint that is not in the list appends a fresh node. -/
theorem AddSlaveNode_absent (q : SyncMasterPartition) (send_time recv_time : Nat)
    (ip : String) (port : Int) (partition_id : Nat) (session_id : Int) (master_term : Nat)
    (hnone : ∀ t ∈ q.slaves_, ¬ t.isAt ip port = true) :
    q.AddSlaveNode send_time recv_time ip port partition_id session_id master_term =
      (Status.OK,
        { q with slaves_ := q.slaves_ ++
          [{ SlaveNode.construct ip port q.table_name_ partition_id session_id master_term with
              last_send_time_ := send_time, last_recv_time_ := recv_time }] }) := by
  have hloop := (addSlaveLoop_none_iff ip port partition_id session_id q.slaves_).2 hnone
  unfold SyncMasterPartition.AddSlaveNode
  rw [hloop]

/-- C20: for every reachable slave list and every endpoint, the sequence
`AddSlaveNode(x, s1); RemoveSlaveNode(x); AddSlaveNode(x, s2)` ends with OK and
with the entries that were away from `x`, in their order, followed by one new
node for `x`: it is the only entry at `x`, carries session id `s2`, and is as
constructed (state `kSlaveNotSync`, empty window, no reader) with the two
timestamps of the second add. -/
theorem add_remove_add (m : SyncMasterPartition) (h : m.Reachable) (ip : String) (port : Int)
    (ts1 tr1 pid1 : Nat) (s1 : Int) (term1 : Nat)
    (ts2 tr2 pid2 : Nat) (s2 : Int) (term2 : Nat) :
    (addRemoveAdd m ip port ts1 tr1 pid1 s1 term1 ts2 tr2 pid2 s2 term2).1 = Status.OK ∧
      (addRemoveAdd m ip port ts1 tr1 pid1 s1 term1 ts2 tr2 pid2 s2 term2).2.slaves_ =
        m.slaves_.filter (fun slave => ¬ slave.isAt ip port) ++
          [{ SlaveNode.construct ip port m.table_name_ pid2 s2 term2 with
              last_send_time_ := ts2, last_recv_time_ := tr2 }] ∧
      (addRemoveAdd m ip port ts1 tr1 pid1 s1 term1 ts2 tr2 pid2 s2 term2).2.slaves_.filter
          (fun slave => slave.isAt ip port) =
        [{ SlaveNode.construct ip port m.table_name_ pid2 s2 term2 with
            last_send_time_ := ts2, last_recv_time_ := tr2 }] ∧
      ({ SlaveNode.construct ip port m.table_name_ pid2 s2 term2 with
          last_send_time_ := ts2, last_recv_time_ := tr2 } : SlaveNode).session_id_ = s2 ∧
      ({ SlaveNode.construct ip port m.table_name_ pid2 s2 term2 with
          last_send_time_ := ts2, last_recv_time_ := tr2 } : SlaveNode).slave_state =
        SlaveState.kSlaveNotSync := by
  have hnd : (m.slaves_.map SlaveNode.endpoint).Nodup := by
    induction h with
    | construct table_name partition_id => exact List.nodup_nil
    | addSlaveNode m send_time recv_time ip port partition_id session_id master_term _ ih =>
      exact AddSlaveNode_endpoints_nodup m send_time recv_time ip port partition_id session_id
        master_term ih
    | removeSlaveNode m ip port _ ih => exact RemoveSlaveNode_endpoints_nodup m ip port ih
    | checkSyncTimeout m send now _ ih => exact CheckSyncTimeout_endpoints_nodup m send now ih
  have hnd1 := AddSlaveNode_endpoints_nodup m ts1 tr1 ip port pid1 s1 term1 hnd
  have hl2 : ((m.AddSlaveNode ts1 tr1 ip port pid1 s1 term1).2.RemoveSlaveNode ip port).2.slaves_
      = m.slaves_.filter (fun slave => ¬ slave.isAt ip port) := by
    rw [RemoveSlaveNode_slaves _ ip port hnd1, AddSlaveNode_filter m ts1 tr1 ip port pid1 s1
      term1 hnd]
  have htab : ∀ (q : SyncMasterPartition) (a b : Nat) (i : String) (po : Int) (c : Nat)
      (d : Int) (e : Nat), (q.AddSlaveNode a b i po c d e).2.table_name_ = q.table_name_ := by
    intro q a b i po c d e
    unfold SyncMasterPartition.AddSlaveNode
    cases addSlaveLoop i po c d q.slaves_ <;> rfl
  have htab2 : ∀ (q : SyncMasterPartition) (i : String) (po : Int),
      (q.RemoveSlaveNode i po).2.table_name_ = q.table_name_ := by
    intro q i po
    unfold SyncMasterPartition.RemoveSlaveNode
    split <;> rfl
  have hnone : ∀ t ∈ ((m.AddSlaveNode ts1 tr1 ip port pid1 s1 term1).2.RemoveSlaveNode ip
      port).2.slaves_, ¬ t.isAt ip port = true := by
    intro t ht
    rw [hl2] at ht
    simpa using (List.mem_filter.1 ht).2
  have hfin := AddSlaveNode_absent
    ((m.AddSlaveNode ts1 tr1 ip port pid1 s1 term1).2.RemoveSlaveNode ip port).2
    ts2 tr2 ip port pid2 s2 term2 hnone
  have hst : (addRemoveAdd m ip port ts1 tr1 pid1 s1 term1 ts2 tr2 pid2 s2 term2).1 =
      Status.OK := by
    unfold addRemoveAdd
    rw [hfin]
  have hsl : (addRemoveAdd m ip port ts1 tr1 pid1 s1 term1 ts2 tr2 pid2 s2 term2).2.slaves_ =
      m.slaves_.filter (fun slave => ¬ slave.isAt ip port) ++
        [{ SlaveNode.construct ip port m.table_name_ pid2 s2 term2 with
            last_send_time_ := ts2, last_recv_time_ := tr2 }] := by
    unfold addRemoveAdd
    rw [hfin]
    simp only []
    rw [hl2, htab2, htab]
  have hfresh : ({ SlaveNode.construct ip port m.table_name_ pid2 s2 term2 with
      last_send_time_ := ts2, last_recv_time_ := tr2 } : SlaveNode).isAt ip port = true := by
    unfold SlaveNode.isAt SlaveNode.construct
    simp
  refine ⟨hst, hsl, ?_, rfl, rfl⟩
  rw [hsl, List.filter_append]
  have h1 : (m.slaves_.filter (fun slave => ¬ slave.isAt ip port)).filter
      (fun slave => slave.isAt ip port) = [] := by
    rw [List.filter_eq_nil_iff]
    intro a ha
    simpa using (List.mem_filter.1 ha).2
  have h2 : [({ SlaveNode.construct ip port m.table_name_ pid2 s2 term2 with
      last_send_time_ := ts2, last_recv_time_ := tr2 } : SlaveNode)].filter
      (fun slave => slave.isAt ip port) =
      [{ SlaveNode.construct ip port m.table_name_ pid2 s2 term2 with
          last_send_time_ := ts2, last_recv_time_ := tr2 }] := by
    rw [List.filter_eq_self]
    intro a ha
    rw [List.mem_singleton] at ha
    rw [ha]
    exact hfresh
  rw [h1, h2]
  rfl

/-- Witness for C20: on the sample partition, slave `10.0.0.5:9221` is added with
session 50, removed, and added with session 60: the list ends with the other
slave followed by a fresh node for `10.0.0.5:9221` with session 60. -/
theorem add_remove_add_witness :
    sampleMaster.Reachable ∧
      (addRemoveAdd sampleMaster "10.0.0.5" 9221 300 301 2 50 8 400 401 2 60 9).2.slaves_ =
        [{ SlaveNode.construct "10.0.0.6" 9221 "db0" 2 12 7 with
            last_send_time_ := 200, last_recv_time_ := 201 },
         { SlaveNode.construct "10.0.0.5" 9221 "db0" 2 60 9 with
            last_send_time_ := 400, last_recv_time_ := 401 }] :=
  have hr : sampleMaster.Reachable :=
    SyncMasterPartition.Reachable.addSlaveNode _ 200 201 "10.0.0.6" 9221 2 12 7
      (SyncMasterPartition.Reachable.addSlaveNode _ 100 101 "10.0.0.5" 9221 2 11 7
        (SyncMasterPartition.Reachable.construct "db0" 2))
  ⟨hr, by
    rw [(add_remove_add sampleMaster hr "10.0.0.5" 9221 300 301 2 50 8 400 401 2 60 9).2.1]
    decide⟩

/-! ## Purge scenarios and the reader pool operations -/

/-- C27 as stated fails: with the tip in file 30 and two `BinlogSync` slaves that
acked into files 25 and 27, the reported name carries index 20 (the tip minus the
cushion of 10), not 24. -/
theorem GetSafetyPurgeBinlog_scenario_counterexample :
    GetSafetyPurgeBinlog "write2file" (some ⟨30, 0⟩)
        [{ slave_state := SlaveState.kSlaveBinlogSync, acked_offset := ⟨25, 0⟩ },
         { slave_state := SlaveState.kSlaveBinlogSync, acked_offset := ⟨27, 0⟩ }] "" =
        (Status.OK, "write2file20") ∧
      "write2file20" ≠ "write2file24" := by
  constructor <;> decide

/-- C27 (amended): with the binlog tip in file 30 and exactly two slaves, both in
`BinlogSync`, that acked into files 25 and 27, `GetSafetyPurgeBinlog` reports
file index 20, the minimum of `30 - 10`, `25 - 1` and `27 - 1`; with a third
slave in `DbSync` added it reports "none". -/
theorem GetSafetyPurgeBinlog_scenario (kBinlogPrefix : String) (tip : BinlogOffset)
    (s1 s2 s3 : SlaveNode) (safety_purge : String) (htip : tip.filenum = 30)
    (h1 : s1.slave_state = SlaveState.kSlaveBinlogSync) (h1a : s1.acked_offset.filenum = 25)
    (h2 : s2.slave_state = SlaveState.kSlaveBinlogSync) (h2a : s2.acked_offset.filenum = 27)
    (h3 : s3.slave_state = SlaveState.kSlaveDbSync) :
    GetSafetyPurgeBinlog kBinlogPrefix (some tip) [s1, s2] safety_purge =
        (Status.OK, kBinlogPrefix ++ "20") ∧
      GetSafetyPurgeBinlog kBinlogPrefix (some tip) [s1, s2, s3] safety_purge =
        (Status.OK, "none") := by
  have hstr : toString (toInt32 20) = "20" := by decide
  have h3n : ¬ (s3.slave_state = SlaveState.kSlaveBinlogSync ∧ s3.acked_offset.filenum > 0) := by
    rw [h3]
    intro h
    exact absurd h.1 (by decide)
  constructor
  · unfold GetSafetyPurgeBinlog
    simp only [htip]
    simp only [safetyPurgeLoop, h1, h1a, h2, h2a]
    simp [hstr]
  · unfold GetSafetyPurgeBinlog
    simp only [htip]
    simp only [safetyPurgeLoop, h1, h1a, h2, h2a]
    simp [h3n]

/-- Witness for C27 (amended): the scenario with prefix `write2file`. -/
theorem GetSafetyPurgeBinlog_scenario_witness :
    GetSafetyPurgeBinlog "write2file" (some ⟨30, 0⟩)
        [{ slave_state := SlaveState.kSlaveBinlogSync, acked_offset := ⟨25, 0⟩ },
         { slave_state := SlaveState.kSlaveBinlogSync, acked_offset := ⟨27, 0⟩ }] "" =
        (Status.OK, "write2file" ++ "20") ∧
      GetSafetyPurgeBinlog "write2file" (some ⟨30, 0⟩)
        [{ slave_state := SlaveState.kSlaveBinlogSync, acked_offset := ⟨25, 0⟩ },
         { slave_state := SlaveState.kSlaveBinlogSync, acked_offset := ⟨27, 0⟩ },
         { slave_state := SlaveState.kSlaveDbSync }] "" = (Status.OK, "none") :=
  GetSafetyPurgeBinlog_scenario "write2file" ⟨30, 0⟩
    { slave_state := SlaveState.kSlaveBinlogSync, acked_offset := ⟨25, 0⟩ }
    { slave_state := SlaveState.kSlaveBinlogSync, acked_offset := ⟨27, 0⟩ }
    { slave_state := SlaveState.kSlaveDbSync } ""
    (by decide) (by decide) (by decide) (by decide) (by decide) (by decide)

/-- C28: whenever the slave list holds a slave in `DbSync`, wherever it sits and
whatever the other slaves are, `BinlogCloudPurge(index)` is false for every
binlog tip (present or not) and every index. -/
theorem BinlogCloudPurge_dbsync (tip : Option BinlogOffset) (slaves_ : List SlaveNode)
    (index : Nat) (s : SlaveNode) (hs : s ∈ slaves_)
    (hd : s.slave_state = SlaveState.kSlaveDbSync) :
    BinlogCloudPurge tip slaves_ index = false := by
  have hloop : cloudPurgeLoop index slaves_ = false := by
    cases hc : cloudPurgeLoop index slaves_
    · rfl
    · exact absurd hd (((cloudPurgeLoop_iff index slaves_).1 hc).1 s hs)
  unfold BinlogCloudPurge
  cases tip with
  | none => rfl
  | some boffset =>
    simp only []
    by_cases hi : index > (boffset.filenum + 2 ^ 32 - 10) % 2 ^ 32
    · rw [if_pos hi]
    · rw [if_neg hi, hloop]

/-- Witness for C28: tip in file 30, a `BinlogSync` slave that acked into file 25
followed by a `DbSync` slave: index 3 may not be purged. -/
theorem BinlogCloudPurge_dbsync_witness :
    BinlogCloudPurge (some ⟨30, 0⟩)
      [{ slave_state := SlaveState.kSlaveBinlogSync, acked_offset := ⟨25, 0⟩ },
       { slave_state := SlaveState.kSlaveDbSync }] 3 = false :=
  BinlogCloudPurge_dbsync (some ⟨30, 0⟩)
    [{ slave_state := SlaveState.kSlaveBinlogSync, acked_offset := ⟨25, 0⟩ },
     { slave_state := SlaveState.kSlaveDbSync }] 3
    { slave_state := SlaveState.kSlaveDbSync } (by decide) (by decide)

theorem find?_isSome_iff_checked_out (m : BinlogReaderManager) (rm_node : RmNode) :
    (m.occupied_.find? (fun e => e.1.sameKey rm_node)).isSome = true ↔
      ∃ e ∈ m.occupied_, e.1.sameKey rm_node = true := by
  rw [List.find?_isSome]

/-- C29: `FetchBinlogReader(rm_node)` returns Corruption exactly when `rm_node` is
already checked out, and then changes nothing; otherwise it returns OK and
records `rm_node` as holding the reader handed out, which is the first vacant
reader (removed from the vacant list) or, when none is vacant, a newly
constructed one. -/
theorem FetchBinlogReader_spec (m : BinlogReaderManager) (rm_node : RmNode) :
    ((m.FetchBinlogReader rm_node).1 = Status.Corruption ↔
        ∃ e ∈ m.occupied_, e.1.sameKey rm_node = true) ∧
      ((∃ e ∈ m.occupied_, e.1.sameKey rm_node = true) →
        m.FetchBinlogReader rm_node = (Status.Corruption, none, m)) ∧
      ((¬ ∃ e ∈ m.occupied_, e.1.sameKey rm_node = true) → m.vacant_ = [] →
        m.FetchBinlogReader rm_node =
          (Status.OK, some m.constructed,
            { m with occupied_ := (rm_node, m.constructed) :: m.occupied_
                     constructed := m.constructed + 1 })) ∧
      ((¬ ∃ e ∈ m.occupied_, e.1.sameKey rm_node = true) →
        ∀ (reader : Nat) (rest : List Nat), m.vacant_ = reader :: rest →
        m.FetchBinlogReader rm_node =
          (Status.OK, some reader,
            { m with occupied_ := (rm_node, reader) :: m.occupied_, vacant_ := rest })) := by
  have hyes : (∃ e ∈ m.occupied_, e.1.sameKey rm_node = true) →
      m.FetchBinlogReader rm_node = (Status.Corruption, none, m) := by
    intro h
    unfold BinlogReaderManager.FetchBinlogReader
    rw [if_pos ((find?_isSome_iff_checked_out m rm_node).2 h)]
  have hno1 : (¬ ∃ e ∈ m.occupied_, e.1.sameKey rm_node = true) → m.vacant_ = [] →
      m.FetchBinlogReader rm_node =
        (Status.OK, some m.constructed,
          { m with occupied_ := (rm_node, m.constructed) :: m.occupied_
                   constructed := m.constructed + 1 }) := by
    intro h hv
    unfold BinlogReaderManager.FetchBinlogReader
    rw [if_neg (fun hc => h ((find?_isSome_iff_checked_out m rm_node).1 hc)), hv]
  have hno2 : (¬ ∃ e ∈ m.occupied_, e.1.sameKey rm_node = true) →
      ∀ (reader : Nat) (rest : List Nat), m.vacant_ = reader :: rest →
      m.FetchBinlogReader rm_node =
        (Status.OK, some reader,
          { m with occupied_ := (rm_node, reader) :: m.occupied_, vacant_ := rest }) := by
    intro h reader rest hv
    unfold BinlogReaderManager.FetchBinlogReader
    rw [if_neg (fun hc => h ((find?_isSome_iff_checked_out m rm_node).1 hc)), hv]
  refine ⟨⟨?_, fun h => by rw [hyes h]⟩, hyes, hno1, hno2⟩
  intro hc
  by_cases h : ∃ e ∈ m.occupied_, e.1.sameKey rm_node = true
  · exact h
  · exfalso
    cases hv : m.vacant_ with
    | nil => rw [hno1 h hv] at hc; exact absurd hc (by simp)
    | cons reader rest => rw [hno2 h reader rest hv] at hc; exact absurd hc (by simp)

/-- Witness for C29: in the sample pool node `10.0.0.2:2` is checked out, so a
second fetch for it returns Corruption and changes nothing. -/
theorem FetchBinlogReader_spec_witness :
    samplePool.FetchBinlogReader { ip_ := "10.0.0.2", port_ := 2 } =
      (Status.Corruption, none, samplePool) :=
  (FetchBinlogReader_spec samplePool { ip_ := "10.0.0.2", port_ := 2 }).2.1
    ⟨({ ip_ := "10.0.0.2", port_ := 2 }, 1), by decide, by decide⟩

/-- C30: `ReleaseBinlogReader(rm_node)` returns NotFound and changes nothing when
`rm_node` is not checked out; otherwise it returns OK, drops the checkout of
`rm_node` and appends the reader it held to the vacant list; a second release of
the same key right after a successful one returns NotFound and changes nothing. -/
theorem ReleaseBinlogReader_spec (m : BinlogReaderManager) (rm_node : RmNode) :
    ((¬ ∃ e ∈ m.occupied_, e.1.sameKey rm_node = true) →
        m.ReleaseBinlogReader rm_node = (Status.NotFound, m)) ∧
      (∀ e : RmNode × Nat, m.occupied_.find? (fun x => x.1.sameKey rm_node) = some e →
        e ∈ m.occupied_ ∧ e.1.sameKey rm_node = true ∧
        m.ReleaseBinlogReader rm_node =
          (Status.OK,
            { m with occupied_ := m.occupied_.filter (fun x => ¬ x.1.sameKey rm_node)
                     vacant_ := m.vacant_ ++ [e.2] })) ∧
      ((∃ e ∈ m.occupied_, e.1.sameKey rm_node = true) →
        (m.ReleaseBinlogReader rm_node).1 = Status.OK ∧
        (m.ReleaseBinlogReader rm_node).2.ReleaseBinlogReader rm_node =
          (Status.NotFound, (m.ReleaseBinlogReader rm_node).2)) := by
  have hnone : ∀ q : BinlogReaderManager, (¬ ∃ e ∈ q.occupied_, e.1.sameKey rm_node = true) →
      q.ReleaseBinlogReader rm_node = (Status.NotFound, q) := by
    intro q h
    have hf : q.occupied_.find? (fun x => x.1.sameKey rm_node) = none := by
      rw [List.find?_eq_none]
      intro x hx hk
      exact h ⟨x, hx, hk⟩
    unfold BinlogReaderManager.ReleaseBinlogReader
    rw [hf]
  have hsome : ∀ e : RmNode × Nat, m.occupied_.find? (fun x => x.1.sameKey rm_node) = some e →
      m.ReleaseBinlogReader rm_node =
        (Status.OK,
          { m with occupied_ := m.occupied_.filter (fun x => ¬ x.1.sameKey rm_node)
                   vacant_ := m.vacant_ ++ [e.2] }) := by
    intro e hf
    unfold BinlogReaderManager.ReleaseBinlogReader
    rw [hf]
  refine ⟨hnone m, ?_, ?_⟩
  · intro e hf
    exact ⟨List.mem_of_find?_eq_some hf, by simpa using List.find?_some hf, hsome e hf⟩
  · intro hex
    have hsomeF : (m.occupied_.find? (fun x => x.1.sameKey rm_node)).isSome = true :=
      (find?_isSome_iff_checked_out m rm_node).2 hex
    cases hf : m.occupied_.find? (fun x => x.1.sameKey rm_node) with
    | none => rw [hf] at hsomeF; exact absurd hsomeF (by simp)
    | some e =>
      rw [hsome e hf]
      refine ⟨rfl, ?_⟩
      apply hnone
      rintro ⟨x, hx, hk⟩
      have := (List.mem_filter.1 hx).2
      simp [hk] at this

/-- Witness for C30: releasing node `10.0.0.2:2` of the sample pool succeeds, and
releasing it again returns NotFound. -/
theorem ReleaseBinlogReader_spec_witness :
    (samplePool.ReleaseBinlogReader { ip_ := "10.0.0.2", port_ := 2 }).1 = Status.OK ∧
      (samplePool.ReleaseBinlogReader { ip_ := "10.0.0.2", port_ := 2 }).2.ReleaseBinlogReader
          { ip_ := "10.0.0.2", port_ := 2 } =
        (Status.NotFound,
          (samplePool.ReleaseBinlogReader { ip_ := "10.0.0.2", port_ := 2 }).2) :=
  (ReleaseBinlogReader_spec samplePool { ip_ := "10.0.0.2", port_ := 2 }).2.2
    ⟨({ ip_ := "10.0.0.2", port_ := 2 }, 1), by decide, by decide⟩

/-! ## Acknowledgements on the master, and streaming of the binlog -/

/-- `GetSlaveNode` finds nothing exactly when no slave is at the endpoint. -/
theorem GetSlaveNode_none_iff (slaves_ : List SlaveNode) (ip : String) (port : Int) :
    GetSlaveNode slaves_ ip port = none ↔ ∀ x ∈ slaves_, x.isAt ip port = false := by
  unfold GetSlaveNode
  simp [List.find?_eq_none]

/-- `GetSlaveNode` delivers the first slave at the endpoint. -/
theorem GetSlaveNode_split (pre post : List SlaveNode) (s : SlaveNode) (ip : String)
    (port : Int) (hpre : ∀ x ∈ pre, x.isAt ip port = false) (hs : s.isAt ip port = true) :
    GetSlaveNode (pre ++ s :: post) ip port = some s := by
  unfold GetSlaveNode
  induction pre with
  | nil => simp [List.find?, hs]
  | cons x rest ih =>
    have hx : x.isAt ip port = false := hpre x (by simp)
    simp only [List.cons_append, List.find?, hx]
    exact ih (fun y hy => hpre y (by simp [hy]))

/-- A write through the pointer of `GetSlaveNode` changes that slave only. -/
theorem modifySlave_split (pre post : List SlaveNode) (s : SlaveNode) (ip : String)
    (port : Int) (f : SlaveNode → SlaveNode)
    (hpre : ∀ x ∈ pre, x.isAt ip port = false) (hs : s.isAt ip port = true) :
    modifySlave ip port f (pre ++ s :: post) = pre ++ f s :: post := by
  induction pre with
  | nil => simp [modifySlave, hs]
  | cons x rest ih =>
    have hx : x.isAt ip port = false := hpre x (by simp)
    simp only [List.cons_append, modifySlave, hx, Bool.false_eq_true, if_false]
    exact congrArg (List.cons x) (ih (fun y hy => hpre y (by simp [hy])))

/-- A slave found by `GetSlaveNode` splits the list at its first entry at the
endpoint. -/
theorem GetSlaveNode_some (slaves_ : List SlaveNode) (ip : String) (port : Int)
    (s : SlaveNode) (h : GetSlaveNode slaves_ ip port = some s) :
    ∃ pre post, slaves_ = pre ++ s :: post ∧ (∀ x ∈ pre, x.isAt ip port = false) ∧
      s.isAt ip port = true := by
  unfold GetSlaveNode at h
  rcases List.find?_eq_some.1 h with ⟨hs, pre, post, heq, hpre⟩
  refine ⟨pre, post, heq, ?_, hs⟩
  intro x hx
  simpa using hpre x hx

/-- `SyncWindow::Update` fails and changes nothing when `start` is nowhere in
the window, and when `end` is nowhere in the window. -/
theorem Update_not_located (w : SyncWindow) (s e : SyncWinItem) (a : BinlogOffset)
    (h : (∀ y ∈ w.win_, y.opEq s = false) ∨ (∀ y ∈ w.win_, y.opEq e = false)) :
    w.Update s e a = (false, w, a) := by
  by_cases he : ∃ y ∈ w.win_, y.opEq e = true
  · rcases h with hs | hn
    · rcases exists_first_end w.win_ e he with ⟨j, x, hj, hx, hfirst⟩
      exact Update_no_start w s e a j x hj hx hfirst
        (fun i y _ hy => hs y (List.getElem?_mem hy))
    · rcases he with ⟨y, hy, hye⟩
      rw [hn y hy] at hye
      exact absurd hye (by simp)
  · apply Update_no_end
    intro y hy
    cases hc : y.opEq e
    · rfl
    · exact absurd ⟨y, hy, hc⟩ he

/-- C21: `UpdateSlaveBinlogAckInfo(ip, port, start, end)` returns NotFound and
changes nothing when no slave is at the endpoint. Otherwise, for the first slave
at the endpoint: it returns Corruption and changes nothing when the slave is not
in state BinlogSync, and when `SyncWindow::Update` fails, which it does in
particular when `start` or `end` is nowhere in the window; in every other case
it returns OK, and that slave's window and acked offset become those produced by
`SyncWindow::Update(start, end)`, every other slave staying as it was. -/
theorem UpdateSlaveBinlogAckInfo_spec (m : SyncMasterPartition) (ip : String) (port : Int)
    (start_offset end_offset : BinlogOffset) :
    ((∀ x ∈ m.slaves_, x.isAt ip port = false) →
        m.UpdateSlaveBinlogAckInfo ip port start_offset end_offset = (Status.NotFound, m)) ∧
    (∀ (pre post : List SlaveNode) (s : SlaveNode), m.slaves_ = pre ++ s :: post →
      (∀ x ∈ pre, x.isAt ip port = false) → s.isAt ip port = true →
      (s.slave_state ≠ SlaveState.kSlaveBinlogSync →
        m.UpdateSlaveBinlogAckInfo ip port start_offset end_offset = (Status.Corruption, m)) ∧
      (s.slave_state = SlaveState.kSlaveBinlogSync →
        (s.sync_win.Update (SyncWinItem.ofOffset start_offset)
          (SyncWinItem.ofOffset end_offset) s.acked_offset).1 = false →
        m.UpdateSlaveBinlogAckInfo ip port start_offset end_offset = (Status.Corruption, m)) ∧
      (s.slave_state = SlaveState.kSlaveBinlogSync →
        ((∀ y ∈ s.sync_win.win_, y.opEq (SyncWinItem.ofOffset start_offset) = false) ∨
          (∀ y ∈ s.sync_win.win_, y.opEq (SyncWinItem.ofOffset end_offset) = false)) →
        m.UpdateSlaveBinlogAckInfo ip port start_offset end_offset = (Status.Corruption, m)) ∧
      (s.slave_state = SlaveState.kSlaveBinlogSync →
        (s.sync_win.Update (SyncWinItem.ofOffset start_offset)
          (SyncWinItem.ofOffset end_offset) s.acked_offset).1 = true →
        m.UpdateSlaveBinlogAckInfo ip port start_offset end_offset =
          (Status.OK,
            { m with slaves_ := pre ++
              { s with
                sync_win := (s.sync_win.Update (SyncWinItem.ofOffset start_offset)
                  (SyncWinItem.ofOffset end_offset) s.acked_offset).2.1
                acked_offset := (s.sync_win.Update (SyncWinItem.ofOffset start_offset)
                  (SyncWinItem.ofOffset end_offset) s.acked_offset).2.2 } :: post }))) := by
  constructor
  · intro hnone
    unfold SyncMasterPartition.UpdateSlaveBinlogAckInfo
    rw [(GetSlaveNode_none_iff m.slaves_ ip port).2 hnone]
  · intro pre post s hsplit hpre hs
    have hget : GetSlaveNode m.slaves_ ip port = some s := by
      rw [hsplit]; exact GetSlaveNode_split pre post s ip port hpre hs
    have hfail : s.slave_state = SlaveState.kSlaveBinlogSync →
        (s.sync_win.Update (SyncWinItem.ofOffset start_offset)
          (SyncWinItem.ofOffset end_offset) s.acked_offset).1 = false →
        m.UpdateSlaveBinlogAckInfo ip port start_offset end_offset = (Status.Corruption, m) := by
      intro hst hup
      unfold SyncMasterPartition.UpdateSlaveBinlogAckInfo
      rw [hget]
      simp only [hst, ne_eq, not_true_eq_false, if_false, hup, Bool.false_eq_true,
        not_false_eq_true, if_true]
    refine ⟨?_, hfail, ?_, ?_⟩
    · intro hst
      unfold SyncMasterPartition.UpdateSlaveBinlogAckInfo
      rw [hget]
      simp only [ne_eq, hst, not_false_eq_true, if_true]
    · intro hst hno
      apply hfail hst
      rw [Update_not_located _ _ _ _ hno]
    · intro hst hup
      unfold SyncMasterPartition.UpdateSlaveBinlogAckInfo
      rw [hget]
      simp only [hst, ne_eq, not_true_eq_false, if_false, hup, not_true_eq_false]
      rw [hsplit, modifySlave_split pre post s ip port _ hpre hs, hst]

/-- Witness for C21: with slaves `a:1` (not syncing) and `b:2` (BinlogSync, window
`(1,10), (1,20)`), the acknowledgement `(1,10)..(1,10)` for `b:2` is accepted,
pops the first item and moves the acked offset to `(1,10)`. -/
theorem UpdateSlaveBinlogAckInfo_spec_witness :
    ({ slaves_ := [{ ip_ := "a", port_ := 1 },
        { ip_ := "b", port_ := 2, slave_state := SlaveState.kSlaveBinlogSync,
          sync_win := ⟨[⟨⟨1, 10⟩, false⟩, ⟨⟨1, 20⟩, false⟩]⟩,
          sent_offset := ⟨1, 20⟩ }] } : SyncMasterPartition).UpdateSlaveBinlogAckInfo
        "b" 2 ⟨1, 10⟩ ⟨1, 10⟩ =
      (Status.OK,
        { slaves_ := [{ ip_ := "a", port_ := 1 },
          { ip_ := "b", port_ := 2, slave_state := SlaveState.kSlaveBinlogSync,
            sync_win := ⟨[⟨⟨1, 20⟩, false⟩]⟩,
            sent_offset := ⟨1, 20⟩, acked_offset := ⟨1, 10⟩ }] }) := by
  have h := ((UpdateSlaveBinlogAckInfo_spec
    ({ slaves_ := [{ ip_ := "a", port_ := 1 },
        { ip_ := "b", port_ := 2, slave_state := SlaveState.kSlaveBinlogSync,
          sync_win := ⟨[⟨⟨1, 10⟩, false⟩, ⟨⟨1, 20⟩, false⟩]⟩,
          sent_offset := ⟨1, 20⟩ }] } : SyncMasterPartition)
    "b" 2 ⟨1, 10⟩ ⟨1, 10⟩).2 [{ ip_ := "a", port_ := 1 }] []
    { ip_ := "b", port_ := 2, slave_state := SlaveState.kSlaveBinlogSync,
      sync_win := ⟨[⟨⟨1, 10⟩, false⟩, ⟨⟨1, 20⟩, false⟩]⟩,
      sent_offset := ⟨1, 20⟩ } rfl (by decide) (by decide)).2.2.2 rfl (by decide)
  rw [h]
  decide

/-- C26: `SyncBinlogToWq` returns OK whenever a slave is at the endpoint and
NotFound otherwise, whatever the reader delivers. For a slave reading from file
whose reader delivers Corruption (or IOError) on the first `Get`,
`ReadBinlogFileToWq` returns that status but `SyncBinlogToWq` returns OK; on
EndOfFile both return OK. -/
theorem SyncBinlogToWq_drops_read_status :
    (∀ (w : MasterWorld) (sync_window_size : Int) (micros : Nat) (ip : String) (port : Int),
      (w.SyncBinlogToWq sync_window_size micros ip port).1 =
        if (GetSlaveNode w.part.slaves_ ip port).isSome then Status.OK else Status.NotFound) ∧
    (∀ slave ∈ (sampleReading GetResult.corruption).part.slaves_,
      slave.b_state = BinlogSyncState.kReadFromFile ∧
      (ReadBinlogFileToWq 9000 5 slave
        (streamOf (sampleReading GetResult.corruption).streams 0)).status =
          Status.Corruption) ∧
    ((sampleReading GetResult.corruption).SyncBinlogToWq 9000 5 "10.0.0.5" 9221).1 =
      Status.OK ∧
    (∀ slave ∈ (sampleReading GetResult.ioError).part.slaves_,
      (ReadBinlogFileToWq 9000 5 slave
        (streamOf (sampleReading GetResult.ioError).streams 0)).status = Status.IOError) ∧
    ((sampleReading GetResult.ioError).SyncBinlogToWq 9000 5 "10.0.0.5" 9221).1 =
      Status.OK ∧
    ((sampleReading GetResult.endFile).SyncBinlogToWq 9000 5 "10.0.0.5" 9221).1 =
      Status.OK := by
  refine ⟨?_, by decide, by decide, by decide, by decide, by decide⟩
  intro w sync_window_size micros ip port
  unfold MasterWorld.SyncBinlogToWq
  cases h : GetSlaveNode w.part.slaves_ ip port with
  | none => simp
  | some slave =>
    by_cases hb : slave.b_state = BinlogSyncState.kReadFromFile
    · simp [hb]
    · simp [hb]

/-- C23: with the slave `10.0.0.5:9221` timed out on receive at `now = 21 s` and
the keepalive to `10.0.0.6:9221` failing, `CheckSyncTimeout(now)` returns
Corruption and the timed-out slave is still in the list. -/
theorem CheckSyncTimeout_failed_ping_keeps_timed_out :
    (timeoutSample.slaves_.map
        (fun slave => (slave.endpoint, recvTimedOut slave.last_recv_time_ 21000000)) =
      [(("10.0.0.5", 9221), true), (("10.0.0.6", 9221), false)]) ∧
    (timeoutSample.CheckSyncTimeout (fun _ => Status.Corruption) 21000000).1 =
      Status.Corruption ∧
    (timeoutSample.CheckSyncTimeout (fun _ => Status.Corruption) 21000000).2.1.slaves_.map
        SlaveNode.endpoint = [("10.0.0.5", 9221), ("10.0.0.6", 9221)] ∧
    ((timeoutSample.CheckSyncTimeout (fun _ => Status.OK) 21000000).2.1.slaves_.map
        SlaveNode.endpoint = [("10.0.0.6", 9221)]) := by
  decide

/-- C22: a slave starts binlog sync at `(1, 0)` and is sent the records up to
`(1, 20)`; it asks for binlog sync at `(1, 0)` again, which fails with Corruption
because its reader is still checked out, after both offsets were set back to
`(1, 0)`; the acknowledgement of `(1, 10)` is then accepted, and the slave ends
with `acked_offset = (1, 10)` above `sent_offset = (1, 0)`. -/
theorem acked_beyond_sent_after_failed_activation :
    resyncActivated.1 = Status.OK ∧
    (resyncActivated.2.part.slaves_.map
        (fun slave => (slave.sent_offset, slave.acked_offset, slave.sync_win.win_)) =
      [(⟨1, 20⟩, ⟨1, 0⟩, [⟨⟨1, 10⟩, false⟩, ⟨⟨1, 20⟩, false⟩])]) ∧
    resyncAgain.1 = Status.Corruption ∧
    (resyncAgain.2.part.slaves_.map
        (fun slave => (slave.sent_offset, slave.acked_offset, slave.sync_win.win_)) =
      [(⟨1, 0⟩, ⟨1, 0⟩, [⟨⟨1, 10⟩, false⟩, ⟨⟨1, 20⟩, false⟩])]) ∧
    resyncAcked.1 = Status.OK ∧
    (resyncAcked.2.part.slaves_.map
        (fun slave => (slave.sent_offset, slave.acked_offset, slave.sync_win.win_)) =
      [(⟨1, 0⟩, ⟨1, 10⟩, [⟨⟨1, 20⟩, false⟩])]) ∧
    (∀ slave ∈ resyncAcked.2.part.slaves_, ¬ slave.acked_offset.le slave.sent_offset) := by
  decide

/-! ## The write queues -/

/-- The batch and the queue left by `takeBatch` do not depend on `counter`, which
grows by the size of the batch. -/
theorem takeBatch_counter (max_rbuf : Int) :
    ∀ (n : Nat) (batch_size : Int) (queue : List WriteTask) (counter : Nat),
      (takeBatch max_rbuf n batch_size queue counter).1 =
          (takeBatch max_rbuf n batch_size queue 0).1 ∧
        (takeBatch max_rbuf n batch_size queue counter).2.1 =
          (takeBatch max_rbuf n batch_size queue 0).2.1 ∧
        (takeBatch max_rbuf n batch_size queue counter).2.2 =
          counter + (takeBatch max_rbuf n batch_size queue 0).1.length := by
  intro n
  induction n with
  | zero =>
    intro batch_size queue counter
    simp [takeBatch]
  | succ n ih =>
    intro batch_size queue counter
    cases queue with
    | nil => simp [takeBatch]
    | cons task rest =>
      simp only [takeBatch]
      by_cases hc : toInt32 ((batch_size + (task.binlog_.utf8ByteSize : Int)) % 2 ^ 64).toNat >
          max_rbuf
      · simp only [if_pos hc, List.length_nil, Nat.add_zero, and_self]
      · simp only [if_neg hc, List.length_cons]
        have h1 := ih (toInt32 ((batch_size + (task.binlog_.utf8ByteSize : Int)) % 2 ^ 64).toNat)
          rest (counter + 1)
        have h2 := ih (toInt32 ((batch_size + (task.binlog_.utf8ByteSize : Int)) % 2 ^ 64).toNat)
          rest (0 + 1)
        refine ⟨?_, ?_, ?_⟩
        · rw [h1.1, h2.1]
        · rw [h1.2.1, h2.2.1]
        · rw [h1.2.2, h2.1]; omega

/-- The batch and the queue left by `takeBatch` make up the queue it was given,
and the batch has at most as many tasks as there were iterations. -/
theorem takeBatch_append (max_rbuf : Int) :
    ∀ (n : Nat) (batch_size : Int) (queue : List WriteTask) (counter : Nat),
      (takeBatch max_rbuf n batch_size queue counter).1 ++
          (takeBatch max_rbuf n batch_size queue counter).2.1 = queue ∧
        (takeBatch max_rbuf n batch_size queue counter).1.length ≤ n := by
  intro n
  induction n with
  | zero =>
    intro batch_size queue counter
    simp [takeBatch]
  | succ n ih =>
    intro batch_size queue counter
    cases queue with
    | nil => simp [takeBatch]
    | cons task rest =>
      simp only [takeBatch]
      by_cases hc : toInt32 ((batch_size + (task.binlog_.utf8ByteSize : Int)) % 2 ^ 64).toNat >
          max_rbuf
      · simp only [if_pos hc, List.nil_append, List.length_nil, Nat.zero_le, and_self]
      · simp only [if_neg hc, List.cons_append, List.length_cons]
        have h1 := ih (toInt32 ((batch_size + (task.binlog_.utf8ByteSize : Int)) % 2 ^ 64).toNat)
          rest (counter + 1)
        refine ⟨?_, ?_⟩
        · rw [h1.1]
        · omega

/-- Below `2^31` the conversion to `int` changes nothing. -/
theorem toInt32_small (n : Nat) (h : n < 2 ^ 31) : toInt32 n = (n : Int) := by
  unfold toInt32
  have h1 : n % 2 ^ 32 = n := Nat.mod_eq_of_lt (by omega)
  rw [h1, if_pos h]

/-- When no task of the batch is so large that `batch_size` could leave the
range of `int`, the payload of the batch, added to the `batch_size` the loop
started with, stays within `max_rbuf`. -/
theorem takeBatch_payload (max_rbuf : Int) :
    ∀ (n : Nat) (batch_size : Int) (queue : List WriteTask) (counter : Nat),
      0 ≤ batch_size → batch_size ≤ max_rbuf →
      (∀ task ∈ (takeBatch max_rbuf n batch_size queue counter).1,
        (task.binlog_.utf8ByteSize : Int) + max_rbuf < 2 ^ 31) →
      batch_size + (payloadBytes (takeBatch max_rbuf n batch_size queue counter).1 : Int) ≤
        max_rbuf := by
  intro n
  induction n with
  | zero =>
    intro batch_size queue counter h0 hm _
    simp [takeBatch, payloadBytes, hm]
  | succ n ih =>
    intro batch_size queue counter h0 hm hsz
    cases queue with
    | nil => simp [takeBatch, payloadBytes, hm]
    | cons task rest =>
      simp only [takeBatch] at hsz ⊢
      by_cases hc : toInt32 ((batch_size + (task.binlog_.utf8ByteSize : Int)) % 2 ^ 64).toNat >
          max_rbuf
      · simp only [if_pos hc, payloadBytes, List.map_nil, List.sum_nil, Nat.cast_zero, add_zero]
        exact hm
      · simp only [if_neg hc] at hsz ⊢
        have ht : (task.binlog_.utf8ByteSize : Int) + max_rbuf < 2 ^ 31 :=
          hsz task (by simp)
        have hnn : (0 : Int) ≤ (task.binlog_.utf8ByteSize : Int) := Int.ofNat_nonneg _
        have hsum : (0 : Int) ≤ batch_size + (task.binlog_.utf8ByteSize : Int) := by omega
        have hlt : batch_size + (task.binlog_.utf8ByteSize : Int) < 2 ^ 31 := by omega
        have hmod : (batch_size + (task.binlog_.utf8ByteSize : Int)) % 2 ^ 64 =
            batch_size + (task.binlog_.utf8ByteSize : Int) :=
          Int.emod_eq_of_lt hsum (by omega)
        have hnat : ((batch_size + (task.binlog_.utf8ByteSize : Int)).toNat : Int) =
            batch_size + (task.binlog_.utf8ByteSize : Int) := Int.toNat_of_nonneg hsum
        have hconv : toInt32 ((batch_size + (task.binlog_.utf8ByteSize : Int)) % 2 ^ 64).toNat =
            batch_size + (task.binlog_.utf8ByteSize : Int) := by
          rw [hmod, toInt32_small _ (by omega), hnat]
        rw [hconv] at hc hsz ⊢
        have h1 := ih (batch_size + (task.binlog_.utf8ByteSize : Int)) rest (counter + 1) hsum
          (by omega) (fun t htm => hsz t (by simp [htm]))
        have hp : (payloadBytes (task ::
            (takeBatch max_rbuf n (batch_size + (task.binlog_.utf8ByteSize : Int)) rest
              (counter + 1)).1) : Int) =
            (task.binlog_.utf8ByteSize : Int) +
              (payloadBytes (takeBatch max_rbuf n (batch_size + (task.binlog_.utf8ByteSize : Int))
                rest (counter + 1)).1 : Int) := by
          simp [payloadBytes]
        rw [hp]
        omega

/-- The batches and the queue left by `drainQueue` do not depend on `counter`,
which grows by the number of tasks in the batches. -/
theorem drainQueue_counter (max_rbuf : Int) :
    ∀ (n : Nat) (queue : List WriteTask) (counter : Nat),
      (drainQueue max_rbuf n queue counter).1 = (drainQueue max_rbuf n queue 0).1 ∧
        (drainQueue max_rbuf n queue counter).2.1 = (drainQueue max_rbuf n queue 0).2.1 ∧
        (drainQueue max_rbuf n queue counter).2.2 =
          counter + ((drainQueue max_rbuf n queue 0).1.map List.length).sum := by
  intro n
  induction n with
  | zero =>
    intro queue counter
    simp [drainQueue]
  | succ n ih =>
    intro queue counter
    by_cases hq : queue = []
    · simp [drainQueue, hq]
    · simp only [drainQueue, if_neg hq]
      have ht := takeBatch_counter max_rbuf
        (if queue.length > kBinlogSendBatchNum then kBinlogSendBatchNum else queue.length)
        0 queue counter
      have h1 := ih (takeBatch max_rbuf
        (if queue.length > kBinlogSendBatchNum then kBinlogSendBatchNum else queue.length)
        0 queue counter).2.1 (takeBatch max_rbuf
        (if queue.length > kBinlogSendBatchNum then kBinlogSendBatchNum else queue.length)
        0 queue counter).2.2
      have h2 := ih (takeBatch max_rbuf
        (if queue.length > kBinlogSendBatchNum then kBinlogSendBatchNum else queue.length)
        0 queue 0).2.1 (takeBatch max_rbuf
        (if queue.length > kBinlogSendBatchNum then kBinlogSendBatchNum else queue.length)
        0 queue 0).2.2
      rw [ht.2.1] at h1
      rw [ht.1, ht.2.1, h1.1, h1.2.1, h1.2.2, h2.1, h2.2.1, ht.2.2]
      refine ⟨rfl, rfl, ?_⟩
      by_cases hb : (takeBatch max_rbuf
          (if queue.length > kBinlogSendBatchNum then kBinlogSendBatchNum else queue.length)
          0 queue 0).1 = []
      · rw [if_pos hb, hb, List.length_nil, Nat.add_zero]
      · rw [if_neg hb, List.map_cons, List.sum_cons]
        omega

/-- What `drainQueue` forms: at most as many batches as there were passes, each
of them non-empty, of at most `kBinlogSendBatchNum` tasks and, when none of its
tasks is so large that `batch_size` could leave the range of `int`, of a payload
within `max_rbuf`; and the tasks of the batches together with the tasks left
are as many as the queue had. -/
theorem drainQueue_batches (max_rbuf : Int) :
    ∀ (n : Nat) (queue : List WriteTask) (counter : Nat),
      (drainQueue max_rbuf n queue counter).1.length ≤ n ∧
        (∀ batch ∈ (drainQueue max_rbuf n queue counter).1,
          batch ≠ [] ∧ batch.length ≤ kBinlogSendBatchNum ∧
          (0 ≤ max_rbuf →
            (∀ task ∈ batch, (task.binlog_.utf8ByteSize : Int) + max_rbuf < 2 ^ 31) →
            (payloadBytes batch : Int) ≤ max_rbuf)) ∧
        queue.length = ((drainQueue max_rbuf n queue counter).1.map List.length).sum +
          (drainQueue max_rbuf n queue counter).2.1.length := by
  intro n
  induction n with
  | zero =>
    intro queue counter
    simp [drainQueue]
  | succ n ih =>
    intro queue counter
    by_cases hq : queue = []
    · simp [drainQueue, hq]
    · simp only [drainQueue, if_neg hq]
      have ha := takeBatch_append max_rbuf
        (if queue.length > kBinlogSendBatchNum then kBinlogSendBatchNum else queue.length)
        0 queue counter
      have hp := takeBatch_payload max_rbuf
        (if queue.length > kBinlogSendBatchNum then kBinlogSendBatchNum else queue.length)
        0 queue counter
      have h1 := ih (takeBatch max_rbuf
        (if queue.length > kBinlogSendBatchNum then kBinlogSendBatchNum else queue.length)
        0 queue counter).2.1 (takeBatch max_rbuf
        (if queue.length > kBinlogSendBatchNum then kBinlogSendBatchNum else queue.length)
        0 queue counter).2.2
      have hk : (if queue.length > kBinlogSendBatchNum then kBinlogSendBatchNum
          else queue.length) ≤ kBinlogSendBatchNum := by
        by_cases hl : queue.length > kBinlogSendBatchNum
        · rw [if_pos hl]
        · rw [if_neg hl]; omega
      have hlen : queue.length =
          (takeBatch max_rbuf
            (if queue.length > kBinlogSendBatchNum then kBinlogSendBatchNum else queue.length)
            0 queue counter).1.length +
          (takeBatch max_rbuf
            (if queue.length > kBinlogSendBatchNum then kBinlogSendBatchNum else queue.length)
            0 queue counter).2.1.length := by
        rw [← List.length_append, ha.1]
      by_cases hb : (takeBatch max_rbuf
          (if queue.length > kBinlogSendBatchNum then kBinlogSendBatchNum else queue.length)
          0 queue counter).1 = []
      · simp only [if_pos hb]
        refine ⟨by omega, h1.2.1, ?_⟩
        rw [hb, List.length_nil, Nat.zero_add] at hlen
        exact hlen.trans h1.2.2
      · simp only [if_neg hb, List.length_cons, List.map_cons, List.sum_cons]
        refine ⟨by omega, ?_, by omega⟩
        intro batch hbm
        rcases List.mem_cons.1 hbm with heq | hin
        · subst heq
          refine ⟨hb, by omega, ?_⟩
          intro hmax hsz
          have := hp (le_refl 0) hmax hsz
          omega
        · exact h1.2.1 batch hin

/-- What `drainAll` leaves, queue by queue. -/
theorem drainAll_eq (max_rbuf : Int) :
    ∀ (queues : List (String × List WriteTask)) (counter : Nat),
      (drainAll max_rbuf queues counter).1 =
          queues.filterMap (fun q =>
            if (drainQueue max_rbuf kBinlogSendPacketNum q.2 0).1 = [] then none
            else some (q.1, (drainQueue max_rbuf kBinlogSendPacketNum q.2 0).1)) ∧
        (drainAll max_rbuf queues counter).2.1 =
          queues.map (fun q => (q.1, (drainQueue max_rbuf kBinlogSendPacketNum q.2 0).2.1)) ∧
        (drainAll max_rbuf queues counter).2.2 =
          counter + (queues.map (fun q =>
            ((drainQueue max_rbuf kBinlogSendPacketNum q.2 0).1.map List.length).sum)).sum := by
  intro queues
  induction queues with
  | nil =>
    intro counter
    simp [drainAll]
  | cons q rest ih =>
    intro counter
    have hd := drainQueue_counter max_rbuf kBinlogSendPacketNum q.2 counter
    have h1 := ih (drainQueue max_rbuf kBinlogSendPacketNum q.2 counter).2.2
    simp only [drainAll, List.filterMap_cons, List.map_cons, List.sum_cons]
    rw [hd.1, hd.2.1, h1.1, h1.2.1, h1.2.2, hd.2.2]
    refine ⟨?_, rfl, by omega⟩
    by_cases he : (drainQueue max_rbuf kBinlogSendPacketNum q.2 0).1 = []
    · simp only [if_pos he]
    · simp only [if_neg he]

/-- The tasks in the batches of `to_send_map` are those counted queue by queue. -/
theorem sum_batches_filterMap (max_rbuf : Int) (queues : List (String × List WriteTask)) :
    ((queues.filterMap (fun q =>
        if (drainQueue max_rbuf kBinlogSendPacketNum q.2 0).1 = [] then none
        else some (q.1, (drainQueue max_rbuf kBinlogSendPacketNum q.2 0).1))).map
      (fun e => (e.2.map List.length).sum)).sum =
    (queues.map (fun q =>
      ((drainQueue max_rbuf kBinlogSendPacketNum q.2 0).1.map List.length).sum)).sum := by
  induction queues with
  | nil => simp
  | cons q rest ih =>
    simp only [List.filterMap_cons, List.map_cons, List.sum_cons]
    by_cases he : (drainQueue max_rbuf kBinlogSendPacketNum q.2 0).1 = []
    · simp only [if_pos he]
      rw [ih, he]
      simp
    · simp only [if_neg he, List.map_cons, List.sum_cons]
      rw [ih]

/-- Draining moves tasks from the queues into batches: none appears or
disappears. -/
theorem totalTasks_drained (max_rbuf : Int) (queues : List (String × List WriteTask)) :
    totalTasks queues =
      (queues.map (fun q =>
        ((drainQueue max_rbuf kBinlogSendPacketNum q.2 0).1.map List.length).sum)).sum +
      totalTasks (queues.map
        (fun q => (q.1, (drainQueue max_rbuf kBinlogSendPacketNum q.2 0).2.1))) := by
  induction queues with
  | nil => simp [totalTasks]
  | cons q rest ih =>
    have hb := (drainQueue_batches max_rbuf kBinlogSendPacketNum q.2 0).2.2
    simp only [totalTasks, List.map_cons, List.sum_cons] at ih ⊢
    omega

/-- The tasks of a list of queues split into those of the queues with a property
and those of the others. -/
theorem totalTasks_filter (queues : List (String × List WriteTask))
    (p p2 : String × List WriteTask → Bool) (hp2 : ∀ q, p2 q = !p q) :
    totalTasks queues = totalTasks (queues.filter p) + totalTasks (queues.filter p2) := by
  induction queues with
  | nil => simp [totalTasks]
  | cons q rest ih =>
    simp only [totalTasks] at ih ⊢
    cases hp : p q
    · have h2 : p2 q = true := by rw [hp2, hp]; rfl
      simp only [List.filter_cons, hp, h2, Bool.false_eq_true, if_false, if_true, List.map_cons,
        List.sum_cons]
      omega
    · have h2 : p2 q = false := by rw [hp2, hp]; rfl
      simp only [List.filter_cons, hp, h2, Bool.false_eq_true, if_false, if_true, List.map_cons,
        List.sum_cons]
      omega

/-- The keys of `to_send_map` are keys of the write queues, in their order. -/
theorem to_send_map_keys (max_rbuf : Int) (queues : List (String × List WriteTask)) :
    List.Sublist
      ((queues.filterMap (fun q =>
        if (drainQueue max_rbuf kBinlogSendPacketNum q.2 0).1 = [] then none
        else some (q.1, (drainQueue max_rbuf kBinlogSendPacketNum q.2 0).1))).map Prod.fst)
      (queues.map Prod.fst) := by
  induction queues with
  | nil => simp
  | cons q rest ih =>
    simp only [List.filterMap_cons, List.map_cons]
    by_cases he : (drainQueue max_rbuf kBinlogSendPacketNum q.2 0).1 = []
    · simp only [if_pos he]
      exact List.Sublist.cons _ ih
    · simp only [if_neg he, List.map_cons]
      exact List.Sublist.cons₂ _ ih

/-- An entry of `to_send_map` holds the batches formed from one of the queues. -/
theorem mem_to_send_map (max_rbuf : Int) (queues : List (String × List WriteTask))
    (e : String × List (List WriteTask)) :
    e ∈ queues.filterMap (fun q =>
        if (drainQueue max_rbuf kBinlogSendPacketNum q.2 0).1 = [] then none
        else some (q.1, (drainQueue max_rbuf kBinlogSendPacketNum q.2 0).1)) ↔
      ∃ q ∈ queues, (drainQueue max_rbuf kBinlogSendPacketNum q.2 0).1 ≠ [] ∧
        e = (q.1, (drainQueue max_rbuf kBinlogSendPacketNum q.2 0).1) := by
  rw [List.mem_filterMap]
  constructor
  · rintro ⟨q, hq, hf⟩
    by_cases he : (drainQueue max_rbuf kBinlogSendPacketNum q.2 0).1 = []
    · rw [if_pos he] at hf
      exact absurd hf (by simp)
    · rw [if_neg he] at hf
      exact ⟨q, hq, he, (Option.some.inj hf).symm⟩
  · rintro ⟨q, hq, he, heq⟩
    refine ⟨q, hq, ?_⟩
    rw [if_neg he, heq]

/-- Counterexample to C24 as stated: a queue of 4001 tasks of 7 bytes each is
drained of 40 batches of 100 (700 bytes a batch, the limit being taken as
`2^29`), the first send fails, and the queue is erased with the task still in
it: 4001 tasks have left the queues and 4000 is returned. -/
theorem ConsumeWriteQueue_counter_counterexample :
    totalTasks longQueue = 4001 ∧
    (ConsumeWriteQueue 536870912 sampleParse (fun _ _ _ _ => Status.Corruption)
      longQueue).write_queues_ = [] ∧
    (ConsumeWriteQueue 536870912 sampleParse (fun _ _ _ _ => Status.Corruption)
      longQueue).counter = 4000 := by
  decide!

/-- C24 (amended): in one `ConsumeWriteQueue` call, with `max_rbuf` the
non-negative value of `PIKA_MAX_CONN_RBUF_HB`, every peer gets at most one entry
of batches, of at most 40 batches, each non-empty, of at most 100 tasks, and of
a payload of at most `max_rbuf` bytes provided no task of the batch is so large
that the `int` sum could wrap (`size + max_rbuf < 2^31`). The value returned is
the number of tasks moved into batches; the tasks that were in the queues before
the call are these, those left in the queues erased after a failed send (which
are not counted), and those still queued. -/
theorem ConsumeWriteQueue_batches (max_rbuf : Int) (parse : String → Option (String × Int))
    (send : String → Int → Nat → List WriteTask → Status)
    (write_queues_ : List (String × List WriteTask)) (hmax : 0 ≤ max_rbuf) :
    (∀ e ∈ (ConsumeWriteQueue max_rbuf parse send write_queues_).to_send_map,
      e.2.length ≤ 40 ∧
      ∀ batch ∈ e.2, batch ≠ [] ∧ batch.length ≤ 100 ∧
        ((∀ task ∈ batch, (task.binlog_.utf8ByteSize : Int) + max_rbuf < 2 ^ 31) →
          (payloadBytes batch : Int) ≤ max_rbuf)) ∧
    List.Sublist
      ((ConsumeWriteQueue max_rbuf parse send write_queues_).to_send_map.map Prod.fst)
      (write_queues_.map Prod.fst) ∧
    (ConsumeWriteQueue max_rbuf parse send write_queues_).counter =
      ((ConsumeWriteQueue max_rbuf parse send write_queues_).to_send_map.map
        (fun e => (e.2.map List.length).sum)).sum ∧
    totalTasks write_queues_ =
      (ConsumeWriteQueue max_rbuf parse send write_queues_).counter +
        totalTasks ((drainAll max_rbuf write_queues_ 0).2.1.filter (fun q =>
          q.1 ∈ (ConsumeWriteQueue max_rbuf parse send write_queues_).to_delete)) +
        totalTasks (ConsumeWriteQueue max_rbuf parse send write_queues_).write_queues_ := by
  obtain ⟨h1, h2, h3⟩ := drainAll_eq max_rbuf write_queues_ 0
  unfold ConsumeWriteQueue
  simp only []
  refine ⟨?_, ?_, ?_, ?_⟩
  · intro e he
    rw [h1] at he
    rcases (mem_to_send_map max_rbuf write_queues_ e).1 he with ⟨q, _, _, heq⟩
    have hb := drainQueue_batches max_rbuf kBinlogSendPacketNum q.2 0
    rw [heq]
    refine ⟨hb.1, ?_⟩
    intro batch hbm
    have h := hb.2.1 batch hbm
    exact ⟨h.1, h.2.1, h.2.2 hmax⟩
  · rw [h1]
    exact to_send_map_keys max_rbuf write_queues_
  · rw [h3, h1, sum_batches_filterMap]
    omega
  · rw [h3]
    have ht := totalTasks_drained max_rbuf write_queues_
    rw [← h2] at ht
    have hf := totalTasks_filter (drainAll max_rbuf write_queues_ 0).2.1
      (fun q => decide (q.1 ∈ sendAll parse send (drainAll max_rbuf write_queues_ 0).1))
      (fun q => decide (q.1 ∉ sendAll parse send (drainAll max_rbuf write_queues_ 0).1))
      (by intro q; simp)
    omega

/-- Witness for C24 (amended): two queues of three and of one small tasks, every
send succeeding. -/
theorem ConsumeWriteQueue_batches_witness :
    (0 : Int) ≤ 536870912 ∧
    (ConsumeWriteQueue 536870912 sampleParse (fun _ _ _ _ => Status.OK)
      sampleQueues).counter = 4 ∧
    (ConsumeWriteQueue 536870912 sampleParse (fun _ _ _ _ => Status.OK) sampleQueues).counter =
      ((ConsumeWriteQueue 536870912 sampleParse (fun _ _ _ _ => Status.OK)
        sampleQueues).to_send_map.map (fun e => (e.2.map List.length).sum)).sum :=
  ⟨by decide, by decide,
    (ConsumeWriteQueue_batches 536870912 sampleParse (fun _ _ _ _ => Status.OK) sampleQueues
      (by decide)).2.2.1⟩

/-- A key is noted by `sendBatches` exactly when it is the key of the peer and
the send of one of the batches failed. -/
theorem mem_sendBatches (send : String → Int → Nat → List WriteTask → Status)
    (key ip : String) (port : Int) :
    ∀ (batches : List (List WriteTask)) (i0 : Nat) (k : String),
      k ∈ sendBatches send key ip port i0 batches ↔
        k = key ∧ ∃ (j : Nat) (b : List WriteTask),
          batches[j]? = some b ∧ (send ip port (i0 + j) b).ok = false := by
  intro batches
  induction batches with
  | nil =>
    intro i0 k
    simp [sendBatches]
  | cons b0 rest ih =>
    intro i0 k
    have hrest := ih (i0 + 1) k
    constructor
    · intro hk
      simp only [sendBatches] at hk
      by_cases hs : (send ip port i0 b0).ok = true
      · rw [if_neg (by simp [hs])] at hk
        rcases hrest.1 hk with ⟨h1, j, b, hj, hf⟩
        refine ⟨h1, j + 1, b, by simpa using hj, ?_⟩
        rw [← hf]
        congr 2
        omega
      · rw [if_pos (by simp [hs])] at hk
        rcases List.mem_cons.1 hk with h1 | h1
        · exact ⟨h1, 0, b0, by simp, by simpa using hs⟩
        · rcases hrest.1 h1 with ⟨h2, j, b, hj, hf⟩
          refine ⟨h2, j + 1, b, by simpa using hj, ?_⟩
          rw [← hf]
          congr 2
          omega
    · rintro ⟨h1, j, b, hj, hf⟩
      simp only [sendBatches]
      cases j with
      | zero =>
        simp only [List.getElem?_cons_zero, Option.some.injEq] at hj
        subst hj
        rw [Nat.add_zero] at hf
        rw [if_pos (by simp [hf])]
        exact List.mem_cons.2 (Or.inl h1)
      | succ j =>
        have hj2 : rest[j]? = some b := by simpa using hj
        have hin : k ∈ sendBatches send key ip port (i0 + 1) rest := by
          apply hrest.2
          refine ⟨h1, j, b, hj2, ?_⟩
          rw [← hf]
          congr 2
          omega
        by_cases hs : (send ip port i0 b0).ok = true
        · rw [if_neg (by simp [hs])]
          exact hin
        · rw [if_pos (by simp [hs])]
          exact List.mem_cons.2 (Or.inr hin)

/-- A key is in `to_delete` exactly when it has an entry in `to_send_map`, is
accepted by the parser, and the send of one of the batches of the entry failed. -/
theorem mem_sendAll (parse : String → Option (String × Int))
    (send : String → Int → Nat → List WriteTask → Status) :
    ∀ (to_send_map : List (String × List (List WriteTask))) (k : String),
      k ∈ sendAll parse send to_send_map ↔
        ∃ e ∈ to_send_map, e.1 = k ∧ ∃ (node : String × Int) (j : Nat) (b : List WriteTask),
          parse e.1 = some node ∧ e.2[j]? = some b ∧ (send node.1 node.2 j b).ok = false := by
  intro to_send_map
  induction to_send_map with
  | nil =>
    intro k
    simp [sendAll]
  | cons e rest ih =>
    intro k
    have hrest := ih k
    have hhead : ∀ (node : String × Int), parse e.1 = some node →
        (k ∈ sendBatches send e.1 node.1 node.2 0 e.2 ↔
          e.1 = k ∧ ∃ (node2 : String × Int) (j : Nat) (b : List WriteTask),
            parse e.1 = some node2 ∧ e.2[j]? = some b ∧
              (send node2.1 node2.2 j b).ok = false) := by
      intro node hnode
      rw [mem_sendBatches]
      constructor
      · rintro ⟨h1, j, b, hj, hf⟩
        rw [Nat.zero_add] at hf
        exact ⟨h1.symm, node, j, b, hnode, hj, hf⟩
      · rintro ⟨h1, node2, j, b, hn2, hj, hf⟩
        rw [hnode] at hn2
        have hnn : node = node2 := Option.some.inj hn2
        subst hnn
        refine ⟨h1.symm, j, b, hj, ?_⟩
        rw [Nat.zero_add]
        exact hf
    simp only [sendAll]
    cases hp : parse e.1 with
    | none =>
      simp only []
      rw [hrest]
      constructor
      · rintro ⟨e2, he2, h⟩
        exact ⟨e2, List.mem_cons.2 (Or.inr he2), h⟩
      · rintro ⟨e2, he2, h1, node, j, b, hn, h⟩
        rcases List.mem_cons.1 he2 with heq | hin
        · rw [heq, hp] at hn
          exact absurd hn (by simp)
        · exact ⟨e2, hin, h1, node, j, b, hn, h⟩
    | some node =>
      simp only []
      rw [List.mem_append, hrest, hhead node hp]
      constructor
      · rintro (h | ⟨e2, he2, h⟩)
        · exact ⟨e, List.mem_cons.2 (Or.inl rfl), h⟩
        · exact ⟨e2, List.mem_cons.2 (Or.inr he2), h⟩
      · rintro ⟨e2, he2, h⟩
        rcases List.mem_cons.1 he2 with heq | hin
        · left
          rw [heq] at h
          exact h
        · right
          exact ⟨e2, hin, h⟩

/-- C25: in a write-queue map (one queue per key), when the key of a peer is
accepted by the parser and `SendSlaveBinlogChips` fails for one of the batches
formed from its queue, the map has no queue under that key when
`ConsumeWriteQueue` returns; when no send for the peer fails, its queue is still
in the map and holds the tasks that draining left in it. -/
theorem ConsumeWriteQueue_failed_peer (max_rbuf : Int)
    (parse : String → Option (String × Int))
    (send : String → Int → Nat → List WriteTask → Status)
    (write_queues_ : List (String × List WriteTask))
    (hkeys : (write_queues_.map Prod.fst).Nodup)
    (q : String × List WriteTask) (hq : q ∈ write_queues_) :
    ((∃ (node : String × Int) (j : Nat) (b : List WriteTask), parse q.1 = some node ∧
        (drainQueue max_rbuf kBinlogSendPacketNum q.2 0).1[j]? = some b ∧
        (send node.1 node.2 j b).ok = false) →
      q.1 ∉ (ConsumeWriteQueue max_rbuf parse send write_queues_).write_queues_.map Prod.fst) ∧
    ((¬ ∃ (node : String × Int) (j : Nat) (b : List WriteTask), parse q.1 = some node ∧
        (drainQueue max_rbuf kBinlogSendPacketNum q.2 0).1[j]? = some b ∧
        (send node.1 node.2 j b).ok = false) →
      (q.1, (drainQueue max_rbuf kBinlogSendPacketNum q.2 0).2.1) ∈
        (ConsumeWriteQueue max_rbuf parse send write_queues_).write_queues_) := by
  obtain ⟨h1, h2, _⟩ := drainAll_eq max_rbuf write_queues_ 0
  unfold ConsumeWriteQueue
  simp only []
  constructor
  · rintro ⟨node, j, b, hn, hj, hf⟩
    have hne : (drainQueue max_rbuf kBinlogSendPacketNum q.2 0).1 ≠ [] := by
      intro he
      rw [he] at hj
      simp at hj
    have hdel : q.1 ∈ sendAll parse send (drainAll max_rbuf write_queues_ 0).1 := by
      rw [mem_sendAll, h1]
      exact ⟨(q.1, (drainQueue max_rbuf kBinlogSendPacketNum q.2 0).1),
        (mem_to_send_map max_rbuf write_queues_ _).2 ⟨q, hq, hne, rfl⟩, rfl, node, j, b, hn, hj,
        hf⟩
    intro hmem
    rcases List.mem_map.1 hmem with ⟨x, hx, hxk⟩
    have hx2 := (List.mem_filter.1 hx).2
    rw [hxk] at hx2
    simp only [decide_eq_true_eq] at hx2
    exact hx2 hdel
  · intro hno
    apply List.mem_filter.2
    constructor
    · rw [h2]
      exact List.mem_map.2 ⟨q, hq, rfl⟩
    · simp only [decide_eq_true_eq]
      intro hdel
      rw [mem_sendAll, h1] at hdel
      rcases hdel with ⟨e, he, hek, node, j, b, hn, hj, hf⟩
      rcases (mem_to_send_map max_rbuf write_queues_ e).1 he with ⟨q2, hq2, _, heq⟩
      have hk2 : q2.1 = q.1 := by
        rw [heq] at hek
        exact hek
      have hqq : q2 = q := List.inj_on_of_nodup_map hkeys hq2 hq hk2
      rw [heq, hqq] at hn hj
      exact hno ⟨node, j, b, hn, hj, hf⟩

/-- Witness for C25: of the two sample queues, every send to `10.0.0.5:9221`
fails and every send to `10.0.0.6:9221` succeeds; the first queue is gone and the
second, drained, is kept. -/
theorem ConsumeWriteQueue_failed_peer_witness :
    (sampleQueues.map Prod.fst).Nodup ∧
    (ConsumeWriteQueue 536870912 sampleParse
      (fun ip _ _ _ => if ip = "10.0.0.5" then Status.Corruption else Status.OK)
      sampleQueues).write_queues_ = [("10.0.0.6:9221", [])] ∧
    "10.0.0.5:9221" ∉ (ConsumeWriteQueue 536870912 sampleParse
      (fun ip _ _ _ => if ip = "10.0.0.5" then Status.Corruption else Status.OK)
      sampleQueues).write_queues_.map Prod.fst :=
  ⟨by decide, by decide,
    (ConsumeWriteQueue_failed_peer 536870912 sampleParse
      (fun ip _ _ _ => if ip = "10.0.0.5" then Status.Corruption else Status.OK)
      sampleQueues (by decide)
      ("10.0.0.5:9221", [sampleTask "set a 1", sampleTask "set b 2", sampleTask "set c 3"])
      (by decide)).1
      ⟨("10.0.0.5", 9221), 0,
        [sampleTask "set a 1", sampleTask "set b 2", sampleTask "set c 3"],
        by decide, by decide, by decide⟩⟩

/-! ## Removal of a slave, invalid masters, and the reset of the master -/

/-- C34: `RemoveSlaveNode(ip, port)` returns NotFound and leaves the list as it
was when no slave is at the endpoint; otherwise it returns OK and erases the
first slave at the endpoint, the others staying in their order; with one entry
per endpoint, what is left is the list without the entries at the endpoint. -/
theorem RemoveSlaveNode_spec (m : SyncMasterPartition) (ip : String) (port : Int)
    (hnd : (m.slaves_.map SlaveNode.endpoint).Nodup) :
    ((∀ x ∈ m.slaves_, x.isAt ip port = false) →
        m.RemoveSlaveNode ip port = (Status.NotFound, m)) ∧
    (∀ (pre post : List SlaveNode) (s : SlaveNode), m.slaves_ = pre ++ s :: post →
      s.isAt ip port = true →
      m.RemoveSlaveNode ip port = (Status.OK, { m with slaves_ := pre ++ post }) ∧
      (∀ x ∈ pre ++ post, x.isAt ip port = false) ∧
      pre ++ post = m.slaves_.filter (fun slave => ¬ slave.isAt ip port)) := by
  constructor
  · intro hnone
    unfold SyncMasterPartition.RemoveSlaveNode
    have hany : ¬ (m.slaves_.any (fun slave => slave.isAt ip port) = true) := by
      intro h
      rcases List.any_eq_true.1 h with ⟨x, hx, hxa⟩
      rw [hnone x hx] at hxa
      exact absurd hxa (by simp)
    rw [if_neg hany]
  · intro pre post s hsplit hs
    have hfil := eraseP_eq_filter_of_nodup ip port m.slaves_ hnd
    have hpre : ∀ x ∈ pre, x.isAt ip port = false := by
      intro x hx
      cases hxa : x.isAt ip port
      · rfl
      · exfalso
        rw [hsplit, List.map_append, List.map_cons] at hnd
        have hdis := (List.nodup_append.1 hnd).2.2
        have h1 : x.endpoint = (ip, port) := (isAt_iff x ip port).1 hxa
        have h2 : s.endpoint = (ip, port) := (isAt_iff s ip port).1 hs
        exact hdis (List.mem_map_of_mem SlaveNode.endpoint hx)
          (by rw [h1, ← h2]; exact List.mem_cons_self _ _)
    have herase : m.slaves_.eraseP (fun slave => slave.isAt ip port) = pre ++ post := by
      have he : List.eraseP (fun slave : SlaveNode => slave.isAt ip port) (s :: post) = post :=
        List.eraseP_cons_of_pos hs
      rw [hsplit, List.eraseP_append_right (s :: post) (by
        intro x hx
        simp [hpre x hx]), he]
    have hany : m.slaves_.any (fun slave => slave.isAt ip port) = true := by
      rw [hsplit]
      exact List.any_eq_true.2 ⟨s, by simp, hs⟩
    refine ⟨?_, ?_, ?_⟩
    · unfold SyncMasterPartition.RemoveSlaveNode
      rw [if_pos hany, herase]
    · intro x hx
      have hx2 : x ∈ m.slaves_.filter (fun slave => ¬ slave.isAt ip port) := by
        rw [← hfil, herase]
        exact hx
      simpa using (List.mem_filter.1 hx2).2
    · rw [← herase, hfil]

/-- Witness for C34: removing `10.0.0.5:9221` from the sample master leaves the
slave `10.0.0.6:9221`. -/
theorem RemoveSlaveNode_spec_witness :
    (sampleMaster.slaves_.map SlaveNode.endpoint).Nodup ∧
    (sampleMaster.RemoveSlaveNode "10.0.0.5" 9221).1 = Status.OK ∧
    (sampleMaster.RemoveSlaveNode "10.0.0.5" 9221).2.slaves_.map SlaveNode.endpoint =
      [("10.0.0.6", 9221)] := by
  have h := ((RemoveSlaveNode_spec sampleMaster "10.0.0.5" 9221 (by decide)).2 []
    (sampleMaster.slaves_.drop 1)
    { ip_ := "10.0.0.5", port_ := 9221, table_name_ := "db0", partition_id_ := 2,
      session_id_ := 11, last_send_time_ := 100, last_recv_time_ := 101, master_term_ := 7 }
    (by decide) (by decide)).1
  refine ⟨by decide, ?_, ?_⟩
  · rw [h]
  · rw [h]
    decide

/-- C35: `Activate(master, state, path)` with an empty master ip, a port of at
most 0 or a port of at least 65536 returns Corruption and leaves the partition
(stored master, term and state) and the files as they were. -/
theorem Activate_invalid_master (p : SyncSlavePartition) (env : Env) (micros : Nat)
    (master : RmNode) (repl_state : ReplState) (info_file_path : String)
    (h : master.ip_ = "" ∨ master.port_ ≤ 0 ∨ master.port_ ≥ 65536) :
    p.Activate env micros master repl_state info_file_path = (Status.Corruption, p, env) := by
  unfold SyncSlavePartition.Activate
  rw [if_pos h]

/-- Witness for C35: port 65536 is refused. -/
theorem Activate_invalid_master_witness :
    sampleConnected.Activate sampleEnv 2000 { ip_ := "10.0.0.2", port_ := 65536 }
      ReplState.kTryConnect "/db/term" = (Status.Corruption, sampleConnected, sampleEnv) :=
  Activate_invalid_master sampleConnected sampleEnv 2000 { ip_ := "10.0.0.2", port_ := 65536 }
    ReplState.kTryConnect "/db/term" (by decide)

/-- C40 as stated fails at the top of the `uint32_t` range: from term `2^32 - 1`
a successful `ResetMasterUnsafe` with a non-empty master leaves term 0. -/
theorem ResetMasterUnsafe_term_wraps_counterexample :
    sampleEnv.writable "/db/term" = true ∧
    (sampleTopTerm.ResetMasterUnsafe sampleEnv 2000 "/db/term").1 = Status.OK ∧
    (sampleTopTerm.ResetMasterUnsafe sampleEnv 2000 "/db/term").2.1.m_term_ = 0 ∧
    (sampleTopTerm.ResetMasterUnsafe sampleEnv 2000 "/db/term").2.1.m_term_ ≠
      sampleTopTerm.m_term_ + 1 := by
  decide

/-- C40 (amended): with a writable term file, `ResetMasterUnsafe` returns OK; with
a non-empty current master it keeps the master's ip and port, sets its session id
to 0 and raises the 32-bit term by one modulo `2^32` (so by exactly one below
`2^32 - 1`), writing the new term to the file; with an empty current master the
term and the files are left as they were. -/
theorem ResetMasterUnsafe_spec (p : SyncSlavePartition) (env : Env) (micros : Nat)
    (path : String) (hw : env.writable path = true) :
    (p.ResetMasterUnsafe env micros path).1 = Status.OK ∧
    (p.m_info_.ip_ ≠ "" →
      (p.ResetMasterUnsafe env micros path).2.1.m_info_.ip_ = p.m_info_.ip_ ∧
      (p.ResetMasterUnsafe env micros path).2.1.m_info_.port_ = p.m_info_.port_ ∧
      (p.ResetMasterUnsafe env micros path).2.1.m_info_.session_id_ = 0 ∧
      (p.ResetMasterUnsafe env micros path).2.1.m_term_ = (p.m_term_ + 1) % 2 ^ 32 ∧
      (p.m_term_ < 2 ^ 32 - 1 →
        (p.ResetMasterUnsafe env micros path).2.1.m_term_ = p.m_term_ + 1) ∧
      (p.ResetMasterUnsafe env micros path).2.2.read path =
        some (toString ((p.m_term_ + 1) % 2 ^ 32))) ∧
    (p.m_info_.ip_ = "" →
      (p.ResetMasterUnsafe env micros path).2.1.m_term_ = p.m_term_ ∧
      (p.ResetMasterUnsafe env micros path).2.1.m_info_ = { p.m_info_ with session_id_ := 0 } ∧
      (p.ResetMasterUnsafe env micros path).2.2 = env) := by
  refine ⟨?_, ?_, ?_⟩
  · unfold SyncSlavePartition.ResetMasterUnsafe
    by_cases hip : p.m_info_.ip_ = ""
    · rw [SetMasterUnsafe_empty p env micros { p.m_info_ with session_id_ := 0 } path hip]
    · exact (SetMasterUnsafe_writable p env micros { p.m_info_ with session_id_ := 0 } path
        hip hw).1
  · intro hip
    unfold SyncSlavePartition.ResetMasterUnsafe
    have h := SetMasterUnsafe_writable p env micros { p.m_info_ with session_id_ := 0 } path
      hip hw
    rw [h.2.1]
    refine ⟨rfl, rfl, rfl, rfl, ?_, h.2.2⟩
    intro hlt
    exact Nat.mod_eq_of_lt (by omega)
  · intro hip
    unfold SyncSlavePartition.ResetMasterUnsafe
    rw [SetMasterUnsafe_empty p env micros { p.m_info_ with session_id_ := 0 } path hip]
    exact ⟨rfl, rfl, rfl⟩

/-- Witness for C40 (amended): the connected sample partition, term 7, is reset
to term 8 with its master `10.0.0.1:9221` kept and the session id cleared. -/
theorem ResetMasterUnsafe_spec_witness :
    sampleEnv.writable "/db/term" = true ∧
    (sampleConnected.ResetMasterUnsafe sampleEnv 2000 "/db/term").1 = Status.OK ∧
    (sampleConnected.ResetMasterUnsafe sampleEnv 2000 "/db/term").2.1.m_term_ = 8 :=
  ⟨by decide,
    (ResetMasterUnsafe_spec sampleConnected sampleEnv 2000 "/db/term" (by decide)).1,
    ((ResetMasterUnsafe_spec sampleConnected sampleEnv 2000 "/db/term" (by decide)).2.1
      (by decide)).2.2.2.2.1 (by decide)⟩

/-! ## The pointer cache -/

/-- The constructor loop, started at index `i` on vectors whose first `i` entries
are filled, fills the `n` entries that follow. -/
theorem constructLoop_eq (this_ : Nat) :
    ∀ (n i : Nat),
      Cache.constructLoop n i
        { this_ := this_,
          m_base := List.replicate i (some this_) ++ List.replicate n none,
          m_cache := (List.range i).map some ++ List.replicate n none } =
        { this_ := this_, m_base := List.replicate (i + n) (some this_),
          m_cache := (List.range (i + n)).map some } := by
  intro n
  induction n with
  | zero =>
    intro i
    simp [Cache.constructLoop]
  | succ n ih =>
    intro i
    have h1 : List.replicate (i + 1) (some this_) = List.replicate i (some this_) ++ [some this_] :=
      List.replicate_succ' i (some this_)
    have hb : (List.replicate i (some this_) ++ List.replicate (n + 1) none).set i (some this_) =
        List.replicate (i + 1) (some this_) ++ List.replicate n none := by
      rw [List.set_append_right _ _ (by simp), h1]
      simp [List.replicate_succ]
    have hc : ((List.range i).map some ++ List.replicate (n + 1) none).set i (some i) =
        (List.range (i + 1)).map some ++ List.replicate n none := by
      rw [List.set_append_right _ _ (by simp), List.range_succ]
      simp [List.replicate_succ]
    simp only [Cache.constructLoop]
    rw [hb, hc, ih (i + 1)]
    have : i + 1 + n = i + (n + 1) := by omega
    rw [this]

/-- What the constructor builds: every element owned by the cache, and the free
list holding the addresses of the elements in their order. -/
theorem Cache_construct_eq (this_ count : Nat) :
    Cache.construct this_ count =
      { this_ := this_, m_base := List.replicate count (some this_),
        m_cache := (List.range count).map some } := by
  have h := constructLoop_eq this_ count 0
  simp only [List.replicate_zero, List.nil_append, List.range_zero, List.map_nil,
    Nat.zero_add] at h
  unfold Cache.construct
  exact h

/-- As many `get()` calls as the free list is long return its entries from the
back and leave it empty. -/
theorem getN_all :
    ∀ (n : Nat) (c : Cache), c.m_cache.length = n →
      (Cache.getN n c).1 = c.m_cache.reverse ∧
        (Cache.getN n c).2 = { c with m_cache := [] } := by
  intro n
  induction n with
  | zero =>
    intro c hc
    have hnil : c.m_cache = [] := List.length_eq_zero.1 hc
    simp only [Cache.getN, hnil, List.reverse_nil, true_and]
    cases c
    simp only [Cache.mk.injEq, true_and] at hnil ⊢
    exact hnil
  | succ n ih =>
    intro c hc
    rcases List.eq_nil_or_concat c.m_cache with hnil | ⟨init, a, hcat⟩
    · rw [hnil] at hc
      simp at hc
    · rw [List.concat_eq_append] at hcat
      have hget : c.get = (a, { c with m_cache := init }) := by
        unfold Cache.get
        rw [hcat, List.getLast?_concat, List.dropLast_concat]
      have hlen : ({ c with m_cache := init } : Cache).m_cache.length = n := by
        rw [hcat] at hc
        simp at hc
        exact hc
      have h := ih { c with m_cache := init } hlen
      simp only [Cache.getN, hget]
      rw [h.1, h.2, hcat]
      simp

/-- C36: for a cache constructed with count `n`, the first `n` calls of `get()`
return `n` pairwise distinct non-null pointers, each to an element of the cache
whose owner is the cache; the call after them returns null and leaves the cache
as it is; and in any state `put(e)` followed by `get()` returns `e` and leaves
the cache as it was before the `put`. -/
theorem Cache_get_put (this_ n : Nat) :
    (Cache.getN n (Cache.construct this_ n)).1.length = n ∧
    (Cache.getN n (Cache.construct this_ n)).1.Nodup ∧
    (∀ r ∈ (Cache.getN n (Cache.construct this_ n)).1,
      ∃ i : Nat, r = some i ∧ i < n ∧
        (Cache.construct this_ n).m_base[i]? = some (some this_)) ∧
    (Cache.getN n (Cache.construct this_ n)).2.get =
      (none, (Cache.getN n (Cache.construct this_ n)).2) ∧
    (∀ (c : Cache) (e : Option Nat), (c.put e).get = (e, c)) := by
  have hlen : (Cache.construct this_ n).m_cache.length = n := by
    rw [Cache_construct_eq]
    simp
  have hall := getN_all n (Cache.construct this_ n) hlen
  have hcache : (Cache.construct this_ n).m_cache = (List.range n).map some := by
    rw [Cache_construct_eq]
  refine ⟨?_, ?_, ?_, ?_, ?_⟩
  · rw [hall.1, List.length_reverse, hlen]
  · rw [hall.1, List.nodup_reverse, hcache]
    exact List.Nodup.map (Option.some_injective Nat) (List.nodup_range n)
  · intro r hr
    rw [hall.1, List.mem_reverse, hcache] at hr
    rcases List.mem_map.1 hr with ⟨i, hi, hri⟩
    have hlt : i < n := List.mem_range.1 hi
    refine ⟨i, hri.symm, hlt, ?_⟩
    rw [Cache_construct_eq]
    exact List.getElem?_replicate_of_lt hlt
  · rw [hall.2]
    rfl
  · intro c e
    unfold Cache.put Cache.get
    simp only [List.getLast?_concat, List.dropLast_concat]

/-- Witness for C36: a cache of three elements hands out `&m_base[2]`,
`&m_base[1]`, `&m_base[0]` and then null. -/
theorem Cache_get_put_witness :
    (Cache.getN 3 (Cache.construct 1 3)).1 = [some 2, some 1, some 0] ∧
    (Cache.getN 3 (Cache.construct 1 3)).2.get =
      (none, (Cache.getN 3 (Cache.construct 1 3)).2) :=
  ⟨by decide, (Cache_get_put 1 3).2.2.2.1⟩

/-! ## Order of the tasks in the write queues -/

/-- The batches formed by `drainQueue`, one after the other, followed by the
queue it leaves, are the queue it was given. -/
theorem drainQueue_flatten (max_rbuf : Int) :
    ∀ (n : Nat) (queue : List WriteTask) (counter : Nat),
      (drainQueue max_rbuf n queue counter).1.flatten ++
        (drainQueue max_rbuf n queue counter).2.1 = queue := by
  intro n
  induction n with
  | zero =>
    intro queue counter
    simp [drainQueue]
  | succ n ih =>
    intro queue counter
    by_cases hq : queue = []
    · simp [drainQueue, hq]
    · simp only [drainQueue, if_neg hq]
      have ha := (takeBatch_append max_rbuf
        (if queue.length > kBinlogSendBatchNum then kBinlogSendBatchNum else queue.length)
        0 queue counter).1
      have h1 := ih (takeBatch max_rbuf
        (if queue.length > kBinlogSendBatchNum then kBinlogSendBatchNum else queue.length)
        0 queue counter).2.1 (takeBatch max_rbuf
        (if queue.length > kBinlogSendBatchNum then kBinlogSendBatchNum else queue.length)
        0 queue counter).2.2
      by_cases hb : (takeBatch max_rbuf
          (if queue.length > kBinlogSendBatchNum then kBinlogSendBatchNum else queue.length)
          0 queue counter).1 = []
      · rw [if_pos hb, h1]
        rw [hb, List.nil_append] at ha
        exact ha
      · rw [if_neg hb, List.flatten_cons, List.append_assoc, h1]
        exact ha

/-- C38: in one `ConsumeWriteQueue` call on a write-queue map (one queue per
key), for every peer the batches formed for it, in the order they were formed,
followed by the tasks that draining left in its queue, are exactly the tasks its
queue held before the call. The batches are the entry of the peer in
`to_send_map` (there is no entry when no batch was formed), and the queue left
is its queue in the map when the call returns, unless a failed send had the
queue erased. -/
theorem ConsumeWriteQueue_fifo (max_rbuf : Int) (parse : String → Option (String × Int))
    (send : String → Int → Nat → List WriteTask → Status)
    (write_queues_ : List (String × List WriteTask))
    (hkeys : (write_queues_.map Prod.fst).Nodup)
    (q : String × List WriteTask) (hq : q ∈ write_queues_) :
    ∃ (batches : List (List WriteTask)) (left : List WriteTask),
      batches.flatten ++ left = q.2 ∧
      (∀ e ∈ (ConsumeWriteQueue max_rbuf parse send write_queues_).to_send_map,
        e.1 = q.1 → e.2 = batches) ∧
      (batches ≠ [] →
        (q.1, batches) ∈ (ConsumeWriteQueue max_rbuf parse send write_queues_).to_send_map) ∧
      (batches = [] →
        q.1 ∉ (ConsumeWriteQueue max_rbuf parse send write_queues_).to_send_map.map Prod.fst) ∧
      (∀ e ∈ (ConsumeWriteQueue max_rbuf parse send write_queues_).write_queues_,
        e.1 = q.1 → e.2 = left) ∧
      (q.1 ∉ (ConsumeWriteQueue max_rbuf parse send write_queues_).to_delete →
        (q.1, left) ∈ (ConsumeWriteQueue max_rbuf parse send write_queues_).write_queues_) := by
  obtain ⟨h1, h2, _⟩ := drainAll_eq max_rbuf write_queues_ 0
  have hentry : ∀ e ∈ (drainAll max_rbuf write_queues_ 0).1, e.1 = q.1 →
      e.2 = (drainQueue max_rbuf kBinlogSendPacketNum q.2 0).1 := by
    intro e he hek
    rw [h1] at he
    rcases (mem_to_send_map max_rbuf write_queues_ e).1 he with ⟨q2, hq2, _, heq⟩
    have hk2 : q2.1 = q.1 := by
      rw [heq] at hek
      exact hek
    have hqq : q2 = q := List.inj_on_of_nodup_map hkeys hq2 hq hk2
    rw [heq, hqq]
  refine ⟨(drainQueue max_rbuf kBinlogSendPacketNum q.2 0).1,
    (drainQueue max_rbuf kBinlogSendPacketNum q.2 0).2.1,
    drainQueue_flatten max_rbuf kBinlogSendPacketNum q.2 0, ?_, ?_, ?_, ?_, ?_⟩
  · unfold ConsumeWriteQueue
    simp only []
    exact hentry
  · intro hne
    unfold ConsumeWriteQueue
    simp only []
    rw [h1]
    exact (mem_to_send_map max_rbuf write_queues_ _).2 ⟨q, hq, hne, rfl⟩
  · intro hnil hmem
    unfold ConsumeWriteQueue at hmem
    simp only [] at hmem
    rcases List.mem_map.1 hmem with ⟨e, he, hek⟩
    have h3 := hentry e he hek
    rw [h1] at he
    rcases (mem_to_send_map max_rbuf write_queues_ e).1 he with ⟨q2, _, hne, heq⟩
    rw [heq] at h3
    simp only [] at h3
    exact hne (h3.trans hnil)
  · intro e he hek
    unfold ConsumeWriteQueue at he
    simp only [] at he
    have he2 := (List.mem_filter.1 he).1
    rw [h2] at he2
    rcases List.mem_map.1 he2 with ⟨q2, hq2, heq⟩
    have hk2 : q2.1 = q.1 := by
      rw [← heq] at hek
      exact hek
    have hqq : q2 = q := List.inj_on_of_nodup_map hkeys hq2 hq hk2
    rw [← heq, hqq]
  · intro hnd
    unfold ConsumeWriteQueue at hnd ⊢
    simp only [] at hnd ⊢
    apply List.mem_filter.2
    constructor
    · rw [h2]
      exact List.mem_map.2 ⟨q, hq, rfl⟩
    · simpa using hnd

/-- Witness for C38: the three tasks queued for `10.0.0.5:9221` leave in one
batch, in their order, and nothing is left. -/
theorem ConsumeWriteQueue_fifo_witness :
    (sampleQueues.map Prod.fst).Nodup ∧
    (ConsumeWriteQueue 536870912 sampleParse (fun _ _ _ _ => Status.OK)
      sampleQueues).to_send_map =
      [("10.0.0.5:9221",
          [[sampleTask "set a 1", sampleTask "set b 2", sampleTask "set c 3"]]),
        ("10.0.0.6:9221", [[sampleTask "set a 1"]])] ∧
    (∃ (batches : List (List WriteTask)) (left : List WriteTask),
      batches.flatten ++ left =
        [sampleTask "set a 1", sampleTask "set b 2", sampleTask "set c 3"] ∧
      (batches ≠ [] → ("10.0.0.5:9221", batches) ∈
        (ConsumeWriteQueue 536870912 sampleParse (fun _ _ _ _ => Status.OK)
          sampleQueues).to_send_map)) := by
  refine ⟨by decide, by decide, ?_⟩
  rcases ConsumeWriteQueue_fifo 536870912 sampleParse (fun _ _ _ _ => Status.OK) sampleQueues
    (by decide)
    ("10.0.0.5:9221", [sampleTask "set a 1", sampleTask "set b 2", sampleTask "set c 3"])
    (by decide) with ⟨batches, left, h1, _, h3, _⟩
  exact ⟨batches, left, h1, h3⟩

/-! ## A payload beyond the range of `int` -/

/-- A string of `n` letters `a` is `n` bytes long. -/
theorem utf8ByteSize_replicate (n : Nat) :
    (String.mk (List.replicate n 'a')).utf8ByteSize = n := by
  have hgo : ∀ k : Nat, String.utf8ByteSize.go (List.replicate k 'a') = k := by
    intro k
    induction k with
    | zero => rfl
    | succ k ih =>
      rw [List.replicate_succ]
      show String.utf8ByteSize.go (List.replicate k 'a') + ('a' : Char).utf8Size = k + 1
      rw [ih]
      rfl
  exact hgo n

/-- The payload of `hugeTask` is `2^32` bytes long. -/
theorem hugeTask_size : hugeTask.binlog_.utf8ByteSize = 4294967296 :=
  utf8ByteSize_replicate 4294967296

/-- A first task of `2^32` bytes leaves `batch_size` at 0 (the low 32 bits of the
sum), so it passes the test against any non-negative limit and is moved to the
batch. -/
theorem takeBatch_huge (max_rbuf : Int) (hmax : 0 ≤ max_rbuf) (task : WriteTask)
    (hsize : task.binlog_.utf8ByteSize = 4294967296) (counter : Nat) :
    takeBatch max_rbuf 1 0 [task] counter = ([task], [], counter + 1) := by
  have hconv : toInt32 (((0 : Int) + ((4294967296 : Nat) : Int)) % 2 ^ 64).toNat =
      0 := by decide
  have hc : ¬ (toInt32 (((0 : Int) + (task.binlog_.utf8ByteSize : Int)) % 2 ^ 64).toNat >
      max_rbuf) := by
    rw [hsize, hconv]
    omega
  simp only [takeBatch, if_neg hc]

/-- When the head of the queue is larger than `max_rbuf` and below `2^31` bytes,
so that `batch_size` holds its size, the passes of `drainQueue` form no batch and
leave the queue and `counter` as they were. -/
theorem drainQueue_head_too_large (max_rbuf : Int) (task : WriteTask)
    (rest : List WriteTask) (hbig : max_rbuf < (task.binlog_.utf8ByteSize : Int))
    (hint : task.binlog_.utf8ByteSize < 2 ^ 31) :
    ∀ (n counter : Nat),
      drainQueue max_rbuf n (task :: rest) counter = ([], task :: rest, counter) := by
  have hconv : toInt32 (((0 : Int) + (task.binlog_.utf8ByteSize : Int)) % 2 ^ 64).toNat =
      (task.binlog_.utf8ByteSize : Int) := by
    have hnn : (0 : Int) ≤ (task.binlog_.utf8ByteSize : Int) := Int.ofNat_nonneg _
    rw [Int.zero_add, Int.emod_eq_of_lt hnn (by omega), Int.toNat_ofNat, toInt32_small _ hint]
  have hc : toInt32 (((0 : Int) + (task.binlog_.utf8ByteSize : Int)) % 2 ^ 64).toNat >
      max_rbuf := by
    rw [hconv]
    exact hbig
  have htake : ∀ (k counter : Nat),
      takeBatch max_rbuf (k + 1) 0 (task :: rest) counter = ([], task :: rest, counter) := by
    intro k counter
    simp only [takeBatch, if_pos hc]
  intro n
  induction n with
  | zero =>
    intro counter
    rfl
  | succ n ih =>
    intro counter
    have hne : ¬ (task :: rest = []) := List.cons_ne_nil task rest
    have hk : ∃ k, (if (task :: rest).length > kBinlogSendBatchNum then kBinlogSendBatchNum
        else (task :: rest).length) = k + 1 := by
      by_cases hl : (task :: rest).length > kBinlogSendBatchNum
      · rw [if_pos hl]
        exact ⟨99, rfl⟩
      · rw [if_neg hl]
        exact ⟨rest.length, rfl⟩
    rcases hk with ⟨k, hk⟩
    simp only [drainQueue, if_neg hne]
    rw [hk, htake k counter]
    simp only [if_true]
    exact ih counter

/-- An empty queue is left alone by `drainQueue`. -/
theorem drainQueue_nil (max_rbuf : Int) (n counter : Nat) :
    drainQueue max_rbuf n [] counter = ([], [], counter) := by
  cases n with
  | zero => rfl
  | succ n => simp only [drainQueue, if_true]

/-- A task of `2^32` bytes alone in a queue is moved into a batch by the first
pass of `drainQueue`, whatever the non-negative limit. -/
theorem drainQueue_huge (max_rbuf : Int) (hmax : 0 ≤ max_rbuf) (task : WriteTask)
    (hsize : task.binlog_.utf8ByteSize = 4294967296) (n : Nat) :
    drainQueue max_rbuf (n + 1) [task] 0 = ([[task]], [], 1) := by
  have ht := takeBatch_huge max_rbuf hmax task hsize 0
  have hne : ¬ ([task] = ([] : List WriteTask)) := List.cons_ne_nil _ _
  have hk : (if [task].length > kBinlogSendBatchNum then kBinlogSendBatchNum
      else [task].length) = 1 := by
    simp [kBinlogSendBatchNum]
  simp only [drainQueue, if_neg hne]
  rw [hk, ht]
  simp only [drainQueue_nil, List.cons_ne_nil, if_false]

/-- A task of `2^32` bytes alone in the queue of `10.0.0.5:9221` is moved into a
batch whatever the non-negative limit. -/
theorem ConsumeWriteQueue_huge (max_rbuf : Int) (hmax : 0 ≤ max_rbuf) (task : WriteTask)
    (hsize : task.binlog_.utf8ByteSize = 4294967296) :
    ConsumeWriteQueue max_rbuf sampleParse (fun _ _ _ _ => Status.OK)
        [("10.0.0.5:9221", [task])] =
      { counter := 1,
        write_queues_ := [("10.0.0.5:9221", [])],
        to_send_map := [("10.0.0.5:9221", [[task]])],
        to_delete := [] } := by
  have hd : drainQueue max_rbuf kBinlogSendPacketNum [task] 0 = ([[task]], [], 1) :=
    drainQueue_huge max_rbuf hmax task hsize 39
  have hall : drainAll max_rbuf [("10.0.0.5:9221", [task])] 0 =
      ([("10.0.0.5:9221", [[task]])], [("10.0.0.5:9221", [])], 1) := by
    simp only [drainAll, hd, List.cons_ne_nil, if_false]
  unfold ConsumeWriteQueue
  simp only [hall]
  have hp : sampleParse "10.0.0.5:9221" = some ("10.0.0.5", 9221) := by decide
  have hs : sendAll sampleParse (fun _ _ _ _ => Status.OK)
      [("10.0.0.5:9221", [[task]])] = [] := by
    simp only [sendAll, hp, sendBatches]
    simp [Status.ok]
  rw [hs]
  simp

/-- C39: with the limit at `2^29` and a task of `2^32` bytes alone in the queue of
`10.0.0.5:9221`, `ConsumeWriteQueue` moves the task into a batch, empties the
queue and returns 1: the `int` sum `batch_size` keeps the low 32 bits of the
size, which are 0, and 0 is not above the limit. -/
theorem ConsumeWriteQueue_huge_head_taken :
    (536870912 : Int) < (hugeTask.binlog_.utf8ByteSize : Int) ∧
    ConsumeWriteQueue 536870912 sampleParse (fun _ _ _ _ => Status.OK)
        [("10.0.0.5:9221", [hugeTask])] =
      { counter := 1,
        write_queues_ := [("10.0.0.5:9221", [])],
        to_send_map := [("10.0.0.5:9221", [[hugeTask]])],
        to_delete := [] } :=
  ⟨by rw [hugeTask_size]; decide,
    ConsumeWriteQueue_huge 536870912 (by decide) hugeTask hugeTask_size⟩

/-! ## Reading the binlog for a slave -/

/-- The read loop writes the window, the sent offset and the last send time of
the slave, and nothing else. -/
theorem readLoop_frame (micros : Nat) :
    ∀ (n : Nat) (slave : SlaveNode) (stream : List GetResult) (tasks : List WriteTask),
      (readLoop micros n slave stream tasks).slave =
        { slave with
          sync_win := (readLoop micros n slave stream tasks).slave.sync_win
          sent_offset := (readLoop micros n slave stream tasks).slave.sent_offset
          last_send_time_ := (readLoop micros n slave stream tasks).slave.last_send_time_ } := by
  intro n
  induction n with
  | zero =>
    intro slave stream tasks
    simp only [readLoop]
  | succ n ih =>
    intro slave stream tasks
    cases stream with
    | nil => simp only [readLoop]
    | cons g rest =>
      cases g with
      | endFile => simp only [readLoop]
      | corruption => simp only [readLoop]
      | ioError => simp only [readLoop]
      | record msg filenum offset =>
        simp only [readLoop]
        have h := ih { slave with
          sync_win := slave.sync_win.Push ⟨⟨filenum, offset⟩, false⟩
          sent_offset := ⟨filenum, offset⟩
          last_send_time_ := micros } rest (tasks ++ [chipTask slave msg ⟨filenum, offset⟩])
        rw [h]

/-- The tasks collected by the read loop and the items it pushes to the window
carry the same offsets in the same order; there are at most as many as there
were iterations; and the sent offset is that of the last of them. -/
theorem readLoop_tasks (micros : Nat) :
    ∀ (n : Nat) (slave : SlaveNode) (stream : List GetResult) (tasks : List WriteTask),
      ∃ new : List WriteTask,
        (readLoop micros n slave stream tasks).tasks = tasks ++ new ∧
        (readLoop micros n slave stream tasks).slave.sync_win.win_ =
          slave.sync_win.win_ ++ new.map (fun task => SyncWinItem.ofOffset task.offset_) ∧
        new.length ≤ n ∧
        (readLoop micros n slave stream tasks).slave.sent_offset =
          ((new.map (fun task => task.offset_)).getLast?).getD slave.sent_offset := by
  intro n
  induction n with
  | zero =>
    intro slave stream tasks
    exact ⟨[], by simp [readLoop]⟩
  | succ n ih =>
    intro slave stream tasks
    cases stream with
    | nil => exact ⟨[], by simp [readLoop]⟩
    | cons g rest =>
      cases g with
      | endFile => exact ⟨[], by simp [readLoop]⟩
      | corruption => exact ⟨[], by simp [readLoop]⟩
      | ioError => exact ⟨[], by simp [readLoop]⟩
      | record msg filenum offset =>
        rcases ih { slave with
          sync_win := slave.sync_win.Push ⟨⟨filenum, offset⟩, false⟩
          sent_offset := ⟨filenum, offset⟩
          last_send_time_ := micros } rest (tasks ++ [chipTask slave msg ⟨filenum, offset⟩])
          with ⟨new, h1, h2, h3, h4⟩
        refine ⟨chipTask slave msg ⟨filenum, offset⟩ :: new, ?_, ?_, ?_, ?_⟩
        · simp only [readLoop]
          rw [h1, List.append_assoc]
          rfl
        · simp only [readLoop]
          rw [h2]
          simp [SyncWindow.Push, SyncWinItem.ofOffset, chipTask]
        · simp only [List.length_cons]
          omega
        · simp only [readLoop]
          rw [h4]
          cases new with
          | nil => rfl
          | cons t ts =>
            simp only [List.map_cons]
            rw [List.getLast?_cons_cons,
              List.getLast?_eq_getLast _ (List.cons_ne_nil t.offset_ _)]
            rfl

/-- C37: the items that `ReadBinlogFileToWq` appends to the window carry the
offsets of the tasks collected by its loop, in their order, and the tasks are
handed to `ProduceWriteQueue` only when the function returns OK. For a slave
with an empty window whose reader delivers the record `(1, 10)` and then
Corruption, the function returns Corruption, the window holds `(1, 10)`, the sent
offset is `(1, 10)`, and no task is handed over. -/
theorem ReadBinlogFileToWq_error_drops_tasks :
    (∀ (sync_window_size : Int) (micros : Nat) (slave : SlaveNode) (stream : List GetResult),
      (ReadBinlogFileToWq sync_window_size micros slave stream).slave.sync_win.win_ =
        slave.sync_win.win_ ++
          (readLoop micros (SyncWindow.Remainings sync_window_size slave.sync_win).toNat slave
            stream []).tasks.map (fun task => SyncWinItem.ofOffset task.offset_) ∧
      (ReadBinlogFileToWq sync_window_size micros slave stream).tasks =
        if (readLoop micros (SyncWindow.Remainings sync_window_size slave.sync_win).toNat slave
            stream []).status.ok then
          (readLoop micros (SyncWindow.Remainings sync_window_size slave.sync_win).toNat slave
            stream []).tasks
        else []) ∧
    (ReadBinlogFileToWq 9000 5 readingSlave
      [GetResult.record "set a 1" 1 10, GetResult.corruption]).status = Status.Corruption ∧
    (ReadBinlogFileToWq 9000 5 readingSlave
      [GetResult.record "set a 1" 1 10, GetResult.corruption]).slave.sync_win.win_ =
        [⟨⟨1, 10⟩, false⟩] ∧
    (ReadBinlogFileToWq 9000 5 readingSlave
      [GetResult.record "set a 1" 1 10, GetResult.corruption]).slave.sent_offset = ⟨1, 10⟩ ∧
    (ReadBinlogFileToWq 9000 5 readingSlave
      [GetResult.record "set a 1" 1 10, GetResult.corruption]).tasks = [] := by
  refine ⟨?_, by decide, by decide, by decide, by decide⟩
  intro sync_window_size micros slave stream
  rcases readLoop_tasks micros (SyncWindow.Remainings sync_window_size slave.sync_win).toNat
    slave stream [] with ⟨new, h1, h2, _, _⟩
  rw [List.nil_append] at h1
  unfold ReadBinlogFileToWq
  by_cases hok : (readLoop micros (SyncWindow.Remainings sync_window_size slave.sync_win).toNat
      slave stream []).status.ok = true
  · simp only [if_pos hok]
    rw [h2, h1]
    refine ⟨rfl, ?_⟩
    first | rfl | trivial
  · simp only [if_neg hok]
    rw [h2, h1]
    refine ⟨rfl, ?_⟩
    first | rfl | trivial

/-! ## Activation of binlog sync -/

/-- `ReadBinlogFileToWq` leaves the slave the read loop leaves. -/
theorem ReadBinlogFileToWq_slave (sync_window_size : Int) (micros : Nat) (slave : SlaveNode)
    (stream : List GetResult) :
    (ReadBinlogFileToWq sync_window_size micros slave stream).slave =
      (readLoop micros (SyncWindow.Remainings sync_window_size slave.sync_win).toNat slave
        stream []).slave := by
  unfold ReadBinlogFileToWq
  by_cases hok : (readLoop micros (SyncWindow.Remainings sync_window_size slave.sync_win).toNat
      slave stream []).status.ok = true
  · rw [if_pos hok]
  · rw [if_neg hok]

/-- Reading for a slave leaves its states, its reader, its acked offset and its
identity as they were. -/
theorem readSlave_frame (sync_window_size : Int) (micros : Nat) (slave : SlaveNode)
    (streams : List (Nat × List GetResult)) (queues : List (String × List WriteTask)) :
    (readSlave sync_window_size micros slave streams queues).2.1.slave_state =
        slave.slave_state ∧
      (readSlave sync_window_size micros slave streams queues).2.1.b_state = slave.b_state ∧
      (readSlave sync_window_size micros slave streams queues).2.1.binlog_reader =
        slave.binlog_reader ∧
      (readSlave sync_window_size micros slave streams queues).2.1.acked_offset =
        slave.acked_offset ∧
      (readSlave sync_window_size micros slave streams queues).2.1.readerKey =
        slave.readerKey ∧
      (readSlave sync_window_size micros slave streams queues).2.1.endpoint =
        slave.endpoint := by
  unfold readSlave
  cases hr : slave.binlog_reader with
  | none =>
    simp only []
    refine ⟨?_, ?_, ?_, ?_, ?_, ?_⟩ <;> trivial
  | some r =>
    simp only []
    rw [ReadBinlogFileToWq_slave,
      readLoop_frame micros (SyncWindow.Remainings sync_window_size slave.sync_win).toNat slave
        (streamOf streams r) []]
    refine ⟨?_, ?_, ?_, ?_, ?_, ?_⟩ <;> trivial

/-- `SyncBinlogToWq` for a slave that reads from file: OK is returned and the
slave is read for. -/
theorem SyncBinlogToWq_readFromFile (w : MasterWorld) (sync_window_size : Int) (micros : Nat)
    (ip : String) (port : Int) (pre post : List SlaveNode) (s : SlaveNode)
    (hsplit : w.part.slaves_ = pre ++ s :: post)
    (hpre : ∀ x ∈ pre, x.isAt ip port = false) (hs : s.isAt ip port = true)
    (hb : s.b_state = BinlogSyncState.kReadFromFile) :
    w.SyncBinlogToWq sync_window_size micros ip port =
      (Status.OK,
        { w with
          part :=
            { w.part with
              slaves_ := pre ++
                (readSlave sync_window_size micros s w.streams w.write_queues_).2.1 :: post }
          streams := (readSlave sync_window_size micros s w.streams w.write_queues_).2.2.1
          write_queues_ :=
            (readSlave sync_window_size micros s w.streams w.write_queues_).2.2.2 }) := by
  have hget : GetSlaveNode w.part.slaves_ ip port = some s := by
    rw [hsplit]
    exact GetSlaveNode_split pre post s ip port hpre hs
  unfold MasterWorld.SyncBinlogToWq
  rw [hget]
  simp only [if_pos hb]
  rw [hsplit, modifySlave_split pre post s ip port _ hpre hs]

/-- A key is the same key as itself. -/
theorem sameKey_self (key : RmNode) : key.sameKey key = true := by
  unfold RmNode.sameKey
  simp

/-- A fetch that returns OK hands out a reader and records it at the head of the
checkouts, no checkout having been there for the key. -/
theorem Fetch_ok (m : BinlogReaderManager) (key : RmNode)
    (h : (m.FetchBinlogReader key).1 = Status.OK) :
    ∃ r : Nat, (m.FetchBinlogReader key).2.1 = some r ∧
      (m.FetchBinlogReader key).2.2.occupied_ = (key, r) :: m.occupied_ ∧
      (∀ e ∈ m.occupied_, e.1.sameKey key = false) := by
  unfold BinlogReaderManager.FetchBinlogReader at h ⊢
  by_cases hf : (m.occupied_.find? (fun e => e.1.sameKey key)).isSome = true
  · rw [if_pos hf] at h
    exact absurd h (by simp)
  · have hnone : ∀ e ∈ m.occupied_, e.1.sameKey key = false := by
      intro e he
      cases hk : e.1.sameKey key
      · rfl
      · exact absurd (List.find?_isSome.2 ⟨e, he, hk⟩) hf
    rw [if_neg hf]
    cases hv : m.vacant_ with
    | nil => exact ⟨m.constructed, rfl, rfl, hnone⟩
    | cons reader rest => exact ⟨reader, rfl, rfl, hnone⟩

/-- The release that follows a successful fetch for the same key puts the reader
at the back of the vacant list and leaves the checkouts as they were before the
fetch. -/
theorem Release_after_Fetch (m : BinlogReaderManager) (key : RmNode) (r : Nat)
    (h : (m.FetchBinlogReader key).1 = Status.OK)
    (hr : (m.FetchBinlogReader key).2.1 = some r) :
    ((m.FetchBinlogReader key).2.2.ReleaseBinlogReader key).1 = Status.OK ∧
      ((m.FetchBinlogReader key).2.2.ReleaseBinlogReader key).2.occupied_ = m.occupied_ ∧
      ((m.FetchBinlogReader key).2.2.ReleaseBinlogReader key).2.vacant_ =
        (m.FetchBinlogReader key).2.2.vacant_ ++ [r] := by
  rcases Fetch_ok m key h with ⟨r2, hr2, hocc, hnone⟩
  have hrr : r2 = r := by
    rw [hr2] at hr
    exact Option.some.inj hr
  subst hrr
  have hfind : (m.FetchBinlogReader key).2.2.occupied_.find? (fun e => e.1.sameKey key) =
      some (key, r2) := by
    rw [hocc]
    simp [List.find?, sameKey_self]
  have hfilter : (m.FetchBinlogReader key).2.2.occupied_.filter
      (fun x => ¬ x.1.sameKey key) = m.occupied_ := by
    rw [hocc, List.filter_cons_of_neg (by simp [sameKey_self]), List.filter_eq_self]
    intro e he
    simp [hnone e he]
  unfold BinlogReaderManager.ReleaseBinlogReader
  rw [hfind]
  simp only []
  exact ⟨trivial, hfilter, trivial⟩

/-- C31: `ActivateSlaveBinlogSync(ip, port, binlog, offset)` returns NotFound and
changes nothing when no slave is at the endpoint. When the first slave at the
endpoint can fetch a reader and the seek succeeds, the slave is put in state
BinlogSync with binlog state ReadFromFile, the fetched reader and
`sent_offset = acked_offset = offset`, and `SyncBinlogToWq` is run from there: OK
is returned, and the slave ends in BinlogSync and ReadFromFile, holding the
reader, which the pool records as checked out under the slave's key, with
`acked_offset = offset`. -/
theorem ActivateSlaveBinlogSync_success (w : MasterWorld) (sync_window_size : Int)
    (micros : Nat) (ip : String) (port : Int) (seek : BinlogOffset → Option (List GetResult))
    (offset : BinlogOffset) :
    ((∀ x ∈ w.part.slaves_, x.isAt ip port = false) →
      w.ActivateSlaveBinlogSync sync_window_size micros ip port seek offset =
        (Status.NotFound, w)) ∧
    (∀ (pre post : List SlaveNode) (s : SlaveNode) (st : List GetResult),
      w.part.slaves_ = pre ++ s :: post → (∀ x ∈ pre, x.isAt ip port = false) →
      s.isAt ip port = true → (w.pool.FetchBinlogReader s.readerKey).1 = Status.OK →
      seek offset = some st →
      ∃ r : Nat,
        (w.pool.FetchBinlogReader s.readerKey).2.1 = some r ∧
        w.ActivateSlaveBinlogSync sync_window_size micros ip port seek offset =
          MasterWorld.SyncBinlogToWq
            { w with
              part :=
                { w.part with
                  slaves_ := pre ++
                    { s with
                      slave_state := SlaveState.kSlaveBinlogSync
                      sent_offset := offset
                      acked_offset := offset
                      binlog_reader := some r
                      b_state := BinlogSyncState.kReadFromFile } :: post }
              pool := (w.pool.FetchBinlogReader s.readerKey).2.2
              streams := setStream w.streams r st }
            sync_window_size micros ip port ∧
        (w.ActivateSlaveBinlogSync sync_window_size micros ip port seek offset).1 =
          Status.OK ∧
        ∃ s2 : SlaveNode,
          (w.ActivateSlaveBinlogSync sync_window_size micros ip port seek
            offset).2.part.slaves_ = pre ++ s2 :: post ∧
          s2.slave_state = SlaveState.kSlaveBinlogSync ∧
          s2.b_state = BinlogSyncState.kReadFromFile ∧
          s2.binlog_reader = some r ∧
          s2.acked_offset = offset ∧
          (s.readerKey, r) ∈ (w.ActivateSlaveBinlogSync sync_window_size micros ip port seek
            offset).2.pool.occupied_) := by
  constructor
  · intro hnone
    unfold MasterWorld.ActivateSlaveBinlogSync
    rw [(GetSlaveNode_none_iff w.part.slaves_ ip port).2 hnone]
  · intro pre post s st hsplit hpre hs hfetch hseek
    rcases Fetch_ok w.pool s.readerKey hfetch with ⟨r, hr, hocc, _⟩
    have hget : GetSlaveNode w.part.slaves_ ip port = some s := by
      rw [hsplit]
      exact GetSlaveNode_split pre post s ip port hpre hs
    have hok : ¬ ¬ ((w.pool.FetchBinlogReader s.readerKey).1.ok = true) := by
      rw [hfetch]
      exact not_not.2 rfl
    have hact : w.ActivateSlaveBinlogSync sync_window_size micros ip port seek offset =
        MasterWorld.SyncBinlogToWq
          { w with
            part :=
              { w.part with
                slaves_ := pre ++
                  { s with
                    slave_state := SlaveState.kSlaveBinlogSync
                    sent_offset := offset
                    acked_offset := offset
                    binlog_reader := some r
                    b_state := BinlogSyncState.kReadFromFile } :: post }
            pool := (w.pool.FetchBinlogReader s.readerKey).2.2
            streams := setStream w.streams r st }
          sync_window_size micros ip port := by
      unfold MasterWorld.ActivateSlaveBinlogSync
      rw [hget]
      simp only [if_neg hok, hseek]
      rw [hsplit, modifySlave_split pre post s ip port _ hpre hs, hr]
      rfl
    have hsync := SyncBinlogToWq_readFromFile
      { w with
        part :=
          { w.part with
            slaves_ := pre ++
              { s with
                slave_state := SlaveState.kSlaveBinlogSync
                sent_offset := offset
                acked_offset := offset
                binlog_reader := some r
                b_state := BinlogSyncState.kReadFromFile } :: post }
        pool := (w.pool.FetchBinlogReader s.readerKey).2.2
        streams := setStream w.streams r st }
      sync_window_size micros ip port pre post
      { s with
        slave_state := SlaveState.kSlaveBinlogSync
        sent_offset := offset
        acked_offset := offset
        binlog_reader := some r
        b_state := BinlogSyncState.kReadFromFile } rfl hpre hs rfl
    have hframe := readSlave_frame sync_window_size micros
      { s with
        slave_state := SlaveState.kSlaveBinlogSync
        sent_offset := offset
        acked_offset := offset
        binlog_reader := some r
        b_state := BinlogSyncState.kReadFromFile }
      (setStream w.streams r st) w.write_queues_
    refine ⟨r, hr, hact, ?_, ?_⟩
    · rw [hact, hsync]
    · rw [hact, hsync]
      exact ⟨_, rfl, hframe.1, hframe.2.1, hframe.2.2.1, hframe.2.2.2.1, by
        rw [hocc]; exact List.mem_cons_self _ _⟩

/-- Witness for C31: the slave of `resyncStart` starts binlog sync at `(1, 0)`;
it ends in BinlogSync and ReadFromFile with reader `0` and `acked_offset` at
`(1, 0)`. -/
theorem ActivateSlaveBinlogSync_success_witness :
    resyncActivated.2.part.slaves_.map
        (fun slave => (slave.slave_state, slave.b_state, slave.binlog_reader,
          slave.acked_offset)) =
      [(SlaveState.kSlaveBinlogSync, BinlogSyncState.kReadFromFile, some 0, ⟨1, 0⟩)] ∧
    (resyncStart.ActivateSlaveBinlogSync 9000 5 "10.0.0.5" 9221 sampleSeek ⟨1, 0⟩).1 =
      Status.OK := by
  refine ⟨by decide, ?_⟩
  rcases (ActivateSlaveBinlogSync_success resyncStart 9000 5 "10.0.0.5" 9221 sampleSeek
    ⟨1, 0⟩).2 [] []
    { SlaveNode.construct "10.0.0.5" 9221 "db0" 0 11 7 with
      last_send_time_ := 0, last_recv_time_ := 0 }
    [GetResult.record "set a 1" 1 10, GetResult.record "set b 2" 1 20]
    (by decide) (by decide) (by decide) (by decide) (by decide) with ⟨r, _, _, h, _⟩
  exact h

/-- C32: when the first slave at the endpoint fetches a reader and the seek then
fails, `ActivateSlaveBinlogSync` returns Corruption; the pool has no checkout
for the slave's key and the reader is in the vacant list; of the slave only the
slave state, the two offsets and the reader handle are written, so its binlog
state and its window are as before; and the write queues and the readers'
positions are untouched. -/
theorem ActivateSlaveBinlogSync_seek_fails (w : MasterWorld) (sync_window_size : Int)
    (micros : Nat) (ip : String) (port : Int) (seek : BinlogOffset → Option (List GetResult))
    (offset : BinlogOffset) (pre post : List SlaveNode) (s : SlaveNode)
    (hsplit : w.part.slaves_ = pre ++ s :: post)
    (hpre : ∀ x ∈ pre, x.isAt ip port = false) (hs : s.isAt ip port = true)
    (hfetch : (w.pool.FetchBinlogReader s.readerKey).1 = Status.OK)
    (hseek : seek offset = none) :
    (w.ActivateSlaveBinlogSync sync_window_size micros ip port seek offset).1 =
      Status.Corruption ∧
    (¬ ∃ e ∈ (w.ActivateSlaveBinlogSync sync_window_size micros ip port seek
        offset).2.pool.occupied_, e.1.sameKey s.readerKey = true) ∧
    (∃ r : Nat, (w.pool.FetchBinlogReader s.readerKey).2.1 = some r ∧
      r ∈ (w.ActivateSlaveBinlogSync sync_window_size micros ip port seek
        offset).2.pool.vacant_ ∧
      (w.ActivateSlaveBinlogSync sync_window_size micros ip port seek offset).2.part.slaves_ =
        pre ++
          { s with
            slave_state := SlaveState.kSlaveBinlogSync
            sent_offset := offset
            acked_offset := offset
            binlog_reader := some r } :: post) ∧
    (w.ActivateSlaveBinlogSync sync_window_size micros ip port seek offset).2.write_queues_ =
      w.write_queues_ ∧
    (w.ActivateSlaveBinlogSync sync_window_size micros ip port seek offset).2.streams =
      w.streams := by
  rcases Fetch_ok w.pool s.readerKey hfetch with ⟨r, hr, _, hnone⟩
  have hrel := Release_after_Fetch w.pool s.readerKey r hfetch hr
  have hget : GetSlaveNode w.part.slaves_ ip port = some s := by
    rw [hsplit]
    exact GetSlaveNode_split pre post s ip port hpre hs
  have hok : ¬ ¬ ((w.pool.FetchBinlogReader s.readerKey).1.ok = true) := by
    rw [hfetch]
    exact not_not.2 rfl
  have hact : w.ActivateSlaveBinlogSync sync_window_size micros ip port seek offset =
      (Status.Corruption,
        { w with
          part :=
            { w.part with
              slaves_ := pre ++
                { s with
                  slave_state := SlaveState.kSlaveBinlogSync
                  sent_offset := offset
                  acked_offset := offset
                  binlog_reader := some r } :: post }
          pool := ((w.pool.FetchBinlogReader s.readerKey).2.2.ReleaseBinlogReader
            s.readerKey).2 }) := by
    unfold MasterWorld.ActivateSlaveBinlogSync
    rw [hget]
    simp only [if_neg hok, hseek]
    rw [hsplit, modifySlave_split pre post s ip port _ hpre hs, hr]
  rw [hact]
  refine ⟨rfl, ?_, ⟨r, hr, ?_, rfl⟩, rfl, rfl⟩
  · rintro ⟨e, he, hek⟩
    have he2 : e ∈ w.pool.occupied_ := by
      rw [← hrel.2.1]
      exact he
    rw [hnone e he2] at hek
    exact absurd hek (by simp)
  · show r ∈ ((w.pool.FetchBinlogReader s.readerKey).2.2.ReleaseBinlogReader
      s.readerKey).2.vacant_
    rw [hrel.2.2]
    simp

/-- Witness for C32: the slave of `resyncStart` asks for binlog sync and the seek
fails. -/
theorem ActivateSlaveBinlogSync_seek_fails_witness :
    (resyncStart.ActivateSlaveBinlogSync 9000 5 "10.0.0.5" 9221 (fun _ => none) ⟨1, 0⟩).1 =
      Status.Corruption ∧
    (resyncStart.ActivateSlaveBinlogSync 9000 5 "10.0.0.5" 9221 (fun _ => none)
      ⟨1, 0⟩).2.write_queues_ = resyncStart.write_queues_ :=
  ⟨(ActivateSlaveBinlogSync_seek_fails resyncStart 9000 5 "10.0.0.5" 9221 (fun _ => none)
      ⟨1, 0⟩ [] []
      { SlaveNode.construct "10.0.0.5" 9221 "db0" 0 11 7 with
        last_send_time_ := 0, last_recv_time_ := 0 }
      (by decide) (by decide) (by decide) (by decide) rfl).1,
    (ActivateSlaveBinlogSync_seek_fails resyncStart 9000 5 "10.0.0.5" 9221 (fun _ => none)
      ⟨1, 0⟩ [] []
      { SlaveNode.construct "10.0.0.5" 9221 "db0" 0 11 7 with
        last_send_time_ := 0, last_recv_time_ := 0 }
      (by decide) (by decide) (by decide) (by decide) rfl).2.2.2.1⟩

/-- C33: a slave is added and asks for binlog sync, the reader is fetched and the
seek fails: the activation returns Corruption, the reader `0` is back in the
vacant list with no checkout left, and the slave keeps the handle to it while
its binlog state is still `kNotSync`. A second slave that then starts binlog
sync is handed the same reader `0`. -/
theorem reader_kept_after_failed_seek :
    seekFailed.1 = Status.Corruption ∧
    (seekFailed.2.part.slaves_.map
        (fun slave => (slave.endpoint, slave.b_state, slave.binlog_reader)) =
      [(("10.0.0.5", 9221), BinlogSyncState.kNotSync, some 0)]) ∧
    seekFailed.2.pool.occupied_ = [] ∧
    seekFailed.2.pool.vacant_ = [0] ∧
    seekFailedThenOther.1 = Status.OK ∧
    (seekFailedThenOther.2.part.slaves_.map
        (fun slave => (slave.endpoint, slave.b_state, slave.binlog_reader)) =
      [(("10.0.0.5", 9221), BinlogSyncState.kNotSync, some 0),
       (("10.0.0.6", 9221), BinlogSyncState.kReadFromFile, some 0)]) := by
  decide

end Pika
